import Mathlib

/-!
# AuthArmor WebAuthn SDK (`src/index.ts`): codec, transcoder and ceremony flows

A shallow embedding of class `WebAuthnSDK`.

* A JavaScript string is a sequence of UTF-16 code units (`JSString`), so that
  `.length` counts what the source counts.
* An `ArrayBuffer` / `Uint8Array` is a list of numbers, read through
  `new Uint8Array(..)` modulo `2^8`.
* `window.atob` and `window.btoa` are platform functions; they are written out after
  the HTML standard (forgiving-base64 decode / encode).
* `JSON.parse` and `navigator.credentials` are platform capabilities and are taken
  as parameters (`Platform`); every call of a capability and every `console.log` is
  recorded in a trace of `Event`s.
* `parsePublicKey` is embedded a second time on a store of objects with addresses
  (`storeParsePublicKey`), and shown to agree with the embedding on values.
-/

namespace AuthArmor

/-! ## JavaScript strings -/

/-- A JavaScript string: its UTF-16 code units. -/
abbrev JSString := List Nat

/-- UTF-16 code units of one Unicode scalar value. -/
def utf16Char (c : Char) : List Nat :=
  if c.toNat < 65536 then [c.toNat]
  else [55296 + (c.toNat - 65536) / 1024, 56320 + (c.toNat - 65536) % 1024]

/-- The JavaScript string written as the literal `s`. -/
def utf16 (s : String) : JSString := s.toList.flatMap utf16Char

/-- `text.replace(/c/g, r)` for a pattern that matches exactly the code unit `c`. -/
def replaceAll (c : Nat) (r : JSString) (text : JSString) : JSString :=
  text.flatMap fun x => if x = c then r else [x]

/-- `String.fromCharCode(n)`: the one-unit string with code `n` modulo `2^16`. -/
def fromCharCode (n : Nat) : JSString := [n % 65536]

/-! ## Errors -/

/-- The exceptions that can leave the SDK. -/
inductive JSError where
  /-- `DOMException` named `InvalidCharacterError`, thrown by `atob` and `btoa`. -/
  | invalidCharacterError
  /-- `TypeError`: a property read on `null`/`undefined`, or a call of a non-function. -/
  | typeError
  /-- `new Error(message)` thrown by the SDK itself. -/
  | error (message : String)
  /-- Any failure raised by a platform capability (`SyntaxError`, `NotAllowedError`, ...). -/
  | platform (name : String)
  deriving DecidableEq, Repr

deriving instance DecidableEq for Except

/-! ## `window.btoa` and `window.atob` (HTML standard) -/

/-- The base64 alphabet of RFC 4648, table 1. -/
def base64Alphabet : List Nat :=
  utf16 "ABCDEFGHIJKLMNOPQRSTUVWXYZabcdefghijklmnopqrstuvwxyz0123456789+/"

/-- Code unit of the alphabet character for the 6-bit value `n`. -/
def base64Char (n : Nat) : Nat := base64Alphabet.getD n 0

/-- The 6-bit value of an alphabet character, `none` for any other code unit. -/
def base64Index (c : Nat) : Option Nat :=
  if base64Alphabet.indexOf c < 64 then some (base64Alphabet.indexOf c) else none

/-- Base64 encoding with padding (RFC 4648, section 4) of a byte sequence. -/
def base64Encode : List Nat → JSString
  | a :: b :: c :: rest =>
    let n := a * 65536 + b * 256 + c
    base64Char (n / 262144) :: base64Char (n / 4096 % 64) :: base64Char (n / 64 % 64)
      :: base64Char (n % 64) :: base64Encode rest
  | [a, b] =>
    let n := a * 65536 + b * 256
    [base64Char (n / 262144), base64Char (n / 4096 % 64), base64Char (n / 64 % 64), 61]
  | [a] =>
    let n := a * 65536
    [base64Char (n / 262144), base64Char (n / 4096 % 64), 61, 61]
  | [] => []

/-- `window.btoa(data)`: throws when a code unit exceeds `0xFF`, else encodes the
code units as bytes. -/
def btoa (data : JSString) : Except JSError JSString :=
  if data.any (fun c => decide (255 < c)) then .error .invalidCharacterError
  else .ok (base64Encode data)

/-- ASCII whitespace: TAB, LF, FF, CR, SPACE. -/
def isAsciiWhitespace (c : Nat) : Bool :=
  c = 9 || c = 10 || c = 12 || c = 13 || c = 32

/-- Remove one trailing `=` when there is one. -/
def dropLastEq (data : JSString) : JSString :=
  if data.getLast? = some 61 then data.dropLast else data

/-- The bytes held by a sequence of 6-bit values: 24 bits give three bytes; a final
buffer of 18 bits gives two bytes and of 12 bits one byte, the low bits discarded. -/
def sextetsToBytes : List Nat → List Nat
  | a :: b :: c :: d :: rest =>
    let n := a * 262144 + b * 4096 + c * 64 + d
    (n / 65536) :: (n / 256 % 256) :: (n % 256) :: sextetsToBytes rest
  | [a, b, c] =>
    let n := (a * 4096 + b * 64 + c) / 4
    [n / 256, n % 256]
  | [a, b] => [(a * 64 + b) / 16]
  | [_] => []
  | [] => []

/-- `window.atob(data)`: forgiving-base64 decode. ASCII whitespace is removed; when
the length is then a multiple of 4, one or two trailing `=` are removed; a length of
1 modulo 4 or a code unit outside the alphabet fails; the result is the string whose
code units are the decoded bytes. -/
def atob (data : JSString) : Except JSError JSString :=
  let data := data.filter fun c => !isAsciiWhitespace c
  let data := if data.length % 4 = 0 then dropLastEq (dropLastEq data) else data
  if data.length % 4 = 1 then .error .invalidCharacterError
  else if data.any (fun c => (base64Index c).isNone) then .error .invalidCharacterError
  else .ok (sextetsToBytes (data.filterMap base64Index))

/-! ## The codec of `WebAuthnSDK` -/

/-- The loop `while (encoded.length % 4) { encoded += "=" }`, with `fuel` bounding
the number of iterations. -/
def toNormalBase64.loop : Nat → JSString → JSString
  | 0, encoded => encoded
  | fuel + 1, encoded =>
    if encoded.length % 4 ≠ 0 then toNormalBase64.loop fuel (encoded ++ utf16 "=")
    else encoded

/-- `toNormalBase64(text)`. Three iterations always reach the loop's exit
(`toNormalBase64_loop_exit`, `toNormalBase64_loop_fuel`). -/
def toNormalBase64 (text : JSString) : JSString :=
  let encoded := replaceAll 95 (utf16 "/") (replaceAll 45 (utf16 "+") text)
  toNormalBase64.loop 3 encoded

/-- `new Uint8Array(x)` for `x` an `ArrayBuffer` (`some`) or `undefined` (`none`):
the buffer's contents as unsigned 8-bit numbers, and no elements for `undefined`. -/
def newUint8Array : Option (List Nat) → List Nat
  | some buffer => buffer.map (· % 256)
  | none => []

/-- `base64ToArrayBuffer(base64)`: each code unit of `atob`'s result is stored in a
`Uint8Array`, that is modulo `2^8`. -/
def base64ToArrayBuffer (base64 : JSString) : Except JSError (List Nat) := do
  let binary_string ← atob (toNormalBase64 base64)
  pure (binary_string.map (· % 256))

/-- `arrayBufferToBase64(buffer)`. -/
def arrayBufferToBase64 (buffer : Option (List Nat)) : Except JSError JSString := do
  let bytes := newUint8Array buffer
  let binary := bytes.foldl (fun binary b => binary ++ fromCharCode b) []
  let base64 ← btoa binary
  pure (replaceAll 61 [] (replaceAll 43 (utf16 "-") (replaceAll 47 (utf16 "_") base64)))

/-! ## JavaScript values -/

/-- The values `JSON.parse` can deliver, and `Uint8Array`s, which the transcoder puts
in place of base64url texts. A number is carried as an integer: no code here
inspects a number. -/
inductive JSValue where
  | undefined
  | null
  | boolean (b : Bool)
  | number (n : Int)
  | string (s : JSString)
  | array (items : List JSValue)
  | object (props : List (String × JSValue))
  | uint8Array (bytes : List Nat)
  deriving Repr

/-- The operator `typeof v`. -/
def typeof : JSValue → String
  | .undefined => "undefined"
  | .null => "object"
  | .boolean _ => "boolean"
  | .number _ => "number"
  | .string _ => "string"
  | .array _ => "object"
  | .object _ => "object"
  | .uint8Array _ => "object"

/-- The property read `v.key`, for a key that no built-in prototype defines (as
`allowCredentials`, `excludeCredentials`, `user`, `challenge`, `id`, `type`): a `TypeError` on `undefined` and `null`, the own property of an object,
and `undefined` in every other case. -/
def getProp (v : JSValue) (key : String) : Except JSError JSValue :=
  match v with
  | .undefined => .error .typeError
  | .null => .error .typeError
  | .object props => .ok ((props.lookup key).getD .undefined)
  | _ => .ok .undefined

/-- The own enumerable properties copied by the spread `{...v}`. -/
def spread : JSValue → List (String × JSValue)
  | .object props => props
  | .array items => items.enum.map fun p => (toString p.1, p.2)
  | .string s => s.enum.map fun p => (toString p.1, .string [p.2])
  | .uint8Array bytes => bytes.enum.map fun p => (toString p.1, .number p.2)
  | _ => []

/-- The property definition `key: v` in an object literal, after the properties
`props`: it overwrites the value of an existing key in place and is appended
otherwise. -/
def setProp (props : List (String × JSValue)) (key : String) (v : JSValue) :
    List (String × JSValue) :=
  if props.any (fun p => p.1 == key) then
    props.map fun p => if p.1 == key then (key, v) else p
  else props ++ [(key, v)]

/-- `Array.prototype.map` with a callback that may throw: the first throw ends the
iteration. -/
def arrayMap (f : JSValue → Except JSError JSValue) :
    List JSValue → Except JSError (List JSValue)
  | [] => .ok []
  | x :: xs => do
    let y ← f x
    let ys ← arrayMap f xs
    pure (y :: ys)

/-! ## Effects -/

/-- What the program does to the outside world. -/
inductive Event where
  /-- `console.log(args)`. -/
  | consoleLog (args : List JSValue)
  /-- `navigator.credentials.create(options)`. -/
  | credentialsCreate (options : JSValue)
  /-- `navigator.credentials.get(options)`. -/
  | credentialsGet (options : JSValue)
  deriving Repr

/-- The outcome of running a method: what it returns or throws, and the events it
caused, in order. -/
structure Run (α : Type) where
  result : Except JSError α
  trace : List Event

/-- The calls of a platform credential capability among the events of a trace. -/
def capabilityCalls (trace : List Event) : List Event :=
  trace.filter fun
    | .credentialsCreate _ => true
    | .credentialsGet _ => true
    | .consoleLog _ => false

/-- The `response` of a `PublicKeyCredential`; an absent (`undefined` or `null`)
member is `none`. -/
structure AuthenticatorResponse where
  attestationObject : Option (List Nat)
  authenticatorData : Option (List Nat)
  clientDataJSON : List Nat
  userHandle : Option (List Nat)
  deriving Repr

/-- The `PublicKeyCredential` a ceremony resolves with. -/
structure PublicKeyCredential where
  id : JSString
  rawId : List Nat
  response : AuthenticatorResponse
  /-- What `getClientExtensionResults()` returns. -/
  clientExtensionResults : JSValue
  deriving Repr

/-- The platform capabilities the SDK calls. A ceremony resolves with a credential
(`some`), resolves with `null` (`none`), or rejects. -/
structure Platform where
  jsonParse : JSString → Except JSError JSValue
  credentialsCreate : JSValue → Except JSError (Option PublicKeyCredential)
  credentialsGet : JSValue → Except JSError (Option PublicKeyCredential)

/-! ## Interfaces of `index.ts` -/

/-- Interface `Config`; `webauthnClientId` is `none` when the caller leaves it out. -/
structure Config where
  webauthnClientId : Option JSString

/-- Interface `StartRegisterResponse`. -/
structure StartRegisterResponse where
  fido2_json_options : JSString
  registration_id : JSString
  aa_sig : JSString

/-- Interface `StartLoginResponse`. -/
structure StartLoginResponse where
  fido2_json_options : JSString
  auth_request_id : JSString
  aa_guid : JSString

/-- Member `authenticator_response_data` of `CreateResponse` and `GetResponse`;
`none` is `undefined`. -/
structure AuthenticatorResponseData where
  id : JSString
  rawId : JSString
  attestation_object : JSString
  authenticator_data : Option JSString
  client_data : JSString
  user_handle : Option JSString
  extensions : JSValue

/-- Interface `CreateResponse`. -/
structure CreateResponse where
  authenticator_response_data : AuthenticatorResponseData
  registration_id : JSString
  aa_sig : JSString
  webauthn_client_id : JSString

/-- Interface `GetResponse`. -/
structure GetResponse where
  authenticator_response_data : AuthenticatorResponseData
  auth_request_id : JSString
  aa_guid : JSString
  webauthn_client_id : JSString

/-- Class `WebAuthnSDK`: its one private field. -/
structure WebAuthnSDK where
  webauthnClientId : JSString

/-- `constructor({ webauthnClientId = "" }: Config)`. -/
def WebAuthnSDK.constructor (config : Config) : WebAuthnSDK :=
  { webauthnClientId := config.webauthnClientId.getD (utf16 "") }

/-! ## The transcoder `parsePublicKey` -/

/-- `base64ToArrayBuffer(v)` for an argument of unchecked type: on anything but a
string, `text.replace(..)` in `toNormalBase64` throws a `TypeError`. -/
def base64ToArrayBufferAny : JSValue → Except JSError JSValue
  | .string base64 => do
    let bytes ← base64ToArrayBuffer base64
    pure (.uint8Array bytes)
  | _ => .error .typeError

/-- The callback `credential => ({ ...credential, id: base64ToArrayBuffer(credential.id) })`. -/
def parseCredential (credential : JSValue) : Except JSError JSValue := do
  let props := spread credential
  let id ← base64ToArrayBufferAny (← getProp credential "id")
  pure (.object (setProp props "id" id))

/-- `list?.map(parseCredential)`: `undefined` for `undefined` and `null`; a
`TypeError` when `list.map` is not a function. -/
def parseCredentials : JSValue → Except JSError JSValue
  | .undefined => .ok .undefined
  | .null => .ok .undefined
  | .array items => do
    let parsed ← arrayMap parseCredential items
    pure (.array parsed)
  | _ => .error .typeError

/-- The member `user` of the object literal of `parsePublicKey`, for the value
`publicKeyUser` of `publicKey.user`:
`typeof publicKey.user === "object" ? { ...publicKey.user, id: base64ToArrayBuffer(publicKey.user.id) } : publicKey.user`. -/
def parsePublicKey.user (publicKeyUser : JSValue) : Except JSError JSValue :=
  if typeof publicKeyUser = "object" then do
    let props := spread publicKeyUser
    let id ← base64ToArrayBufferAny (← getProp publicKeyUser "id")
    pure (.object (setProp props "id" id))
  else pure publicKeyUser

/-- The object literal of `parsePublicKey`, its members evaluated in source order. -/
def parsePublicKey.literal (publicKey : JSValue) : Except JSError JSValue := do
  let props := spread publicKey
  let allowCredentials ← parseCredentials (← getProp publicKey "allowCredentials")
  let excludeCredentials ← parseCredentials (← getProp publicKey "excludeCredentials")
  let user ← parsePublicKey.user (← getProp publicKey "user")
  let challenge ← base64ToArrayBufferAny (← getProp publicKey "challenge")
  pure (.object (setProp (setProp (setProp (setProp props
    "allowCredentials" allowCredentials) "excludeCredentials" excludeCredentials)
    "user" user) "challenge" challenge))

/-- `parsePublicKey(publicKey)`: builds the object, logs it, returns it. -/
def parsePublicKey (publicKey : JSValue) : Run JSValue :=
  match parsePublicKey.literal publicKey with
  | .error e => { result := .error e, trace := [] }
  | .ok parsedPublicKey =>
    { result := .ok parsedPublicKey
      trace := [.consoleLog [.string (utf16 "parsedPublicKey:"), parsedPublicKey]] }

/-! ## The ceremonies `create` and `get` -/

/-- The member `authenticator_response_data`, written the same in `create` and in
`get`. Any `ArrayBuffer` is truthy, so `a || b` is `a` when `a` is there, and
`x ? f(x) : undefined` applies `f` when `x` is there. -/
def authenticatorResponseData (attestation : PublicKeyCredential) :
    Except JSError AuthenticatorResponseData := do
  let rawId ← arrayBufferToBase64 (some attestation.rawId)
  let attestation_object ← arrayBufferToBase64
    (attestation.response.attestationObject <|> attestation.response.authenticatorData)
  let authenticator_data ←
    match attestation.response.authenticatorData with
    | some authenticatorData => some <$> arrayBufferToBase64 (some authenticatorData)
    | none => pure none
  let client_data ← arrayBufferToBase64 (some attestation.response.clientDataJSON)
  let user_handle ←
    match attestation.response.userHandle with
    | some userHandle => some <$> arrayBufferToBase64 (some userHandle)
    | none => pure none
  pure
    { id := attestation.id
      rawId := rawId
      attestation_object := attestation_object
      authenticator_data := authenticator_data
      client_data := client_data
      user_handle := user_handle
      extensions := attestation.clientExtensionResults }

/-- `create(start)`. -/
def create (env : Platform) (self : WebAuthnSDK) (start : StartRegisterResponse) :
    Run CreateResponse :=
  match env.jsonParse start.fido2_json_options with
  | .error e => { result := .error e, trace := [] }
  | .ok publicKey =>
    let parsed := parsePublicKey publicKey
    match parsed.result with
    | .error e => { result := .error e, trace := parsed.trace }
    | .ok parsedKey =>
      let options := JSValue.object [("publicKey", parsedKey)]
      let trace := parsed.trace ++ [.credentialsCreate options]
      match env.credentialsCreate options with
      | .error e => { result := .error e, trace := trace }
      | .ok none => { result := .error (.error "Registration failed!"), trace := trace }
      | .ok (some attestation) =>
        { result := do
            let data ← authenticatorResponseData attestation
            pure
              { authenticator_response_data := data
                registration_id := start.registration_id
                aa_sig := start.aa_sig
                webauthn_client_id := self.webauthnClientId }
          trace := trace }

/-- `get(start)`. -/
def get (env : Platform) (self : WebAuthnSDK) (start : StartLoginResponse) :
    Run GetResponse :=
  match env.jsonParse start.fido2_json_options with
  | .error e => { result := .error e, trace := [] }
  | .ok publicKey =>
    let parsed := parsePublicKey publicKey
    match parsed.result with
    | .error e => { result := .error e, trace := parsed.trace }
    | .ok parsedKey =>
      let options := JSValue.object [("publicKey", parsedKey)]
      let trace := parsed.trace ++ [.credentialsGet options]
      match env.credentialsGet options with
      | .error e => { result := .error e, trace := trace }
      | .ok none => { result := .error (.error "Login failed!"), trace := trace }
      | .ok (some attestation) =>
        { result := do
            let data ← authenticatorResponseData attestation
            pure
              { authenticator_response_data := data
                auth_request_id := start.auth_request_id
                aa_guid := start.aa_guid
                webauthn_client_id := self.webauthnClientId }
          trace := trace }

/-! ## Definitions used to state and prove the properties -/

/-- The 6-bit values of the base64 encoding of a byte sequence, padding left out. -/
def bytesToSextets : List Nat → List Nat
  | a :: b :: c :: rest =>
    let n := a * 65536 + b * 256 + c
    (n / 262144) :: (n / 4096 % 64) :: (n / 64 % 64) :: (n % 64) :: bytesToSextets rest
  | [a, b] =>
    let n := a * 65536 + b * 256
    [n / 262144, n / 4096 % 64, n / 64 % 64]
  | [a] =>
    let n := a * 65536
    [n / 262144, n / 4096 % 64]
  | [] => []

/-- Number of `=` that pad the encoding of `len` bytes. -/
def padCount (len : Nat) : Nat := (3 - len % 3) % 3

/-- What the two alphabet substitutions of `arrayBufferToBase64` do to one code unit. -/
def toUrlSafe (c : Nat) : Nat :=
  let c := if c = 47 then 95 else c
  if c = 43 then 45 else c

/-- What the two alphabet substitutions of `toNormalBase64` do to one code unit. -/
def fromUrlSafe (c : Nat) : Nat :=
  let c := if c = 45 then 43 else c
  if c = 95 then 47 else c

/-- The base64url character of a 6-bit value. -/
def base64urlChar (n : Nat) : Nat := toUrlSafe (base64Char n)

/-- The spec's `encode`: standard base64 encoding, then `+` replaced by `-` and `/` by
`_`, and every `=` removed. -/
def specEncode (b : List Nat) : JSString :=
  ((base64Encode b).map fun c => if c = 43 then 45 else if c = 47 then 95 else c).filter
    fun c => decide (c ≠ 61)

/-- The spec's "fully-padded standard base64 decoding" (RFC 4648, section 4): the
text is read four characters at a time; only the last four may end in `=` or `==`;
`none` when the text is not valid. -/
def standardBase64Decode : JSString → Option (List Nat)
  | [] => some []
  | [a, b, c, d] =>
    if c = 61 ∧ d = 61 then do
      let x ← base64Index a
      let y ← base64Index b
      pure [(x * 64 + y) / 16]
    else if d = 61 then do
      let x ← base64Index a
      let y ← base64Index b
      let z ← base64Index c
      pure [(x * 4096 + y * 64 + z) / 1024, (x * 4096 + y * 64 + z) / 4 % 256]
    else do
      let x ← base64Index a
      let y ← base64Index b
      let z ← base64Index c
      let w ← base64Index d
      let n := x * 262144 + y * 4096 + z * 64 + w
      pure [n / 65536, n / 256 % 256, n % 256]
  | a :: b :: c :: d :: rest => do
    let x ← base64Index a
    let y ← base64Index b
    let z ← base64Index c
    let w ← base64Index d
    let n := x * 262144 + y * 4096 + z * 64 + w
    let bytes ← standardBase64Decode rest
    pure (n / 65536 :: n / 256 % 256 :: n % 256 :: bytes)
  | _ => none

/-- What `atob` examines: `data` without ASCII whitespace and, when the length is
then a multiple of 4, without one or two trailing `=`. -/
def atobStripped (data : JSString) : JSString :=
  let data := data.filter fun c => !isAsciiWhitespace c
  if data.length % 4 = 0 then dropLastEq (dropLastEq data) else data

/-- The 6-bit value of a base64url character (`A`-`Z`, `a`-`z`, `0`-`9`, `-`, `_`),
`none` for any other code unit. -/
def base64urlIndex (c : Nat) : Option Nat :=
  if c = 43 ∨ c = 47 then none else base64Index (fromUrlSafe c)

/-- The bits that the last character of an unpadded encoding leaves unused are zero:
four bits when two characters remain, two bits when three remain. -/
def canonicalSextets : List Nat → Bool
  | _ :: _ :: _ :: _ :: rest => canonicalSextets rest
  | [_, _, c] => c % 4 = 0
  | [_, b] => b % 16 = 0
  | [_] => true
  | [] => true

/-- Unpadded canonical base64url text: every code unit is a base64url character and
the unused bits of the last one are zero. -/
def isCanonicalBase64url (t : JSString) : Bool :=
  t.all (fun c => (base64urlIndex c).isSome) && canonicalSextets (t.filterMap base64urlIndex)

/-- A ceremony description as `JSON.parse` delivers it, with two allowed credentials
and no excluded ones. -/
def exampleDescription : JSValue :=
  .object
    [("challenge", .string (utf16 "AAE")),
     ("user", .object [("id", .string (utf16 "AAI")), ("name", .string (utf16 "a")),
        ("displayName", .string (utf16 "A"))]),
     ("allowCredentials", .array
        [.object [("id", .string (utf16 "AQID")), ("type", .string (utf16 "public-key"))],
         .object [("id", .string (utf16 "BAU")), ("type", .string (utf16 "public-key"))]]),
     ("rp", .object [("id", .string (utf16 "example.com")), ("name", .string (utf16 "Example"))]),
     ("timeout", .number 60000)]

/-- What `parsePublicKey` returns for `exampleDescription`. -/
def exampleParsed : JSValue :=
  .object
    [("challenge", .uint8Array [0, 1]),
     ("user", .object [("id", .uint8Array [0, 2]), ("name", .string (utf16 "a")),
        ("displayName", .string (utf16 "A"))]),
     ("allowCredentials", .array
        [.object [("id", .uint8Array [1, 2, 3]), ("type", .string (utf16 "public-key"))],
         .object [("id", .uint8Array [4, 5]), ("type", .string (utf16 "public-key"))]]),
     ("rp", .object [("id", .string (utf16 "example.com")), ("name", .string (utf16 "Example"))]),
     ("timeout", .number 60000),
     ("excludeCredentials", .undefined)]

/-- The members of a description that hold no binary data. -/
def passThroughKeys : List String :=
  ["authenticatorSelection", "extensions", "pubKeyCredParams", "rp", "timeout", "status",
    "errorMessage"]

/-- The value `v` is a text that `base64ToArrayBuffer` rejects. -/
def decodeRejects : JSValue → Bool
  | .string s =>
    match base64ToArrayBuffer s with
    | .error _ => true
    | .ok _ => false
  | _ => false

/-- The value `list` is a list with an entry whose `id` is a text that
`base64ToArrayBuffer` rejects. -/
def hasRejectedId : JSValue → Bool
  | .array items =>
    items.any fun credential =>
      match getProp credential "id" with
      | .ok id => decodeRejects id
      | .error _ => false
  | _ => false

/-- The description `d` has a challenge, or an `allowCredentials` or
`excludeCredentials` entry `id`, that `base64ToArrayBuffer` rejects. -/
def hasRejectedField : JSValue → Bool
  | .object props =>
    decodeRejects ((props.lookup "challenge").getD .undefined)
      || hasRejectedId ((props.lookup "allowCredentials").getD .undefined)
      || hasRejectedId ((props.lookup "excludeCredentials").getD .undefined)
  | _ => false

/-- An object whose `id` is a text, as interfaces `Credential` and `User` declare. -/
def hasTextId : JSValue → Bool
  | .object props =>
    match props.lookup "id" with
    | some (.string _) => true
    | _ => false
  | _ => false

/-- An optional `Credential[]`: absent, or a list of objects with a text `id`. -/
def isCredentialList : JSValue → Bool
  | .undefined => true
  | .array items => items.all hasTextId
  | _ => false

/-- The text members of `d` are shaped as interface `PublicKey` declares them: the
credential lists are optional `Credential[]`, `user` is absent or an object with a
text `id`, and `challenge` is a text. -/
def isPublicKey : JSValue → Bool
  | .object props =>
    isCredentialList ((props.lookup "allowCredentials").getD .undefined)
      && isCredentialList ((props.lookup "excludeCredentials").getD .undefined)
      && (match props.lookup "user" with
          | none => true
          | some .undefined => true
          | some user => hasTextId user)
      && (match props.lookup "challenge" with
          | some (.string _) => true
          | _ => false)
  | _ => false

/-- A platform for examples: `JSON.parse` knows the one text `text`, which it parses to
`d`, and throws a `SyntaxError` on any other; both ceremonies resolve with
`credential`. -/
def stubPlatform (text : JSString) (d : JSValue) (credential : Option PublicKeyCredential) :
    Platform :=
  { jsonParse := fun t => if t = text then .ok d else .error (.platform "SyntaxError")
    credentialsCreate := fun _ => .ok credential
    credentialsGet := fun _ => .ok credential }

/-- The JSON text of `exampleDescription`. -/
def exampleOptionsText : JSString :=
  utf16 ("\x7b\"challenge\":\"AAE\",\"user\":\x7b\"id\":\"AAI\",\"name\":\"a\","
    ++ "\"displayName\":\"A\"\x7d,\"allowCredentials\":[\x7b\"id\":\"AQID\","
    ++ "\"type\":\"public-key\"\x7d,\x7b\"id\":\"BAU\",\"type\":\"public-key\"\x7d],"
    ++ "\"rp\":\x7b\"id\":\"example.com\",\"name\":\"Example\"\x7d,\"timeout\":60000\x7d")

/-- A registration start payload that carries `text`. -/
def registerStart (text : JSString) : StartRegisterResponse :=
  { fido2_json_options := text, registration_id := utf16 "R1", aa_sig := utf16 "S1" }

/-- A login start payload that carries `text`. -/
def loginStart (text : JSString) : StartLoginResponse :=
  { fido2_json_options := text, auth_request_id := utf16 "A1", aa_guid := utf16 "G1" }

/-- The JSON text `{"challenge":"A"}`; no base64 text has a length of 1 modulo 4. -/
def badChallengeText : JSString := utf16 "\x7b\"challenge\":\"A\"\x7d"

/-- What `JSON.parse` delivers for `badChallengeText`. -/
def badChallengeDescription : JSValue := .object [("challenge", .string (utf16 "A"))]

/-- The text that `arrayBufferToBase64` returns. -/
def encodeText (buffer : Option (List Nat)) : JSString :=
  (bytesToSextets (newUint8Array buffer)).map base64urlChar

/-- The member `authenticator_response_data` that `create` and `get` build for the
credential `attestation`, every encoding carried out. -/
def responseDataOf (attestation : PublicKeyCredential) : AuthenticatorResponseData :=
  { id := attestation.id
    rawId := encodeText (some attestation.rawId)
    attestation_object := encodeText
      (attestation.response.attestationObject <|> attestation.response.authenticatorData)
    authenticator_data :=
      attestation.response.authenticatorData.map fun b => encodeText (some b)
    client_data := encodeText (some attestation.response.clientDataJSON)
    user_handle := attestation.response.userHandle.map fun b => encodeText (some b)
    extensions := attestation.clientExtensionResults }

/-- The member `attestation_object` of `data` is the encoding of the attestation
object of `attestation` when there is one, and the encoding of its authenticator
data when there is authenticator data and no attestation object. -/
def FallbackEncoded (attestation : PublicKeyCredential) (data : AuthenticatorResponseData) :
    Prop :=
  (∀ ao, attestation.response.attestationObject = some ao →
      arrayBufferToBase64 (some ao) = .ok data.attestation_object)
    ∧ (attestation.response.attestationObject = none →
      ∀ ad, attestation.response.authenticatorData = some ad →
        arrayBufferToBase64 (some ad) = .ok data.attestation_object)

/-- The members `user_handle` and `authenticator_data` of `data` are absent when
`attestation` has no user handle, respectively no authenticator data, and are the
encoding of the value when there is one. -/
def OptionalsEncoded (attestation : PublicKeyCredential) (data : AuthenticatorResponseData) :
    Prop :=
  (attestation.response.userHandle = none → data.user_handle = none)
    ∧ (∀ uh, attestation.response.userHandle = some uh →
        ∃ t, arrayBufferToBase64 (some uh) = .ok t ∧ data.user_handle = some t)
    ∧ (attestation.response.authenticatorData = none → data.authenticator_data = none)
    ∧ (∀ ad, attestation.response.authenticatorData = some ad →
        ∃ t, arrayBufferToBase64 (some ad) = .ok t ∧ data.authenticator_data = some t)

/-- A credential as a registration ceremony returns it: an attestation object, no
authenticator data, no user handle. -/
def attestationCredential : PublicKeyCredential :=
  { id := utf16 "AQID"
    rawId := [1, 2, 3]
    response :=
      { attestationObject := some [4, 5]
        authenticatorData := none
        clientDataJSON := [6]
        userHandle := none }
    clientExtensionResults := .object [] }

/-- A credential as an authentication ceremony returns it: authenticator data and a
user handle, no attestation object. -/
def assertionCredential : PublicKeyCredential :=
  { id := utf16 "AQID"
    rawId := [1, 2, 3]
    response :=
      { attestationObject := none
        authenticatorData := some [7, 8, 9]
        clientDataJSON := [6]
        userHandle := some [0, 2] }
    clientExtensionResults := .object [] }

/-- The members `user_handle` and `authenticator_data` of `data` are the empty
string when `attestation` has a user handle, respectively authenticator data, of
length zero, and each is absent exactly when the value itself is absent. -/
def EmptyValuesEncoded (attestation : PublicKeyCredential)
    (data : AuthenticatorResponseData) : Prop :=
  (attestation.response.userHandle = some [] → data.user_handle = some [])
    ∧ (attestation.response.authenticatorData = some [] → data.authenticator_data = some [])
    ∧ (data.user_handle = none ↔ attestation.response.userHandle = none)
    ∧ (data.authenticator_data = none ↔ attestation.response.authenticatorData = none)

/-- A credential whose user handle and authenticator data are present and of length
zero. -/
def emptyValuesCredential : PublicKeyCredential :=
  { id := utf16 "AQID"
    rawId := [1, 2, 3]
    response :=
      { attestationObject := some [4, 5]
        authenticatorData := some []
        clientDataJSON := [6]
        userHandle := some [] }
    clientExtensionResults := .object [] }

/-- A credential whose response has neither an attestation object nor authenticator
data. -/
def bareCredential : PublicKeyCredential :=
  { id := utf16 "AQID"
    rawId := [1, 2, 3]
    response :=
      { attestationObject := none
        authenticatorData := none
        clientDataJSON := [6]
        userHandle := none }
    clientExtensionResults := .object [] }

/-- The JSON text `{"challenge":"A","allowCredentials":"abc"}`: the challenge is
rejected by decode, and `allowCredentials` is a text, not a list. -/
def unshapedListText : JSString :=
  utf16 "\x7b\"challenge\":\"A\",\"allowCredentials\":\"abc\"\x7d"

/-- What `JSON.parse` delivers for `unshapedListText`. -/
def unshapedListDescription : JSValue :=
  .object [("challenge", .string (utf16 "A")), ("allowCredentials", .string (utf16 "abc"))]

/-- The JSON text `{"challenge":"A","user":{"name":"a"}}`: the challenge is rejected
by decode, and `user` is an object without an `id`. -/
def unshapedUserText : JSString :=
  utf16 "\x7b\"challenge\":\"A\",\"user\":\x7b\"name\":\"a\"\x7d\x7d"

/-- What `JSON.parse` delivers for `unshapedUserText`. -/
def unshapedUserDescription : JSValue :=
  .object [("challenge", .string (utf16 "A")), ("user", .object [("name", .string (utf16 "a"))])]

/-! ## The transcoder on a store of objects

A second embedding of `parsePublicKey`, in which objects have an address in a store,
so that it can be said which objects a call creates and which it leaves as they were.
-/

/-- A value as the running program holds it: a primitive, or a reference to an object
that lives in the store. -/
inductive HValue where
  | undefined
  | null
  | boolean (b : Bool)
  | number (n : Int)
  | string (s : JSString)
  | ref (address : Nat)
  deriving DecidableEq, Repr

/-- An object in the store: a plain object, an array or a `Uint8Array`. -/
inductive Cell where
  | object (props : List (String × HValue))
  | array (items : List HValue)
  | uint8Array (bytes : List Nat)
  deriving DecidableEq, Repr

/-- The store: the objects that exist, each at its address, which is its position. -/
abbrev Store := List Cell

/-- What the program does to the outside world, with the values as it holds them. -/
inductive StoreEvent where
  | consoleLog (args : List HValue)
  | credentialsCreate (options : HValue)
  | credentialsGet (options : HValue)
  deriving DecidableEq, Repr

/-- A computation on the store: from the store before, the store after and what is
returned or thrown. -/
def StoreM (α : Type) : Type := Store → Store × Except JSError α

instance : Monad StoreM where
  pure a := fun σ => (σ, .ok a)
  bind x f := fun σ =>
    match x σ with
    | (σ1, .error e) => (σ1, .error e)
    | (σ1, .ok a) => f a σ1

/-- A step that does not touch the store. -/
def StoreM.lift {α : Type} (x : Store → Except JSError α) : StoreM α := fun σ => (σ, x σ)

/-- A new object is created: it is put at the end of the store, and the reference to
it is returned. -/
def StoreM.alloc (cell : Cell) : StoreM HValue := fun σ => (σ ++ [cell], .ok (.ref σ.length))

/-- The assignment `bytes[i] = code` on the `Uint8Array` at `address`: the element is
stored modulo `2^8`; an index outside the array changes nothing. -/
def StoreM.setByte (address i code : Nat) : StoreM Unit := fun σ =>
  match σ[address]? with
  | some (.uint8Array bytes) =>
    (σ.set address (.uint8Array (bytes.set i (code % 256))), .ok ())
  | _ => (σ, .ok ())

/-- The operator `typeof v`; every object in the store is of type `"object"`. -/
def storeTypeof : HValue → String
  | .undefined => "undefined"
  | .null => "object"
  | .boolean _ => "boolean"
  | .number _ => "number"
  | .string _ => "string"
  | .ref _ => "object"

/-- The property read `v.key` in the store `σ` (see `getProp`). -/
def storeGetProp (σ : Store) (v : HValue) (key : String) : Except JSError HValue :=
  match v with
  | .undefined => .error .typeError
  | .null => .error .typeError
  | .ref address =>
    match σ[address]? with
    | some (.object props) => .ok ((props.lookup key).getD .undefined)
    | _ => .ok .undefined
  | _ => .ok .undefined

/-- The own enumerable properties copied by the spread `{...v}` in the store `σ`. -/
def storeSpread (σ : Store) : HValue → List (String × HValue)
  | .ref address =>
    match σ[address]? with
    | some (.object props) => props
    | some (.array items) => items.enum.map fun p => (toString p.1, p.2)
    | some (.uint8Array bytes) => bytes.enum.map fun p => (toString p.1, .number p.2)
    | none => []
  | .string s => s.enum.map fun p => (toString p.1, .string [p.2])
  | _ => []

/-- The property definition `key: v` in an object literal (see `setProp`). -/
def storeSetProp (props : List (String × HValue)) (key : String) (v : HValue) :
    List (String × HValue) :=
  if props.any (fun p => p.1 == key) then
    props.map fun p => if p.1 == key then (key, v) else p
  else props ++ [(key, v)]

/-- The loop `for (let i = 0; i < len; i++) { bytes[i] = binary_string.charCodeAt(i) }`
from `i` on, `steps` being the number of iterations left. -/
def storeFillBytes (bytes : Nat) (binary_string : JSString) : Nat → Nat → StoreM Unit
  | _, 0 => pure ()
  | i, steps + 1 => do
    StoreM.setByte bytes i (binary_string.getD i 0)
    storeFillBytes bytes binary_string (i + 1) steps

/-- `base64ToArrayBuffer(base64)` on the store: `new Uint8Array(len)` creates an array
of `len` zeros, which the loop then fills. -/
def storeBase64ToArrayBuffer (base64 : JSString) : StoreM HValue := do
  let binary_string ← StoreM.lift fun _ => atob (toNormalBase64 base64)
  let len := binary_string.length
  let bytes ← StoreM.alloc (.uint8Array (List.replicate len 0))
  match bytes with
  | .ref address => storeFillBytes address binary_string 0 len
  | _ => pure ()
  pure bytes

/-- `base64ToArrayBuffer(v)` for an argument of unchecked type (see
`base64ToArrayBufferAny`). -/
def storeBase64ToArrayBufferAny : HValue → StoreM HValue
  | .string base64 => storeBase64ToArrayBuffer base64
  | _ => StoreM.lift fun _ => .error .typeError

/-- The callback `credential => ({ ...credential, id: base64ToArrayBuffer(credential.id) })`
on the store; the object of the literal is created with its members. -/
def storeParseCredential (credential : HValue) : StoreM HValue := do
  let props ← StoreM.lift fun σ => .ok (storeSpread σ credential)
  let id ← storeBase64ToArrayBufferAny (← StoreM.lift fun σ => storeGetProp σ credential "id")
  StoreM.alloc (.object (storeSetProp props "id" id))

/-- `Array.prototype.map` with the callback `storeParseCredential`, giving the entries
of the new array. -/
def storeArrayMap : List HValue → StoreM (List HValue)
  | [] => pure []
  | x :: xs => do
    let y ← storeParseCredential x
    let ys ← storeArrayMap xs
    pure (y :: ys)

/-- `list?.map(..)` on the store (see `parseCredentials`); the new array is created
with its entries. -/
def storeParseCredentials : HValue → StoreM HValue
  | .undefined => pure .undefined
  | .null => pure .undefined
  | .ref address => do
    let cell ← StoreM.lift fun σ => .ok σ[address]?
    match cell with
    | some (.array items) => do
      let parsed ← storeArrayMap items
      StoreM.alloc (.array parsed)
    | _ => StoreM.lift fun _ => .error .typeError
  | _ => StoreM.lift fun _ => .error .typeError

/-- The member `user` of the object literal of `parsePublicKey`, on the store. -/
def storeParseUser (publicKeyUser : HValue) : StoreM HValue :=
  if storeTypeof publicKeyUser = "object" then do
    let props ← StoreM.lift fun σ => .ok (storeSpread σ publicKeyUser)
    let id ← storeBase64ToArrayBufferAny
      (← StoreM.lift fun σ => storeGetProp σ publicKeyUser "id")
    StoreM.alloc (.object (storeSetProp props "id" id))
  else pure publicKeyUser

/-- The object literal of `parsePublicKey` on the store, its members evaluated in
source order; the object is created with its members. -/
def storeParseLiteral (publicKey : HValue) : StoreM HValue := do
  let props ← StoreM.lift fun σ => .ok (storeSpread σ publicKey)
  let allowCredentials ← storeParseCredentials
    (← StoreM.lift fun σ => storeGetProp σ publicKey "allowCredentials")
  let excludeCredentials ← storeParseCredentials
    (← StoreM.lift fun σ => storeGetProp σ publicKey "excludeCredentials")
  let user ← storeParseUser (← StoreM.lift fun σ => storeGetProp σ publicKey "user")
  let challenge ← storeBase64ToArrayBufferAny
    (← StoreM.lift fun σ => storeGetProp σ publicKey "challenge")
  StoreM.alloc (.object (storeSetProp (storeSetProp (storeSetProp (storeSetProp props
    "allowCredentials" allowCredentials) "excludeCredentials" excludeCredentials)
    "user" user) "challenge" challenge))

/-- The outcome of `parsePublicKey` on a store. -/
structure StoreRun where
  store : Store
  result : Except JSError HValue
  trace : List StoreEvent
  deriving Repr

/-- `parsePublicKey(publicKey)` run in the store `σ`: builds the object, logs it,
returns it. -/
def storeParsePublicKey (σ : Store) (publicKey : HValue) : StoreRun :=
  match storeParseLiteral publicKey σ with
  | (σ1, .error e) => { store := σ1, result := .error e, trace := [] }
  | (σ1, .ok parsedPublicKey) =>
    { store := σ1
      result := .ok parsedPublicKey
      trace := [.consoleLog [.string (utf16 "parsedPublicKey:"), parsedPublicKey]] }

/-- `traverse f xs`: the list of the `f x`, when every one is there. -/
def traverse {α β : Type} (f : α → Option β) : List α → Option (List β)
  | [] => some []
  | x :: xs =>
    match f x, traverse f xs with
    | some y, some ys => some (y :: ys)
    | _, _ => none

/-- The value that `v` stands for in the store `σ`, read to the depth `fuel`: a
reference stands for the object at its address, with every member read in turn. -/
def denote : Nat → Store → HValue → Option JSValue
  | 0, _, _ => none
  | fuel + 1, σ, v =>
    match v with
    | .undefined => some .undefined
    | .null => some .null
    | .boolean b => some (.boolean b)
    | .number n => some (.number n)
    | .string s => some (.string s)
    | .ref address =>
      match σ[address]? with
      | none => none
      | some (.object props) =>
        (traverse (fun p => (denote fuel σ p.2).map fun d => (p.1, d)) props).map .object
      | some (.array items) => (traverse (denote fuel σ) items).map .array
      | some (.uint8Array bytes) => some (.uint8Array bytes)

/-- The value `v` stands for `d` in the store `σ`. -/
def Denotes (σ : Store) (v : HValue) (d : JSValue) : Prop := ∃ fuel, denote fuel σ v = some d

/-- A store that holds `exampleDescription`, at address 5. -/
def exampleStore : Store :=
  [.object [("id", .string (utf16 "AAI")), ("name", .string (utf16 "a")),
      ("displayName", .string (utf16 "A"))],
   .object [("id", .string (utf16 "AQID")), ("type", .string (utf16 "public-key"))],
   .object [("id", .string (utf16 "BAU")), ("type", .string (utf16 "public-key"))],
   .array [.ref 1, .ref 2],
   .object [("id", .string (utf16 "example.com")), ("name", .string (utf16 "Example"))],
   .object [("challenge", .string (utf16 "AAE")), ("user", .ref 0),
      ("allowCredentials", .ref 3), ("rp", .ref 4), ("timeout", .number 60000)]]

/-- The store `σ'` holds every object of `σ`, at the same address and unchanged, and
possibly more objects after them. -/
def Extends (σ σ' : Store) : Prop := ∃ τ, σ' = σ ++ τ

/-- The members `hp` stand for the members `dp`, one by one under the same key. -/
def DenotesProps (σ : Store) (hp : List (String × HValue)) (dp : List (String × JSValue)) :
    Prop :=
  List.Forall₂ (fun a b => a.1 = b.1 ∧ Denotes σ a.2 b.2) hp dp

/-- The entries `items` stand for the entries `ds`, one by one. -/
def DenotesList (σ : Store) (items : List HValue) (ds : List JSValue) : Prop :=
  List.Forall₂ (Denotes σ) items ds

/-- Two results agree: both are values related by `R`, or both are the same error. -/
def RelResult {α β : Type} (R : α → β → Prop) : Except JSError α → Except JSError β → Prop
  | .ok a, .ok b => R a b
  | .error e, .error e' => e = e'
  | _, _ => False

/-- The computation `m`, run in the store `σ`, keeps every object of `σ` as it is, and
its result agrees with the result `y` of the computation on values: the same error,
or a value that stands, in the store after, for the value of `y`. -/
def Refines {α β : Type} (R : Store → α → β → Prop) (σ : Store) (m : StoreM α)
    (y : Except JSError β) : Prop :=
  Extends σ (m σ).1 ∧ RelResult (R (m σ).1) (m σ).2 y

/-- Two runs of `parsePublicKey` end alike: both throw the same error, or both return
an object and the two objects stand for the same value, each in its own store. -/
def SameOutcome (run₁ run₂ : StoreRun) : Prop :=
  match run₁.result, run₂.result with
  | .error e₁, .error e₂ => e₁ = e₂
  | .ok r₁, .ok r₂ => ∃ rd, Denotes run₁.store r₁ rd ∧ Denotes run₂.store r₂ rd
  | _, _ => False

/-- A store that holds `exampleDescription` at address 0, its parts laid out at other
addresses than in `exampleStore`. -/
def exampleStoreOther : Store :=
  [.object [("challenge", .string (utf16 "AAE")), ("user", .ref 1),
      ("allowCredentials", .ref 2), ("rp", .ref 5), ("timeout", .number 60000)],
   .object [("id", .string (utf16 "AAI")), ("name", .string (utf16 "a")),
      ("displayName", .string (utf16 "A"))],
   .array [.ref 3, .ref 4],
   .object [("id", .string (utf16 "AQID")), ("type", .string (utf16 "public-key"))],
   .object [("id", .string (utf16 "BAU")), ("type", .string (utf16 "public-key"))],
   .object [("id", .string (utf16 "example.com")), ("name", .string (utf16 "Example"))]]

/-! ## Properties of the codec -/

theorem base64Index_base64Char (n : Nat) (h : n < 64) : base64Index (base64Char n) = some n := by
  interval_cases n <;> rfl

theorem base64Char_props (n : Nat) (h : n < 64) :
    base64Char n ≠ 61 ∧ base64Char n ≠ 45 ∧ base64Char n ≠ 95 ∧ base64Char n < 256 ∧
      isAsciiWhitespace (base64Char n) = false := by
  interval_cases n <;> decide

theorem base64Alphabet_length : base64Alphabet.length = 64 := by decide

theorem base64Index_eq_some {c n : Nat} (h : base64Index c = some n) :
    n < 64 ∧ base64Char n = c := by
  unfold base64Index at h
  split at h
  · rename_i hlt
    cases h
    refine ⟨hlt, ?_⟩
    unfold base64Char
    have hl : List.indexOf c base64Alphabet < base64Alphabet.length := by
      rw [base64Alphabet_length]; exact hlt
    rw [List.getD_eq_getElem _ _ hl]
    exact List.indexOf_get hl
  · cases h

theorem base64Encode_eq (bytes : List Nat) :
    base64Encode bytes
      = (bytesToSextets bytes).map base64Char ++ List.replicate (padCount bytes.length) 61 := by
  induction bytes using bytesToSextets.induct with
  | case1 a b c rest ih =>
    have : padCount (a :: b :: c :: rest).length = padCount rest.length := by
      simp [padCount]; omega
    simp only [base64Encode, bytesToSextets, this, ih, List.map_cons, List.cons_append]
  | case2 a b => simp [base64Encode, bytesToSextets, padCount]
  | case3 a => simp [base64Encode, bytesToSextets, padCount]
  | case4 => simp [base64Encode, bytesToSextets, padCount]

theorem bytesToSextets_lt (bytes : List Nat) (hb : ∀ x ∈ bytes, x < 256) :
    ∀ s ∈ bytesToSextets bytes, s < 64 := by
  induction bytes using bytesToSextets.induct with
  | case1 a b c rest ih =>
    simp only [List.mem_cons, forall_eq_or_imp] at hb
    obtain ⟨ha, hb', hc, hrest⟩ := hb
    simp only [bytesToSextets, List.mem_cons, forall_eq_or_imp]
    refine ⟨by omega, by omega, by omega, by omega, ih hrest⟩
  | case2 a b =>
    simp only [List.mem_cons, forall_eq_or_imp] at hb
    obtain ⟨ha, hb', -⟩ := hb
    simp only [bytesToSextets, List.mem_cons, forall_eq_or_imp]
    refine ⟨by omega, by omega, by omega, by simp⟩
  | case3 a =>
    simp only [List.mem_cons, forall_eq_or_imp] at hb
    obtain ⟨ha, -⟩ := hb
    simp only [bytesToSextets, List.mem_cons, forall_eq_or_imp]
    refine ⟨by omega, by omega, by simp⟩
  | case4 => simp [bytesToSextets]

theorem bytesToSextets_length (bytes : List Nat) :
    ((bytesToSextets bytes).length + padCount bytes.length) % 4 = 0
      ∧ padCount bytes.length ≤ 2 := by
  induction bytes using bytesToSextets.induct with
  | case1 a b c rest ih =>
    have : padCount (a :: b :: c :: rest).length = padCount rest.length := by
      simp [padCount]; omega
    rw [this]
    simp only [bytesToSextets, List.length_cons]
    omega
  | case2 a b => simp [bytesToSextets, padCount]
  | case3 a => simp [bytesToSextets, padCount]
  | case4 => simp [bytesToSextets, padCount]

theorem sextetsToBytes_bytesToSextets (bytes : List Nat) (hb : ∀ x ∈ bytes, x < 256) :
    sextetsToBytes (bytesToSextets bytes) = bytes := by
  induction bytes using bytesToSextets.induct with
  | case1 a b c rest ih =>
    simp only [List.mem_cons, forall_eq_or_imp] at hb
    obtain ⟨ha, hb', hc, hrest⟩ := hb
    simp only [bytesToSextets, sextetsToBytes, ih hrest]
    congr 1
    · omega
    congr 1
    · omega
    congr 1
    omega
  | case2 a b =>
    simp only [List.mem_cons, forall_eq_or_imp] at hb
    obtain ⟨ha, hb', -⟩ := hb
    simp only [bytesToSextets, sextetsToBytes]
    congr 1
    · omega
    congr 1
    omega
  | case3 a =>
    simp only [List.mem_cons, forall_eq_or_imp] at hb
    obtain ⟨ha, -⟩ := hb
    simp only [bytesToSextets, sextetsToBytes]
    congr 1
    omega
  | case4 => simp [bytesToSextets, sextetsToBytes]

theorem replaceAll_singleton (c r : Nat) (text : JSString) :
    replaceAll c [r] text = text.map fun x => if x = c then r else x := by
  induction text with
  | nil => rfl
  | cons x xs ih =>
    have h : replaceAll c [r] (x :: xs) = (if x = c then [r] else [x]) ++ replaceAll c [r] xs := by
      simp [replaceAll]
    rw [h, ih]
    by_cases hx : x = c <;> simp [hx]

theorem replaceAll_nil (c : Nat) (text : JSString) :
    replaceAll c [] text = text.filter fun x => decide (x ≠ c) := by
  induction text with
  | nil => rfl
  | cons x xs ih =>
    have h : replaceAll c [] (x :: xs) = (if x = c then [] else [x]) ++ replaceAll c [] xs := by
      simp [replaceAll]
    rw [h, ih]
    by_cases hx : x = c <;> simp [hx]

theorem foldl_fromCharCode (bytes : List Nat) (acc : JSString) :
    bytes.foldl (fun binary b => binary ++ fromCharCode b) acc
      = acc ++ bytes.map (· % 65536) := by
  induction bytes generalizing acc with
  | nil => simp
  | cons x xs ih =>
    rw [List.foldl_cons, ih]
    simp [fromCharCode]

theorem toNormalBase64_loop_eq (encoded : JSString) :
    toNormalBase64.loop 3 encoded
      = encoded ++ List.replicate ((4 - encoded.length % 4) % 4) 61 := by
  have h61 : utf16 "=" = [61] := by decide
  have hmod : encoded.length % 4 < 4 := Nat.mod_lt _ (by decide)
  rcases h0 : encoded.length % 4 with _ | _ | _ | _ | k
  · simp [toNormalBase64.loop, h0]
  · simp [toNormalBase64.loop, h0, h61, List.length_append, Nat.add_mod, List.replicate]
  · simp [toNormalBase64.loop, h0, h61, List.length_append, Nat.add_mod, List.replicate]
  · simp [toNormalBase64.loop, h0, h61, List.length_append, Nat.add_mod, List.replicate]
  · omega

theorem toNormalBase64_eq (text : JSString) :
    toNormalBase64 text
      = text.map fromUrlSafe ++ List.replicate ((4 - text.length % 4) % 4) 61 := by
  have h1 : utf16 "/" = [47] := by decide
  have h2 : utf16 "+" = [43] := by decide
  unfold toNormalBase64
  simp only [h1, h2, replaceAll_singleton, toNormalBase64_loop_eq, List.map_map, List.length_map]
  rfl

theorem base64Index_isSome_props {c : Nat} (h : (base64Index c).isSome) :
    c ≠ 61 ∧ isAsciiWhitespace c = false := by
  obtain ⟨n, hn⟩ := Option.isSome_iff_exists.mp h
  obtain ⟨hlt, hc⟩ := base64Index_eq_some hn
  have := base64Char_props n hlt
  rw [hc] at this
  exact ⟨this.1, this.2.2.2.2⟩

theorem dropLastEq_append (x : JSString) : dropLastEq (x ++ [61]) = x := by
  simp [dropLastEq]

theorem dropLastEq_of_ne (x : JSString) (h : ∀ c ∈ x, c ≠ 61) : dropLastEq x = x := by
  unfold dropLastEq
  split
  · rename_i hl
    exact absurd rfl (h 61 (List.mem_of_getLast?_eq_some hl))
  · rfl

theorem dropLastEq_padded (body : JSString) (p : Nat) (hbody : ∀ c ∈ body, c ≠ 61)
    (hp : p ≤ 2) : dropLastEq (dropLastEq (body ++ List.replicate p 61)) = body := by
  rcases p with _ | _ | _ | p
  · simp [dropLastEq_of_ne body hbody]
  · simp only [zero_add, List.replicate_one, dropLastEq_append, dropLastEq_of_ne body hbody]
  · have : body ++ List.replicate 2 61 = (body ++ [61]) ++ [61] := by simp [List.replicate]
    simp only [zero_add, Nat.reduceAdd, this, dropLastEq_append]
  · omega

theorem atob_padded (body : JSString) (p : Nat)
    (hbody : ∀ c ∈ body, (base64Index c).isSome) (hp : p ≤ 2)
    (hlen : (body.length + p) % 4 = 0) :
    atob (body ++ List.replicate p 61)
      = .ok (sextetsToBytes (body.filterMap base64Index)) := by
  have hne : ∀ c ∈ body, c ≠ 61 := fun c hc => (base64Index_isSome_props (hbody c hc)).1
  have hfilter : (body ++ List.replicate p 61).filter (fun c => !isAsciiWhitespace c)
      = body ++ List.replicate p 61 := by
    rw [List.filter_eq_self]
    intro c hc
    rcases List.mem_append.mp hc with h | h
    · simp [(base64Index_isSome_props (hbody c h)).2]
    · rw [(List.mem_replicate.mp h).2]; decide
  have hany : body.any (fun c => (base64Index c).isNone) = false := by
    rw [List.any_eq_false]
    intro c hc
    have := hbody c hc
    simp [Option.isSome_iff_ne_none.mp this]
  unfold atob
  simp only [hfilter, List.length_append, List.length_replicate, hlen, if_true,
    dropLastEq_padded body p hne hp, hany]
  have : ¬ body.length % 4 = 1 := by omega
  simp [this]

theorem base64urlChar_props (n : Nat) (h : n < 64) :
    base64urlChar n ≠ 61 ∧ base64urlChar n ≠ 43 ∧ base64urlChar n ≠ 47
      ∧ fromUrlSafe (base64urlChar n) = base64Char n := by
  interval_cases n <;> decide

theorem newUint8Array_lt (buffer : Option (List Nat)) : ∀ x ∈ newUint8Array buffer, x < 256 := by
  cases buffer with
  | none => simp [newUint8Array]
  | some b =>
    intro x hx
    simp only [newUint8Array, List.mem_map] at hx
    obtain ⟨y, -, rfl⟩ := hx
    exact Nat.mod_lt _ (by decide)

theorem newUint8Array_of_bytes (b : List Nat) (hb : ∀ x ∈ b, x < 256) :
    newUint8Array (some b) = b := by
  simp only [newUint8Array]
  conv_rhs => rw [← List.map_id b]
  apply List.map_congr_left
  intro x hx
  exact Nat.mod_eq_of_lt (hb x hx)

theorem arrayBufferToBase64_eq (buffer : Option (List Nat)) :
    arrayBufferToBase64 buffer
      = .ok ((bytesToSextets (newUint8Array buffer)).map base64urlChar) := by
  have hlt := newUint8Array_lt buffer
  unfold arrayBufferToBase64
  generalize newUint8Array buffer = bytes at hlt
  have h1 : utf16 "_" = [95] := by decide
  have h2 : utf16 "-" = [45] := by decide
  have hbin : bytes.foldl (fun binary b => binary ++ fromCharCode b) [] = bytes := by
    rw [foldl_fromCharCode, List.nil_append]
    conv_rhs => rw [← List.map_id bytes]
    apply List.map_congr_left
    intro x hx
    have := hlt x hx
    simp only [id]
    omega
  have hany : bytes.any (fun c => decide (255 < c)) = false := by
    rw [List.any_eq_false]
    intro x hx
    have := hlt x hx
    simp only [decide_eq_true_eq]
    omega
  have hs := bytesToSextets_lt bytes hlt
  simp only [hbin, btoa, hany, h1, h2, base64Encode_eq, replaceAll_singleton, replaceAll_nil,
    List.map_append, List.map_map, List.filter_append, List.map_replicate, bind, Except.bind,
    pure, Except.pure, Bool.false_eq_true, if_false]
  congr 1
  have hpad : ∀ (k v : Nat), v = 61 →
      List.filter (fun x => decide (x ≠ 61)) (List.replicate k v) = [] := by
    intro k v hv
    simp [hv]
  rw [hpad _ _ (by decide), List.append_nil, List.filter_eq_self.mpr]
  · apply List.map_congr_left
    intro n _
    rfl
  · intro c hc
    simp only [List.mem_map] at hc
    obtain ⟨n, hn, rfl⟩ := hc
    have := (base64urlChar_props n (hs n hn)).1
    simpa [base64urlChar, toUrlSafe] using this

theorem filterMap_base64Index_map (s : List Nat) (hs : ∀ n ∈ s, n < 64) :
    (s.map base64Char).filterMap base64Index = s := by
  induction s with
  | nil => rfl
  | cons n rest ih =>
    simp only [List.mem_cons, forall_eq_or_imp] at hs
    simp [List.filterMap_cons, base64Index_base64Char n hs.1, ih hs.2]

theorem base64ToArrayBuffer_sextets (s : List Nat) (p : Nat) (hs : ∀ n ∈ s, n < 64)
    (hp : p ≤ 2) (hlen : (s.length + p) % 4 = 0) :
    base64ToArrayBuffer (s.map base64urlChar) = .ok ((sextetsToBytes s).map (· % 256)) := by
  have hnorm : toNormalBase64 (s.map base64urlChar)
      = s.map base64Char ++ List.replicate p 61 := by
    rw [toNormalBase64_eq, List.map_map, List.length_map]
    congr 1
    · apply List.map_congr_left
      intro n hn
      exact (base64urlChar_props n (hs n hn)).2.2.2
    · congr 1
      omega
  have hbody : ∀ c ∈ s.map base64Char, (base64Index c).isSome := by
    intro c hc
    obtain ⟨n, hn, rfl⟩ := List.mem_map.mp hc
    simp [base64Index_base64Char n (hs n hn)]
  unfold base64ToArrayBuffer
  rw [hnorm, atob_padded _ p hbody hp (by simpa using hlen), filterMap_base64Index_map s hs]
  rfl

/-- C1: decoding the encoding of a byte sequence succeeds and gives the sequence back. -/
theorem codec_round_trip (b : List Nat) (hb : ∀ x ∈ b, x < 256) :
    ∃ t, arrayBufferToBase64 (some b) = .ok t ∧ base64ToArrayBuffer t = .ok b := by
  refine ⟨_, arrayBufferToBase64_eq (some b), ?_⟩
  rw [newUint8Array_of_bytes b hb]
  obtain ⟨hlen, hp⟩ := bytesToSextets_length b
  rw [base64ToArrayBuffer_sextets _ _ (bytesToSextets_lt b hb) hp hlen,
    sextetsToBytes_bytesToSextets b hb]
  congr 1
  conv_rhs => rw [← List.map_id b]
  apply List.map_congr_left
  intro x hx
  exact Nat.mod_eq_of_lt (hb x hx)

/-- Witness for C1 at a buffer of length 1 modulo 3 whose encoding uses `-` and `_`. -/
theorem codec_round_trip_witness :
    (∀ x ∈ [251, 255, 191, 7], x < 256) ∧
      ∃ t, arrayBufferToBase64 (some [251, 255, 191, 7]) = .ok t
        ∧ base64ToArrayBuffer t = .ok [251, 255, 191, 7] :=
  ⟨by decide, codec_round_trip [251, 255, 191, 7] (by decide)⟩

theorem specEncode_eq (b : List Nat) (hb : ∀ x ∈ b, x < 256) :
    specEncode b = (bytesToSextets b).map base64urlChar := by
  have hs := bytesToSextets_lt b hb
  unfold specEncode
  rw [base64Encode_eq, List.map_append, List.filter_append, List.map_replicate, List.map_map]
  have hpad : ∀ (k v : Nat), v = 61 →
      List.filter (fun x => decide (x ≠ 61)) (List.replicate k v) = [] := by
    intro k v hv
    simp [hv]
  rw [hpad _ _ (by decide), List.append_nil]
  have hmap : List.map ((fun c => if c = 43 then 45 else if c = 47 then 95 else c) ∘ base64Char)
      (bytesToSextets b) = List.map base64urlChar (bytesToSextets b) := by
    apply List.map_congr_left
    intro n hn
    have hn := hs n hn
    interval_cases n <;> decide
  rw [hmap, List.filter_eq_self]
  intro c hc
  obtain ⟨n, hn, rfl⟩ := List.mem_map.mp hc
  simpa using (base64urlChar_props n (hs n hn)).1

/-- C2: the encoding of a byte sequence holds no `+`, `/` or `=`, and it is the
standard base64 encoding with `+` replaced by `-`, `/` by `_` and `=` removed. -/
theorem encode_is_unpadded_base64url (b : List Nat) (hb : ∀ x ∈ b, x < 256) :
    ∃ t, arrayBufferToBase64 (some b) = .ok t ∧ 43 ∉ t ∧ 47 ∉ t ∧ 61 ∉ t
      ∧ t = specEncode b := by
  have hs := bytesToSextets_lt b hb
  refine ⟨_, arrayBufferToBase64_eq (some b), ?_, ?_, ?_, ?_⟩
  · intro h
    rw [newUint8Array_of_bytes b hb] at h
    obtain ⟨n, hn, he⟩ := List.mem_map.mp h
    exact (base64urlChar_props n (hs n hn)).2.1 he
  · intro h
    rw [newUint8Array_of_bytes b hb] at h
    obtain ⟨n, hn, he⟩ := List.mem_map.mp h
    exact (base64urlChar_props n (hs n hn)).2.2.1 he
  · intro h
    rw [newUint8Array_of_bytes b hb] at h
    obtain ⟨n, hn, he⟩ := List.mem_map.mp h
    exact (base64urlChar_props n (hs n hn)).1 he
  · rw [newUint8Array_of_bytes b hb, specEncode_eq b hb]

/-- Witness for C2 at a buffer whose standard encoding `+/+/+w==` has all three
characters. -/
theorem encode_is_unpadded_base64url_witness :
    (∀ x ∈ [251, 255, 191, 251], x < 256) ∧
      ∃ t, arrayBufferToBase64 (some [251, 255, 191, 251]) = .ok t ∧ 43 ∉ t ∧ 47 ∉ t ∧ 61 ∉ t
        ∧ t = specEncode [251, 255, 191, 251] :=
  ⟨by decide, encode_is_unpadded_base64url [251, 255, 191, 251] (by decide)⟩

theorem standardBase64Decode_shape (s : JSString) (bytes : List Nat)
    (h : standardBase64Decode s = some bytes) :
    ∃ body p, s = body ++ List.replicate p 61 ∧ (∀ c ∈ body, (base64Index c).isSome) ∧ p ≤ 2
      ∧ (body.length + p) % 4 = 0 ∧ sextetsToBytes (body.filterMap base64Index) = bytes := by
  induction s using standardBase64Decode.induct generalizing bytes with
  | case1 =>
    simp only [standardBase64Decode, Option.some.injEq] at h
    exact ⟨[], 0, by simp, by simp, by simp, by simp, by simpa [sextetsToBytes] using h⟩
  | case2 a b c d hcd =>
    obtain ⟨rfl, rfl⟩ := hcd
    simp only [standardBase64Decode, and_self, if_true] at h
    cases hx : base64Index a with
    | none => simp [hx] at h
    | some x =>
      cases hy : base64Index b with
      | none => simp [hx, hy] at h
      | some y =>
        simp [hx, hy] at h
        refine ⟨[a, b], 2, by simp [List.replicate], ?_, by simp, by simp, ?_⟩
        · simp [hx, hy]
        · simp [List.filterMap_cons, hx, hy, sextetsToBytes, h]
  | case3 a b c hcd =>
    have hc : c ≠ 61 := by simpa using hcd
    simp only [standardBase64Decode, hc, false_and, if_false, if_true] at h
    cases hx : base64Index a with
    | none => simp [hx] at h
    | some x =>
      cases hy : base64Index b with
      | none => simp [hx, hy] at h
      | some y =>
        cases hz : base64Index c with
        | none => simp [hx, hy, hz] at h
        | some z =>
          simp [hx, hy, hz] at h
          refine ⟨[a, b, c], 1, by simp [List.replicate], ?_, by simp, by simp, ?_⟩
          · simp [hx, hy, hz]
          · simp only [List.filterMap_cons, hx, hy, hz, List.filterMap_nil, sextetsToBytes, ← h]
            congr 1
            · omega
  | case4 a b c d hcd hd =>
    simp only [standardBase64Decode, hcd, hd, if_false] at h
    cases hx : base64Index a with
    | none => simp [hx] at h
    | some x =>
      cases hy : base64Index b with
      | none => simp [hx, hy] at h
      | some y =>
        cases hz : base64Index c with
        | none => simp [hx, hy, hz] at h
        | some z =>
          cases hw : base64Index d with
          | none => simp [hx, hy, hz, hw] at h
          | some w =>
            simp [hx, hy, hz, hw] at h
            refine ⟨[a, b, c, d], 0, by simp, ?_, by simp, by simp, ?_⟩
            · simp [hx, hy, hz, hw]
            · simp [List.filterMap_cons, hx, hy, hz, hw, sextetsToBytes, h]
  | case5 a b c d rest hrest ih =>
    rw [standardBase64Decode] at h
    · cases hx : base64Index a with
      | none => simp [hx] at h
      | some x =>
        cases hy : base64Index b with
        | none => simp [hx, hy] at h
        | some y =>
          cases hz : base64Index c with
          | none => simp [hx, hy, hz] at h
          | some z =>
            cases hw : base64Index d with
            | none => simp [hx, hy, hz, hw] at h
            | some w =>
              cases hr : standardBase64Decode rest with
              | none => simp [hx, hy, hz, hw, hr] at h
              | some bs =>
                simp [hx, hy, hz, hw, hr] at h
                obtain ⟨body, p, hs, hbody, hp, hlen, hbytes⟩ := ih bs hr
                refine ⟨a :: b :: c :: d :: body, p, by simp [hs], ?_, hp, ?_, ?_⟩
                · intro c' hc'
                  simp only [List.mem_cons] at hc'
                  rcases hc' with rfl | rfl | rfl | rfl | hc'
                  · simp [hx]
                  · simp [hy]
                  · simp [hz]
                  · simp [hw]
                  · exact hbody c' hc'
                · simp only [List.length_cons]; omega
                · simp [List.filterMap_cons, hx, hy, hz, hw, sextetsToBytes, hbytes, h]
    · exact hrest
  | case6 s h1 h2 h3 =>
    rw [standardBase64Decode] at h
    · cases h
    · exact h1
    · exact h2
    · exact h3

theorem sextetsToBytes_lt (s : List Nat) (hs : ∀ n ∈ s, n < 64) :
    ∀ x ∈ sextetsToBytes s, x < 256 := by
  induction s using sextetsToBytes.induct with
  | case1 a b c d rest ih =>
    simp only [List.mem_cons, forall_eq_or_imp] at hs
    obtain ⟨ha, hb, hc, hd, hrest⟩ := hs
    simp only [sextetsToBytes, List.mem_cons, forall_eq_or_imp]
    exact ⟨by omega, by omega, by omega, ih hrest⟩
  | case2 a b c =>
    simp only [List.mem_cons, forall_eq_or_imp] at hs
    obtain ⟨ha, hb, hc, -⟩ := hs
    simp only [sextetsToBytes, List.mem_cons, forall_eq_or_imp]
    exact ⟨by omega, by omega, by simp⟩
  | case3 a b =>
    simp only [List.mem_cons, forall_eq_or_imp] at hs
    obtain ⟨ha, hb, -⟩ := hs
    simp only [sextetsToBytes, List.mem_cons, forall_eq_or_imp]
    exact ⟨by omega, by simp⟩
  | case4 a => simp [sextetsToBytes]
  | case5 => simp [sextetsToBytes]

theorem filterMap_base64Index_lt (body : JSString) :
    ∀ n ∈ body.filterMap base64Index, n < 64 := by
  intro n hn
  obtain ⟨c, -, hc⟩ := List.mem_filterMap.mp hn
  exact (base64Index_eq_some hc).1

theorem map_mod_256_of_lt (b : List Nat) (hb : ∀ x ∈ b, x < 256) : b.map (· % 256) = b := by
  conv_rhs => rw [← List.map_id b]
  apply List.map_congr_left
  intro x hx
  exact Nat.mod_eq_of_lt (hb x hx)

theorem fromUrlSafe_toUrlSafe {c : Nat} (h : (base64Index c).isSome) :
    fromUrlSafe (toUrlSafe c) = c := by
  obtain ⟨n, hn⟩ := Option.isSome_iff_exists.mp h
  obtain ⟨hlt, hc⟩ := base64Index_eq_some hn
  rw [← hc]
  exact (base64urlChar_props n hlt).2.2.2

theorem append_replicate_eq {x body : JSString} {k p : Nat}
    (h : x ++ List.replicate k 61 = body ++ List.replicate p 61) (hbody : ∀ c ∈ body, c ≠ 61) :
    k ≤ p ∧ x = body ++ List.replicate (p - k) 61 := by
  induction k generalizing p with
  | zero => simpa using h
  | succ k ih =>
    cases p with
    | zero =>
      exfalso
      have hmem : (61 : Nat) ∈ x ++ List.replicate (k + 1) 61 := by simp
      rw [h] at hmem
      simp only [List.replicate_zero, List.append_nil] at hmem
      exact hbody 61 hmem rfl
    | succ p =>
      rw [List.replicate_succ', List.replicate_succ', ← List.append_assoc, ← List.append_assoc]
        at h
      have h2 := List.append_inj_left' h rfl
      obtain ⟨hk, hx⟩ := ih h2
      exact ⟨by omega, by simpa using hx⟩

/-- C3: when `s` is valid fully padded standard base64 and `t` is `s` with `+`, `/`
replaced by `-`, `_` and with `k` of its trailing `=` left out, decoding `t`
succeeds and gives the standard decoding of `s`. -/
theorem decode_normalizes_padding (t : JSString) (k : Nat) (bytes : List Nat)
    (hs : standardBase64Decode (t ++ List.replicate k 61) = some bytes) :
    base64ToArrayBuffer (t.map toUrlSafe) = .ok bytes := by
  obtain ⟨body, p, hshape, hbody, hp, hlen, hbytes⟩ := standardBase64Decode_shape _ _ hs
  have hne : ∀ c ∈ body, c ≠ 61 := fun c hc => (base64Index_isSome_props (hbody c hc)).1
  obtain ⟨hk, ht⟩ := append_replicate_eq hshape hne
  have hback : (t.map toUrlSafe).map fromUrlSafe = t := by
    rw [List.map_map]
    conv_rhs => rw [← List.map_id t]
    apply List.map_congr_left
    intro c hc
    rw [ht] at hc
    rcases List.mem_append.mp hc with h | h
    · exact fromUrlSafe_toUrlSafe (hbody c h)
    · rw [(List.mem_replicate.mp h).2]; decide
  have hnorm : toNormalBase64 (t.map toUrlSafe) = body ++ List.replicate p 61 := by
    rw [toNormalBase64_eq, hback, List.length_map, ← hshape]
    congr 2
    rw [ht, List.length_append, List.length_replicate]
    omega
  have hlt := sextetsToBytes_lt _ (filterMap_base64Index_lt body)
  unfold base64ToArrayBuffer
  rw [hnorm, atob_padded body p hbody hp hlen, hbytes]
  rw [hbytes] at hlt
  show Except.ok (bytes.map (· % 256)) = Except.ok bytes
  rw [map_mod_256_of_lt bytes hlt]

/-- Witness for C3: `s` is `+/8=`, of which the one `=` is left out. -/
theorem decode_normalizes_padding_witness :
    standardBase64Decode (utf16 "+/8" ++ List.replicate 1 61) = some [251, 255]
      ∧ base64ToArrayBuffer ((utf16 "+/8").map toUrlSafe) = .ok [251, 255] :=
  ⟨by decide, decode_normalizes_padding (utf16 "+/8") 1 [251, 255] (by decide)⟩

theorem atob_eq (data : JSString) :
    atob data =
      if (atobStripped data).length % 4 = 1 then .error .invalidCharacterError
      else if (atobStripped data).any (fun c => (base64Index c).isNone) then
        .error .invalidCharacterError
      else .ok (sextetsToBytes ((atobStripped data).filterMap base64Index)) := rfl

theorem atob_error_of_mem (data : JSString) (c : Nat) (hc : c ∈ atobStripped data)
    (hidx : base64Index c = none) : atob data = .error .invalidCharacterError := by
  rw [atob_eq]
  split
  · rfl
  · have : (atobStripped data).any (fun c => (base64Index c).isNone) = true := by
      rw [List.any_eq_true]
      exact ⟨c, hc, by simp [hidx]⟩
    simp [this]

theorem base64ToArrayBuffer_error_of_atob {t : JSString}
    (h : atob (toNormalBase64 t) = .error .invalidCharacterError) :
    base64ToArrayBuffer t = .error .invalidCharacterError := by
  unfold base64ToArrayBuffer
  rw [h]
  rfl

theorem mem_dropLastEq {x : JSString} {c : Nat} (hc : c ∈ x) (hne : c ≠ 61) :
    c ∈ dropLastEq x := by
  unfold dropLastEq
  split
  · rename_i hl
    have := List.dropLast_append_getLast? 61 hl
    rw [← this] at hc
    rcases List.mem_append.mp hc with h | h
    · exact h
    · simp at h; exact absurd h hne
  · exact hc

theorem mem_atobStripped {data : JSString} {c : Nat} (hc : c ∈ data)
    (hws : isAsciiWhitespace c = false) (hne : c ≠ 61) : c ∈ atobStripped data := by
  have hf : c ∈ data.filter fun c => !isAsciiWhitespace c := by
    rw [List.mem_filter]
    exact ⟨hc, by simp [hws]⟩
  unfold atobStripped
  simp only
  split
  · exact mem_dropLastEq (mem_dropLastEq hf hne) hne
  · exact hf

theorem dropLastEq_spec (x : JSString) :
    ∃ j, j ≤ 1 ∧ x = dropLastEq x ++ List.replicate j 61 := by
  unfold dropLastEq
  split
  · rename_i hl
    exact ⟨1, le_refl _, (List.dropLast_append_getLast? 61 hl).symm⟩
  · exact ⟨0, by omega, by simp⟩

theorem dropLastEq_twice_spec (x : JSString) :
    ∃ j, j ≤ 2 ∧ x = dropLastEq (dropLastEq x) ++ List.replicate j 61 := by
  obtain ⟨j1, h1, e1⟩ := dropLastEq_spec x
  obtain ⟨j2, h2, e2⟩ := dropLastEq_spec (dropLastEq x)
  refine ⟨j2 + j1, by omega, ?_⟩
  rw [List.replicate_add, ← List.append_assoc, ← e2, ← e1]

theorem standardBase64Decode_padded (body : JSString) (p : Nat)
    (hbody : ∀ c ∈ body, (base64Index c).isSome) (hp : p ≤ 2)
    (hlen : (body.length + p) % 4 = 0) :
    ∃ bytes, standardBase64Decode (body ++ List.replicate p 61) = some bytes := by
  induction body using sextetsToBytes.induct with
  | case1 a b c d rest ih =>
    simp only [List.mem_cons, forall_eq_or_imp] at hbody
    obtain ⟨ha, hb, hc, hd, hrest⟩ := hbody
    obtain ⟨x, hx⟩ := Option.isSome_iff_exists.mp ha
    obtain ⟨y, hy⟩ := Option.isSome_iff_exists.mp hb
    obtain ⟨z, hz⟩ := Option.isSome_iff_exists.mp hc
    obtain ⟨w, hw⟩ := Option.isSome_iff_exists.mp hd
    have hc61 : c ≠ 61 := (base64Index_isSome_props hc).1
    have hd61 : d ≠ 61 := (base64Index_isSome_props hd).1
    by_cases hnil : rest ++ List.replicate p 61 = []
    · simp only [List.cons_append, hnil, standardBase64Decode, hc61, hd61, false_and, if_false,
        hx, hy, hz, hw]
      exact ⟨_, rfl⟩
    · obtain ⟨bs, hbs⟩ := ih hrest (by simp only [List.length_cons] at hlen; omega)
      simp only [List.cons_append]
      rw [standardBase64Decode]
      · simp only [hx, hy, hz, hw, hbs]
        exact ⟨_, rfl⟩
      · exact hnil
  | case2 a b c =>
    simp only [List.mem_cons, forall_eq_or_imp] at hbody
    obtain ⟨ha, hb, hc, -⟩ := hbody
    obtain ⟨x, hx⟩ := Option.isSome_iff_exists.mp ha
    obtain ⟨y, hy⟩ := Option.isSome_iff_exists.mp hb
    obtain ⟨z, hz⟩ := Option.isSome_iff_exists.mp hc
    have hc61 : c ≠ 61 := (base64Index_isSome_props hc).1
    have hp1 : p = 1 := by simp only [List.length_cons, List.length_nil] at hlen; omega
    subst hp1
    simp only [List.cons_append, List.nil_append, List.replicate_one, standardBase64Decode,
      hc61, false_and, if_false, if_true, hx, hy, hz]
    exact ⟨_, rfl⟩
  | case3 a b =>
    simp only [List.mem_cons, forall_eq_or_imp] at hbody
    obtain ⟨ha, hb, -⟩ := hbody
    obtain ⟨x, hx⟩ := Option.isSome_iff_exists.mp ha
    obtain ⟨y, hy⟩ := Option.isSome_iff_exists.mp hb
    have hp2 : p = 2 := by simp only [List.length_cons, List.length_nil] at hlen; omega
    subst hp2
    simp only [List.cons_append, List.nil_append, List.replicate, standardBase64Decode,
      and_self, if_true, hx, hy]
    exact ⟨_, rfl⟩
  | case4 a =>
    simp only [List.length_cons, List.length_nil] at hlen
    omega
  | case5 =>
    have hp0 : p = 0 := by simp only [List.length_nil] at hlen; omega
    subst hp0
    exact ⟨[], by simp [standardBase64Decode]⟩

theorem isAsciiWhitespace_fromUrlSafe (c : Nat) (h : isAsciiWhitespace c = false) :
    isAsciiWhitespace (fromUrlSafe c) = false := by
  unfold fromUrlSafe
  by_cases h1 : c = 45
  · subst h1; decide
  · by_cases h2 : c = 95
    · subst h2; decide
    · simp [h1, h2, h]

theorem atob_ok_valid (n : JSString) (bytes : JSString) (hws : ∀ c ∈ n, isAsciiWhitespace c = false)
    (hlen : n.length % 4 = 0) (hok : atob n = .ok bytes) :
    ∃ b, standardBase64Decode n = some b := by
  have hfilter : n.filter (fun c => !isAsciiWhitespace c) = n := by
    rw [List.filter_eq_self]
    intro c hc
    simp [hws c hc]
  have hstrip : atobStripped n = dropLastEq (dropLastEq n) := by
    simp [atobStripped, hfilter, hlen]
  rw [atob_eq, hstrip] at hok
  split at hok
  · cases hok
  · split at hok
    · cases hok
    · rename_i h1 hany
      obtain ⟨j, hj, hn⟩ := dropLastEq_twice_spec n
      have hbody : ∀ c ∈ dropLastEq (dropLastEq n), (base64Index c).isSome := by
        intro c hc
        by_contra hcon
        apply hany
        rw [List.any_eq_true]
        refine ⟨c, hc, ?_⟩
        cases hb : base64Index c with
        | none => rfl
        | some v => simp [hb] at hcon
      have hl : ((dropLastEq (dropLastEq n)).length + j) % 4 = 0 := by
        have := congrArg List.length hn
        rw [List.length_append, List.length_replicate] at this
        omega
      rw [hn]
      exact standardBase64Decode_padded _ j hbody hj hl

theorem toNormalBase64_loop_exit (text : JSString) : (toNormalBase64 text).length % 4 = 0 := by
  rw [toNormalBase64_eq, List.length_append, List.length_map, List.length_replicate]
  omega

theorem toNormalBase64_loop_fuel (fuel : Nat) (encoded : JSString) (h : 3 ≤ fuel) :
    toNormalBase64.loop fuel encoded = toNormalBase64.loop 3 encoded := by
  have h61 : utf16 "=" = [61] := by decide
  obtain ⟨k, rfl⟩ : ∃ k, fuel = k + 3 := ⟨fuel - 3, by omega⟩
  have hmod : encoded.length % 4 < 4 := Nat.mod_lt _ (by decide)
  cases k with
  | zero => rfl
  | succ k =>
    rcases h0 : encoded.length % 4 with _ | _ | _ | _ | j
    · simp [toNormalBase64.loop, h0]
    · simp [toNormalBase64.loop, h0, h61, List.length_append, Nat.add_mod]
    · simp [toNormalBase64.loop, h0, h61, List.length_append, Nat.add_mod]
    · simp [toNormalBase64.loop, h0, h61, List.length_append, Nat.add_mod]
    · omega

theorem atob_error (data : JSString) (e : JSError) (h : atob data = .error e) :
    e = .invalidCharacterError := by
  rw [atob_eq] at h
  split at h
  · cases h; rfl
  · split at h
    · cases h; rfl
    · cases h

/-- C4 as stated fails: `"AAA "` holds a space, its normalization is not valid
standard base64, and yet it decodes, to the bytes `[0, 0]`. -/
theorem decode_rejects_invalid_counterexample :
    32 ∈ utf16 "AAA " ∧ base64Index 32 = none
      ∧ standardBase64Decode (toNormalBase64 (utf16 "AAA ")) = none
      ∧ base64ToArrayBuffer (utf16 "AAA ") = .ok [0, 0] := by
  decide

/-- C4, amended: decoding `t` fails with the decode error when `t` has no ASCII
whitespace and its normalization is not valid standard base64, when `t` holds a code
unit that is neither an alphabet character, `-`, `_`, `=` nor ASCII whitespace, and
when the length of `t` is 1 modulo 4. -/
theorem decode_rejects_invalid (t : JSString)
    (h : ((∀ c ∈ t, isAsciiWhitespace c = false)
          ∧ standardBase64Decode (toNormalBase64 t) = none)
      ∨ (∃ c ∈ t, base64Index c = none ∧ c ≠ 45 ∧ c ≠ 95 ∧ c ≠ 61
          ∧ isAsciiWhitespace c = false)
      ∨ t.length % 4 = 1) :
    base64ToArrayBuffer t = .error .invalidCharacterError := by
  apply base64ToArrayBuffer_error_of_atob
  rcases h with ⟨hws, hinv⟩ | ⟨c, hc, hidx, h45, h95, h61, hws⟩ | hlen
  · cases hres : atob (toNormalBase64 t) with
    | error e => rw [atob_error _ _ hres]
    | ok bytes =>
      exfalso
      have hnws : ∀ c ∈ toNormalBase64 t, isAsciiWhitespace c = false := by
        intro c hc
        rw [toNormalBase64_eq] at hc
        rcases List.mem_append.mp hc with h | h
        · obtain ⟨c0, hc0, rfl⟩ := List.mem_map.mp h
          exact isAsciiWhitespace_fromUrlSafe c0 (hws c0 hc0)
        · rw [(List.mem_replicate.mp h).2]; decide
      obtain ⟨b, hb⟩ := atob_ok_valid _ bytes hnws (toNormalBase64_loop_exit t) hres
      rw [hinv] at hb
      cases hb
  · apply atob_error_of_mem _ c _ hidx
    apply mem_atobStripped _ hws h61
    rw [toNormalBase64_eq]
    apply List.mem_append_left
    have : fromUrlSafe c = c := by simp [fromUrlSafe, h45, h95]
    rw [← this]
    exact List.mem_map_of_mem _ hc
  · apply atob_error_of_mem _ 61 _ (by decide)
    have hnorm : toNormalBase64 t = (t.map fromUrlSafe ++ [61, 61]) ++ [61] := by
      rw [toNormalBase64_eq, hlen]
      simp [List.replicate]
    have hfil : (toNormalBase64 t).filter (fun c => !isAsciiWhitespace c)
        = ((t.map fromUrlSafe).filter (fun c => !isAsciiWhitespace c) ++ [61]) ++ [61, 61] := by
      rw [hnorm, List.filter_append, List.filter_append]
      simp [List.filter_cons, isAsciiWhitespace]
    unfold atobStripped
    simp only [hfil]
    split
    · have : (List.filter (fun c => !isAsciiWhitespace c) (List.map fromUrlSafe t) ++ [61])
          ++ [61, 61]
          = ((List.filter (fun c => !isAsciiWhitespace c) (List.map fromUrlSafe t) ++ [61])
            ++ [61]) ++ [61] := by simp
      rw [this, dropLastEq_append, dropLastEq_append]
      simp
    · simp

/-- Witness for the amended C4 at `"A!AAA"`. -/
theorem decode_rejects_invalid_witness :
    (((∀ c ∈ utf16 "A!AAA", isAsciiWhitespace c = false)
          ∧ standardBase64Decode (toNormalBase64 (utf16 "A!AAA")) = none)
      ∨ (∃ c ∈ utf16 "A!AAA", base64Index c = none ∧ c ≠ 45 ∧ c ≠ 95 ∧ c ≠ 61
          ∧ isAsciiWhitespace c = false)
      ∨ (utf16 "A!AAA").length % 4 = 1)
      ∧ base64ToArrayBuffer (utf16 "A!AAA") = .error .invalidCharacterError :=
  ⟨Or.inr (Or.inr (by decide)), decode_rejects_invalid (utf16 "A!AAA") (Or.inl (by decide))⟩

theorem base64urlIndex_eq_some {c n : Nat} (h : base64urlIndex c = some n) :
    n < 64 ∧ base64urlChar n = c ∧ base64Index (fromUrlSafe c) = some n ∧ c ≠ 61 := by
  unfold base64urlIndex at h
  split at h
  · cases h
  · rename_i hc
    obtain ⟨hlt, hch⟩ := base64Index_eq_some h
    refine ⟨hlt, ?_, h, ?_⟩
    · unfold base64urlChar
      rw [hch]
      simp only [not_or] at hc
      unfold toUrlSafe fromUrlSafe
      by_cases h45 : c = 45
      · subst h45; decide
      · by_cases h95 : c = 95
        · subst h95; decide
        · simp [h45, h95, hc.1, hc.2]
    · rintro rfl
      have h61 : base64Index (fromUrlSafe 61) = none := by decide
      rw [h61] at h
      cases h

theorem bytesToSextets_sextetsToBytes (s : List Nat) (hs : ∀ n ∈ s, n < 64)
    (hlen : s.length % 4 ≠ 1) (hcanon : canonicalSextets s = true) :
    bytesToSextets (sextetsToBytes s) = s := by
  induction s using sextetsToBytes.induct with
  | case1 a b c d rest ih =>
    simp only [List.mem_cons, forall_eq_or_imp] at hs
    obtain ⟨ha, hb, hc, hd, hrest⟩ := hs
    simp only [canonicalSextets] at hcanon
    simp only [List.length_cons] at hlen
    simp only [sextetsToBytes, bytesToSextets, ih hrest (by omega) hcanon]
    congr 1
    · omega
    congr 1
    · omega
    congr 1
    · omega
    congr 1
    omega
  | case2 a b c =>
    simp only [List.mem_cons, forall_eq_or_imp] at hs
    obtain ⟨ha, hb, hc, -⟩ := hs
    simp only [canonicalSextets, decide_eq_true_eq] at hcanon
    simp only [sextetsToBytes, bytesToSextets]
    congr 1
    · omega
    congr 1
    · omega
    congr 1
    omega
  | case3 a b =>
    simp only [List.mem_cons, forall_eq_or_imp] at hs
    obtain ⟨ha, hb, -⟩ := hs
    simp only [canonicalSextets, decide_eq_true_eq] at hcanon
    simp only [sextetsToBytes, bytesToSextets]
    congr 1
    · omega
    congr 1
    omega
  | case4 a => simp at hlen
  | case5 => rfl

theorem atob_ok_shape (n : JSString) (bs : JSString)
    (hws : ∀ c ∈ n, isAsciiWhitespace c = false) (hlen : n.length % 4 = 0)
    (hok : atob n = .ok bs) :
    ∃ body j, n = body ++ List.replicate j 61 ∧ j ≤ 2 ∧ (∀ c ∈ body, (base64Index c).isSome)
      ∧ body.length % 4 ≠ 1 ∧ bs = sextetsToBytes (body.filterMap base64Index) := by
  have hfilter : n.filter (fun c => !isAsciiWhitespace c) = n := by
    rw [List.filter_eq_self]
    intro c hc
    simp [hws c hc]
  have hstrip : atobStripped n = dropLastEq (dropLastEq n) := by
    simp [atobStripped, hfilter, hlen]
  rw [atob_eq, hstrip] at hok
  split at hok
  · cases hok
  · split at hok
    · cases hok
    · rename_i h1 hany
      obtain ⟨j, hj, hn⟩ := dropLastEq_twice_spec n
      refine ⟨_, j, hn, hj, ?_, h1, ?_⟩
      · intro c hc
        by_contra hcon
        apply hany
        rw [List.any_eq_true]
        refine ⟨c, hc, ?_⟩
        cases hb : base64Index c with
        | none => rfl
        | some v => simp [hb] at hcon
      · cases hok; rfl

theorem fromUrlSafe_eq_61 (c : Nat) : fromUrlSafe c = 61 ↔ c = 61 := by
  unfold fromUrlSafe
  by_cases h45 : c = 45
  · subst h45; decide
  · by_cases h95 : c = 95
    · subst h95; decide
    · simp [h45, h95]

theorem filter_map_fromUrlSafe (t body : JSString) (m : Nat)
    (h : t.map fromUrlSafe = body ++ List.replicate m 61) (hbody : ∀ c ∈ body, c ≠ 61) :
    (t.filter fun c => decide (c ≠ 61)).map fromUrlSafe = body := by
  have h1 := congrArg (List.filter fun c => decide (c ≠ 61)) h
  rw [List.filter_map, List.filter_append] at h1
  have h2 : List.filter (fun c => decide (c ≠ 61)) (List.replicate m 61) = [] := by simp
  have h3 : List.filter (fun c => decide (c ≠ 61)) body = body := by
    rw [List.filter_eq_self]
    intro c hc
    simpa using hbody c hc
  have h4 : ((fun c => decide (c ≠ 61)) ∘ fromUrlSafe) = fun c => decide (c ≠ 61) := by
    funext c
    simp [fromUrlSafe_eq_61]
  rw [h2, h3, List.append_nil, h4] at h1
  exact h1

theorem map_base64urlChar_filterMap (x : JSString)
    (hx : ∀ c ∈ x, (base64urlIndex c).isSome) :
    (x.filterMap base64urlIndex).map base64urlChar = x
      ∧ (x.map fromUrlSafe).filterMap base64Index = x.filterMap base64urlIndex
      ∧ (x.filterMap base64urlIndex).length = x.length := by
  induction x with
  | nil => exact ⟨rfl, rfl, rfl⟩
  | cons c rest ih =>
    simp only [List.mem_cons, forall_eq_or_imp] at hx
    obtain ⟨n, hn⟩ := Option.isSome_iff_exists.mp hx.1
    obtain ⟨-, hch, hidx, -⟩ := base64urlIndex_eq_some hn
    obtain ⟨ih1, ih2, ih3⟩ := ih hx.2
    refine ⟨?_, ?_, ?_⟩
    · simp [List.filterMap_cons, hn, hch, ih1]
    · simp [List.filterMap_cons, hn, hidx, ih2]
    · simp [List.filterMap_cons, hn, ih3]

/-- C5 as stated fails: `"AB"` and `"+A"` are accepted by decode, but encoding what
they decode to gives `"AA"` and `"-A"`. -/
theorem encode_inverts_decode_counterexample :
    (base64ToArrayBuffer (utf16 "AB") = .ok [0]
        ∧ arrayBufferToBase64 (some [0]) = .ok (utf16 "AA")
        ∧ (utf16 "AB").filter (fun c => decide (c ≠ 61)) ≠ utf16 "AA")
      ∧ (base64ToArrayBuffer (utf16 "+A") = .ok [248]
        ∧ arrayBufferToBase64 (some [248]) = .ok (utf16 "-A")
        ∧ (utf16 "+A").filter (fun c => decide (c ≠ 61)) ≠ utf16 "-A") := by
  decide

/-- C5, amended: when decode accepts `t`, and `t` without its `=` is canonical
base64url text (base64url characters only, unused bits of the last one zero), then
encoding the decoded bytes gives `t` without its `=`. -/
theorem encode_inverts_decode (t : JSString) (b : List Nat)
    (hcanon : isCanonicalBase64url (t.filter fun c => decide (c ≠ 61)) = true)
    (hdec : base64ToArrayBuffer t = .ok b) :
    arrayBufferToBase64 (some b) = .ok (t.filter fun c => decide (c ≠ 61)) := by
  simp only [isCanonicalBase64url, Bool.and_eq_true, List.all_eq_true] at hcanon
  obtain ⟨hall, hcs⟩ := hcanon
  have hws : ∀ c ∈ toNormalBase64 t, isAsciiWhitespace c = false := by
    intro c hc
    rw [toNormalBase64_eq] at hc
    rcases List.mem_append.mp hc with h | h
    · obtain ⟨c0, hc0, rfl⟩ := List.mem_map.mp h
      by_cases h61 : c0 = 61
      · subst h61; decide
      · have hm : c0 ∈ t.filter fun c => decide (c ≠ 61) := by
          rw [List.mem_filter]; exact ⟨hc0, by simpa using h61⟩
        obtain ⟨n, hn⟩ := Option.isSome_iff_exists.mp (hall c0 hm)
        have hidx := (base64urlIndex_eq_some hn).2.2.1
        exact (base64Index_isSome_props (by simp [hidx])).2
    · rw [(List.mem_replicate.mp h).2]; decide
  unfold base64ToArrayBuffer at hdec
  cases hres : atob (toNormalBase64 t) with
  | error e => rw [hres] at hdec; cases hdec
  | ok bs =>
    rw [hres] at hdec
    have hb : bs.map (· % 256) = b := by
      simpa [bind, Except.bind, pure, Except.pure] using hdec
    obtain ⟨body, j, hn, hj, hbody, hlen1, hbs⟩ :=
      atob_ok_shape _ bs hws (toNormalBase64_loop_exit t) hres
    have hne : ∀ c ∈ body, c ≠ 61 := fun c hc => (base64Index_isSome_props (hbody c hc)).1
    rw [toNormalBase64_eq] at hn
    obtain ⟨-, hmap⟩ := append_replicate_eq hn hne
    have hx := filter_map_fromUrlSafe t body _ hmap hne
    obtain ⟨e1, e2, e3⟩ := map_base64urlChar_filterMap _ hall
    rw [hx] at e2
    rw [e2] at hbs
    have hs6 : ∀ n ∈ (t.filter fun c => decide (c ≠ 61)).filterMap base64urlIndex, n < 64 := by
      intro n hn
      obtain ⟨c, -, hc⟩ := List.mem_filterMap.mp hn
      exact (base64urlIndex_eq_some hc).1
    have hlt := sextetsToBytes_lt _ hs6
    rw [← hbs] at hlt
    rw [map_mod_256_of_lt bs hlt] at hb
    have hlen6 : ((t.filter fun c => decide (c ≠ 61)).filterMap base64urlIndex).length % 4 ≠ 1 := by
      rw [e3, ← List.length_map _ fromUrlSafe, hx]
      exact hlen1
    rw [arrayBufferToBase64_eq, ← hb, newUint8Array_of_bytes bs hlt, hbs,
      bytesToSextets_sextetsToBytes _ hs6 hlen6 hcs, e1]

/-- Witness for the amended C5 at the padded text `"-_8="`. -/
theorem encode_inverts_decode_witness :
    isCanonicalBase64url ((utf16 "-_8=").filter fun c => decide (c ≠ 61)) = true
      ∧ base64ToArrayBuffer (utf16 "-_8=") = .ok [251, 255]
      ∧ arrayBufferToBase64 (some [251, 255])
        = .ok ((utf16 "-_8=").filter fun c => decide (c ≠ 61)) :=
  ⟨by decide, by decide,
    encode_inverts_decode (utf16 "-_8=") [251, 255] (by decide) (by decide)⟩

/-! ## Properties of the transcoder -/

theorem lookup_cons_eq (k a : String) (b : JSValue) (rest : List (String × JSValue)) :
    ((a, b) :: rest).lookup k = if k = a then some b else rest.lookup k := by
  by_cases h : k = a
  · subst h
    simp [List.lookup]
  · have hne : (k == a) = false := by simpa using h
    simp [List.lookup, hne, h]

theorem lookup_map_set (props : List (String × JSValue)) (key k : String) (v : JSValue) :
    (props.map fun p => if p.1 == key then (key, v) else p).lookup k
      = if k = key then (if props.any (fun p => p.1 == key) then some v else none)
        else props.lookup k := by
  induction props with
  | nil => simp [List.lookup]
  | cons p rest ih =>
    obtain ⟨a, b⟩ := p
    by_cases ha : a = key
    · subst ha
      simp only [List.map_cons, beq_self_eq_true, if_true, lookup_cons_eq, List.any_cons,
        Bool.true_or]
      by_cases hk : k = a
      · simp [hk]
      · simp only [hk, if_false]
        rw [ih]
        simp [hk]
    · have hb : (a == key) = false := by simpa using ha
      simp only [List.map_cons, hb, Bool.false_eq_true, if_false, lookup_cons_eq, List.any_cons,
        Bool.false_or]
      rw [ih]
      by_cases hk : k = key
      · subst hk
        have hka : ¬ k = a := fun h => ha h.symm
        simp only [hka, if_false, if_true]
      · simp [hk]

theorem lookup_append_single (props : List (String × JSValue)) (key k : String) (v : JSValue) :
    (props ++ [(key, v)]).lookup k
      = match props.lookup k with
        | some w => some w
        | none => if k = key then some v else none := by
  induction props with
  | nil =>
    rw [List.nil_append, lookup_cons_eq]
    rfl
  | cons p rest ih =>
    obtain ⟨a, b⟩ := p
    rw [List.cons_append, lookup_cons_eq, lookup_cons_eq, ih]
    by_cases hk : k = a
    · simp [hk]
    · simp [hk]

theorem lookup_eq_none_of_not_any (props : List (String × JSValue)) (key : String)
    (h : ¬ props.any (fun p => p.1 == key) = true) : props.lookup key = none := by
  induction props with
  | nil => rfl
  | cons p rest ih =>
    obtain ⟨a, b⟩ := p
    simp only [List.any_cons, Bool.or_eq_true, beq_iff_eq, not_or] at h
    rw [lookup_cons_eq, if_neg (fun hk => h.1 hk.symm)]
    exact ih h.2

theorem lookup_setProp_self (props : List (String × JSValue)) (key : String) (v : JSValue) :
    (setProp props key v).lookup key = some v := by
  unfold setProp
  split
  · rename_i h
    rw [lookup_map_set]
    simp [h]
  · rename_i h
    rw [lookup_append_single, lookup_eq_none_of_not_any props key h]
    simp

theorem lookup_setProp_ne (props : List (String × JSValue)) (key k : String) (v : JSValue)
    (hk : k ≠ key) : (setProp props key v).lookup k = props.lookup k := by
  unfold setProp
  split
  · rw [lookup_map_set]
    simp [hk]
  · rw [lookup_append_single]
    cases props.lookup k with
    | none => simp [hk]
    | some w => rfl

theorem getProp_object (props : List (String × JSValue)) (key : String) :
    getProp (.object props) key = .ok ((props.lookup key).getD .undefined) := rfl

theorem getProp_eq_string {v : JSValue} {key : String} {s : JSString}
    (h : getProp v key = .ok (.string s)) :
    ∃ props, v = .object props ∧ props.lookup key = some (.string s) := by
  cases v with
  | object props =>
    refine ⟨props, rfl, ?_⟩
    rw [getProp_object] at h
    cases hl : props.lookup key with
    | none => rw [hl] at h; cases h
    | some w =>
      rw [hl] at h
      simp only [Option.getD_some, Except.ok.injEq] at h
      rw [h]
  | _ => cases h

theorem base64ToArrayBufferAny_ok {v r : JSValue} (h : base64ToArrayBufferAny v = .ok r) :
    ∃ s bytes, v = .string s ∧ base64ToArrayBuffer s = .ok bytes ∧ r = .uint8Array bytes := by
  cases v with
  | string s =>
    simp only [base64ToArrayBufferAny, bind, Except.bind, pure, Except.pure] at h
    cases hb : base64ToArrayBuffer s with
    | error e => rw [hb] at h; cases h
    | ok bytes =>
      rw [hb] at h
      cases h
      exact ⟨s, bytes, rfl, hb, rfl⟩
  | _ => cases h

theorem arrayMap_ok (f : JSValue → Except JSError JSValue) (items parsed : List JSValue)
    (h : arrayMap f items = .ok parsed) :
    parsed.length = items.length ∧
      ∀ (i : Nat) (c : JSValue), items[i]? = some c →
        ∃ c', parsed[i]? = some c' ∧ f c = .ok c' := by
  induction items generalizing parsed with
  | nil =>
    simp only [arrayMap, Except.ok.injEq] at h
    subst h
    simp
  | cons x xs ih =>
    simp only [arrayMap, bind, Except.bind, pure, Except.pure] at h
    cases hx : f x with
    | error e => rw [hx] at h; cases h
    | ok y =>
      rw [hx] at h
      cases hxs : arrayMap f xs with
      | error e => rw [hxs] at h; cases h
      | ok ys =>
        rw [hxs] at h
        cases h
        obtain ⟨hlen, hall⟩ := ih ys hxs
        refine ⟨by simp [hlen], ?_⟩
        intro i c hi
        cases i with
        | zero =>
          simp only [List.getElem?_cons_zero, Option.some.injEq] at hi
          subst hi
          exact ⟨y, by simp, hx⟩
        | succ i =>
          simp only [List.getElem?_cons_succ] at hi
          obtain ⟨c', hc', hf⟩ := hall i c hi
          exact ⟨c', by simpa using hc', hf⟩

theorem except_bind_ok {α β : Type} {x : Except JSError α} {f : α → Except JSError β} {r : β}
    (h : (x >>= f) = .ok r) : ∃ a, x = .ok a ∧ f a = .ok r := by
  cases x with
  | error e => cases h
  | ok a => exact ⟨a, rfl, h⟩

theorem parseCredential_ok {c r : JSValue} (h : parseCredential c = .ok r) :
    ∃ props s bytes, c = .object props ∧ props.lookup "id" = some (.string s)
      ∧ base64ToArrayBuffer s = .ok bytes
      ∧ r = .object (setProp props "id" (.uint8Array bytes)) := by
  unfold parseCredential at h
  obtain ⟨v, hid, h⟩ := except_bind_ok h
  obtain ⟨w, hdec, h⟩ := except_bind_ok h
  obtain ⟨s, bytes, rfl, hb, rfl⟩ := base64ToArrayBufferAny_ok hdec
  obtain ⟨props, rfl, hl⟩ := getProp_eq_string hid
  cases h
  exact ⟨props, s, bytes, rfl, hl, hb, rfl⟩

theorem parseCredentials_ok {v r : JSValue} (h : parseCredentials v = .ok r) :
    ((v = .undefined ∨ v = .null) ∧ r = .undefined)
      ∨ ∃ items parsed, v = .array items ∧ r = .array parsed
        ∧ arrayMap parseCredential items = .ok parsed := by
  cases v with
  | undefined => cases h; exact Or.inl ⟨Or.inl rfl, rfl⟩
  | null => cases h; exact Or.inl ⟨Or.inr rfl, rfl⟩
  | array items =>
    unfold parseCredentials at h
    obtain ⟨parsed, hm, h⟩ := except_bind_ok h
    cases h
    exact Or.inr ⟨items, parsed, rfl, rfl, hm⟩
  | _ => cases h

theorem parsePublicKey_literal_ok {d r : JSValue} (h : parsePublicKey.literal d = .ok r) :
    ∃ props a e u s bytes, d = .object props
      ∧ parseCredentials ((props.lookup "allowCredentials").getD .undefined) = .ok a
      ∧ parseCredentials ((props.lookup "excludeCredentials").getD .undefined) = .ok e
      ∧ parsePublicKey.user ((props.lookup "user").getD .undefined) = .ok u
      ∧ props.lookup "challenge" = some (.string s)
      ∧ base64ToArrayBuffer s = .ok bytes
      ∧ r = .object (setProp (setProp (setProp (setProp props "allowCredentials" a)
          "excludeCredentials" e) "user" u) "challenge" (.uint8Array bytes)) := by
  unfold parsePublicKey.literal at h
  obtain ⟨va, h1, g1⟩ := except_bind_ok h
  obtain ⟨a, h2, g2⟩ := except_bind_ok g1
  obtain ⟨ve, h3, g3⟩ := except_bind_ok g2
  obtain ⟨e, h4, g4⟩ := except_bind_ok g3
  obtain ⟨vu, h5, g5⟩ := except_bind_ok g4
  obtain ⟨u, h6, g6⟩ := except_bind_ok g5
  obtain ⟨vc, h7, g7⟩ := except_bind_ok g6
  obtain ⟨c, h8, g8⟩ := except_bind_ok g7
  clear h g1 g2 g3 g4 g5 g6 g7
  obtain ⟨s, bytes, rfl, hb, rfl⟩ := base64ToArrayBufferAny_ok h8
  obtain ⟨props, rfl, hl⟩ := getProp_eq_string h7
  rw [getProp_object] at h1 h3 h5
  simp only [Except.ok.injEq] at h1 h3 h5
  subst h1 h3 h5
  have hr : r = .object (setProp (setProp (setProp (setProp props "allowCredentials" a)
      "excludeCredentials" e) "user" u) "challenge" (.uint8Array bytes)) := by
    cases g8
    rfl
  exact ⟨props, a, e, u, s, bytes, rfl, h2, h4, h6, hl, hb, hr⟩

theorem parsePublicKey_result_ok {d r : JSValue} (h : (parsePublicKey d).result = .ok r) :
    parsePublicKey.literal d = .ok r := by
  unfold parsePublicKey at h
  cases hl : parsePublicKey.literal d with
  | error e => rw [hl] at h; cases h
  | ok v => rw [hl] at h; exact h

/-- C6: when `parsePublicKey` succeeds, each of `allowCredentials` and
`excludeCredentials` that is absent in the description is `undefined` in the result,
and one that is a list of `n` entries gives a list of `n` entries in the same order,
the entry at `i` carrying the decoded `id` of the entry at `i` and the same `type`. -/
theorem credential_lists_transcoded (d r : JSValue) (key : String)
    (hkey : key = "allowCredentials" ∨ key = "excludeCredentials")
    (h : (parsePublicKey d).result = .ok r) :
    (getProp d key = .ok .undefined → getProp r key = .ok .undefined)
      ∧ ∀ items, getProp d key = .ok (.array items) →
        ∃ parsed, getProp r key = .ok (.array parsed) ∧ parsed.length = items.length
          ∧ ∀ (i : Nat) (c : JSValue), items[i]? = some c →
            ∃ c' s bytes, parsed[i]? = some c' ∧ getProp c "id" = .ok (.string s)
              ∧ base64ToArrayBuffer s = .ok bytes
              ∧ getProp c' "id" = .ok (.uint8Array bytes)
              ∧ getProp c' "type" = getProp c "type" := by
  obtain ⟨props, a, e, u, s, bytes, rfl, ha, he, -, -, -, rfl⟩ :=
    parsePublicKey_literal_ok (parsePublicKey_result_ok h)
  have hget : ∃ x, parseCredentials ((props.lookup key).getD .undefined) = .ok x
      ∧ getProp (.object (setProp (setProp (setProp (setProp props "allowCredentials" a)
          "excludeCredentials" e) "user" u) "challenge" (.uint8Array bytes))) key = .ok x := by
    rcases hkey with rfl | rfl
    · refine ⟨a, ha, ?_⟩
      rw [getProp_object, lookup_setProp_ne _ _ _ _ (by decide),
        lookup_setProp_ne _ _ _ _ (by decide), lookup_setProp_ne _ _ _ _ (by decide),
        lookup_setProp_self]
      rfl
    · refine ⟨e, he, ?_⟩
      rw [getProp_object, lookup_setProp_ne _ _ _ _ (by decide),
        lookup_setProp_ne _ _ _ _ (by decide), lookup_setProp_self]
      rfl
  obtain ⟨x, hx, hgx⟩ := hget
  rw [getProp_object]
  constructor
  · intro hd
    simp only [Except.ok.injEq] at hd
    rw [hd] at hx
    cases hx
    exact hgx
  · intro items hd
    simp only [Except.ok.injEq] at hd
    rw [hd] at hx
    rcases parseCredentials_ok hx with ⟨hv | hv, -⟩ | ⟨items', parsed, hv, rfl, hm⟩
    · cases hv
    · cases hv
    · cases hv
      obtain ⟨hlen, hall⟩ := arrayMap_ok _ _ _ hm
      refine ⟨parsed, hgx, hlen, ?_⟩
      intro i c hi
      obtain ⟨c', hc', hf⟩ := hall i c hi
      obtain ⟨cprops, s', bytes', rfl, hl, hb, rfl⟩ := parseCredential_ok hf
      refine ⟨_, s', bytes', hc', ?_, hb, ?_, ?_⟩
      · rw [getProp_object, hl]; rfl
      · rw [getProp_object, lookup_setProp_self]; rfl
      · rw [getProp_object, getProp_object, lookup_setProp_ne _ _ _ _ (by decide)]

theorem parsePublicKey_exampleDescription :
    (parsePublicKey exampleDescription).result = .ok exampleParsed := rfl

/-- Witness for C6 at `exampleDescription` and its list `allowCredentials`. -/
theorem credential_lists_transcoded_witness :
    (parsePublicKey exampleDescription).result = .ok exampleParsed
      ∧ (getProp exampleDescription "allowCredentials" = .ok .undefined →
          getProp exampleParsed "allowCredentials" = .ok .undefined)
      ∧ ∀ items, getProp exampleDescription "allowCredentials" = .ok (.array items) →
        ∃ parsed, getProp exampleParsed "allowCredentials" = .ok (.array parsed)
          ∧ parsed.length = items.length
          ∧ ∀ (i : Nat) (c : JSValue), items[i]? = some c →
            ∃ c' s bytes, parsed[i]? = some c' ∧ getProp c "id" = .ok (.string s)
              ∧ base64ToArrayBuffer s = .ok bytes
              ∧ getProp c' "id" = .ok (.uint8Array bytes)
              ∧ getProp c' "type" = getProp c "type" :=
  ⟨rfl, credential_lists_transcoded exampleDescription exampleParsed "allowCredentials"
    (Or.inl rfl) rfl⟩

/-- C7: when `parsePublicKey` succeeds, description and result are objects, each of
`authenticatorSelection`, `extensions`, `pubKeyCredParams`, `rp`, `timeout`,
`status`, `errorMessage` is present in the result exactly when it is in the
description, with the same value, and `challenge` is the decoded challenge. -/
theorem non_binary_fields_pass_through (d r : JSValue)
    (h : (parsePublicKey d).result = .ok r) :
    ∃ dprops rprops, d = .object dprops ∧ r = .object rprops
      ∧ (∀ key ∈ passThroughKeys, rprops.lookup key = dprops.lookup key)
      ∧ ∃ s bytes, dprops.lookup "challenge" = some (.string s)
        ∧ base64ToArrayBuffer s = .ok bytes
        ∧ rprops.lookup "challenge" = some (.uint8Array bytes) := by
  obtain ⟨props, a, e, u, s, bytes, rfl, -, -, -, hl, hb, rfl⟩ :=
    parsePublicKey_literal_ok (parsePublicKey_result_ok h)
  refine ⟨props, _, rfl, rfl, ?_, s, bytes, hl, hb, lookup_setProp_self _ _ _⟩
  intro key hkey
  have hne : key ≠ "challenge" ∧ key ≠ "user" ∧ key ≠ "excludeCredentials"
      ∧ key ≠ "allowCredentials" := by
    simp only [passThroughKeys, List.mem_cons, List.mem_singleton, List.not_mem_nil,
      or_false] at hkey
    rcases hkey with rfl | rfl | rfl | rfl | rfl | rfl | rfl <;> decide
  rw [lookup_setProp_ne _ _ _ _ hne.1, lookup_setProp_ne _ _ _ _ hne.2.1,
    lookup_setProp_ne _ _ _ _ hne.2.2.1, lookup_setProp_ne _ _ _ _ hne.2.2.2]

/-- Witness for C7 at `exampleDescription`. -/
theorem non_binary_fields_pass_through_witness :
    (parsePublicKey exampleDescription).result = .ok exampleParsed
      ∧ ∃ dprops rprops, exampleDescription = .object dprops ∧ exampleParsed = .object rprops
        ∧ (∀ key ∈ passThroughKeys, rprops.lookup key = dprops.lookup key)
        ∧ ∃ s bytes, dprops.lookup "challenge" = some (.string s)
          ∧ base64ToArrayBuffer s = .ok bytes
          ∧ rprops.lookup "challenge" = some (.uint8Array bytes) :=
  ⟨rfl, non_binary_fields_pass_through exampleDescription exampleParsed rfl⟩

/-! ## Properties of the ceremonies -/

theorem base64ToArrayBuffer_error {s : JSString} {e : JSError}
    (h : base64ToArrayBuffer s = .error e) : e = .invalidCharacterError := by
  unfold base64ToArrayBuffer at h
  cases ha : atob (toNormalBase64 s) with
  | error e' =>
    rw [ha] at h
    cases h
    exact atob_error _ _ ha
  | ok bs => rw [ha] at h; cases h

theorem base64ToArrayBufferAny_string (s : JSString) :
    base64ToArrayBufferAny (.string s)
      = (base64ToArrayBuffer s >>= fun bytes => pure (.uint8Array bytes)) := rfl

theorem base64ToArrayBufferAny_string_error {s : JSString} {e : JSError}
    (h : base64ToArrayBufferAny (.string s) = .error e) : e = .invalidCharacterError := by
  rw [base64ToArrayBufferAny_string] at h
  cases hb : base64ToArrayBuffer s with
  | error e' =>
    rw [hb] at h
    cases h
    exact base64ToArrayBuffer_error hb
  | ok bs => rw [hb] at h; cases h

theorem base64ToArrayBufferAny_rejects {v : JSValue} (h : decodeRejects v = true) :
    ∃ e, base64ToArrayBufferAny v = .error e := by
  cases v with
  | string s =>
    rw [base64ToArrayBufferAny_string]
    have hd : decodeRejects (.string s)
        = match base64ToArrayBuffer s with
          | .error _ => true
          | .ok _ => false := rfl
    rw [hd] at h
    cases hb : base64ToArrayBuffer s with
    | error e => exact ⟨e, rfl⟩
    | ok bs => rw [hb] at h; cases h
  | _ => cases h

theorem hasTextId_eq_true {c : JSValue} (h : hasTextId c = true) :
    ∃ props s, c = .object props ∧ props.lookup "id" = some (.string s) := by
  unfold hasTextId at h
  split at h
  · split at h
    · rename_i props _ s heq
      exact ⟨props, s, rfl, heq⟩
    · cases h
  · cases h

theorem parseCredential_object (props : List (String × JSValue)) (s : JSString)
    (hl : props.lookup "id" = some (.string s)) :
    parseCredential (.object props)
      = (base64ToArrayBuffer s >>= fun bytes =>
          pure (.object (setProp props "id" (.uint8Array bytes)))) := by
  unfold parseCredential
  rw [getProp_object, hl]
  cases hb : base64ToArrayBuffer s with
  | error e => simp only [Option.getD_some, bind, Except.bind, base64ToArrayBufferAny, hb]
  | ok bytes =>
    simp only [Option.getD_some, bind, Except.bind, base64ToArrayBufferAny, hb, pure,
      Except.pure, spread]

theorem parseCredential_error_of_hasTextId {c : JSValue} {e : JSError}
    (hc : hasTextId c = true) (h : parseCredential c = .error e) :
    e = .invalidCharacterError := by
  obtain ⟨props, s, rfl, hl⟩ := hasTextId_eq_true hc
  rw [parseCredential_object props s hl] at h
  cases hb : base64ToArrayBuffer s with
  | error e' =>
    rw [hb] at h
    cases h
    exact base64ToArrayBuffer_error hb
  | ok bytes => rw [hb] at h; cases h

theorem parseCredential_rejects {c id : JSValue} (hid : getProp c "id" = .ok id)
    (h : decodeRejects id = true) : ∃ e, parseCredential c = .error e := by
  obtain ⟨e, he⟩ := base64ToArrayBufferAny_rejects h
  refine ⟨e, ?_⟩
  unfold parseCredential
  simp only [hid, bind, Except.bind, he]

theorem arrayMap_error_typed (f : JSValue → Except JSError JSValue) (p : JSValue → Bool)
    (hf : ∀ c e, p c = true → f c = .error e → e = .invalidCharacterError)
    (items : List JSValue) (hp : items.all p = true) (e : JSError)
    (h : arrayMap f items = .error e) : e = .invalidCharacterError := by
  induction items with
  | nil => cases h
  | cons x xs ih =>
    simp only [List.all_cons, Bool.and_eq_true] at hp
    simp only [arrayMap, bind, Except.bind] at h
    cases hx : f x with
    | error e' =>
      simp only [hx] at h
      cases h
      exact hf x _ hp.1 hx
    | ok y =>
      simp only [hx] at h
      cases hxs : arrayMap f xs with
      | error e' =>
        simp only [hxs] at h
        cases h
        exact ih hp.2 hxs
      | ok ys =>
        simp only [hxs, pure, Except.pure] at h
        cases h

theorem arrayMap_error_of_mem (f : JSValue → Except JSError JSValue) (items : List JSValue)
    (h : ∃ c ∈ items, ∃ e, f c = .error e) : ∃ e, arrayMap f items = .error e := by
  induction items with
  | nil =>
    obtain ⟨c, hc, -⟩ := h
    cases hc
  | cons x xs ih =>
    cases hx : f x with
    | error e' => exact ⟨e', by simp only [arrayMap, bind, Except.bind, hx]⟩
    | ok y =>
      obtain ⟨c, hc, e, he⟩ := h
      have hmem : c ∈ xs := by
        rcases List.mem_cons.mp hc with rfl | hm
        · rw [hx] at he; cases he
        · exact hm
      obtain ⟨e', he'⟩ := ih ⟨c, hmem, e, he⟩
      exact ⟨e', by simp only [arrayMap, bind, Except.bind, hx, he']⟩

theorem parseCredentials_error_typed {v : JSValue} {e : JSError}
    (hv : isCredentialList v = true) (h : parseCredentials v = .error e) :
    e = .invalidCharacterError := by
  cases v with
  | undefined => cases h
  | array items =>
    unfold isCredentialList at hv
    unfold parseCredentials at h
    cases hm : arrayMap parseCredential items with
    | error e' =>
      simp only [hm, bind, Except.bind] at h
      cases h
      exact arrayMap_error_typed parseCredential hasTextId
        (fun c e hc he => parseCredential_error_of_hasTextId hc he) items hv _ hm
    | ok parsed =>
      simp only [hm, bind, Except.bind, pure, Except.pure] at h
      cases h
  | _ => cases hv

theorem parseCredentials_rejects {v : JSValue} (h : hasRejectedId v = true) :
    ∃ e, parseCredentials v = .error e := by
  cases v with
  | array items =>
    unfold hasRejectedId at h
    rw [List.any_eq_true] at h
    obtain ⟨c, hc, hrej⟩ := h
    have hmap : ∃ e, arrayMap parseCredential items = .error e := by
      apply arrayMap_error_of_mem
      refine ⟨c, hc, ?_⟩
      cases hid : getProp c "id" with
      | error e => rw [hid] at hrej; cases hrej
      | ok id =>
        rw [hid] at hrej
        exact parseCredential_rejects hid hrej
    obtain ⟨e, he⟩ := hmap
    exact ⟨e, by simp only [parseCredentials, bind, Except.bind, he]⟩
  | _ => cases h

theorem parsePublicKey_user_error_typed {u : JSValue} {e : JSError}
    (hu : u = .undefined ∨ hasTextId u = true) (h : parsePublicKey.user u = .error e) :
    e = .invalidCharacterError := by
  rcases hu with rfl | hu
  · cases h
  · cases u with
    | object props =>
      have : parseCredential (.object props) = .error e := h
      exact parseCredential_error_of_hasTextId hu this
    | _ => cases hu

theorem parsePublicKey_literal_object (props : List (String × JSValue)) :
    parsePublicKey.literal (.object props)
      = (parseCredentials ((props.lookup "allowCredentials").getD .undefined) >>= fun a =>
          parseCredentials ((props.lookup "excludeCredentials").getD .undefined) >>= fun e =>
          parsePublicKey.user ((props.lookup "user").getD .undefined) >>= fun u =>
          base64ToArrayBufferAny ((props.lookup "challenge").getD .undefined) >>= fun c =>
          pure (.object (setProp (setProp (setProp (setProp props "allowCredentials" a)
            "excludeCredentials" e) "user" u) "challenge" c))) := rfl

theorem isPublicKey_object {props : List (String × JSValue)}
    (h : isPublicKey (.object props) = true) :
    isCredentialList ((props.lookup "allowCredentials").getD .undefined) = true
      ∧ isCredentialList ((props.lookup "excludeCredentials").getD .undefined) = true
      ∧ ((props.lookup "user").getD .undefined = .undefined
          ∨ hasTextId ((props.lookup "user").getD .undefined) = true)
      ∧ ∃ s, (props.lookup "challenge").getD .undefined = .string s := by
  simp only [isPublicKey, Bool.and_eq_true] at h
  obtain ⟨⟨⟨h1, h2⟩, h3⟩, h4⟩ := h
  refine ⟨h1, h2, ?_, ?_⟩
  · cases hu : props.lookup "user" with
    | none => exact Or.inl rfl
    | some u =>
      rw [hu] at h3
      cases u with
      | undefined => exact Or.inl rfl
      | _ => exact Or.inr h3
  · cases hc : props.lookup "challenge" with
    | none => rw [hc] at h4; cases h4
    | some c =>
      rw [hc] at h4
      cases c with
      | string s => exact ⟨s, rfl⟩
      | _ => cases h4

theorem parsePublicKey_literal_rejects (d : JSValue) (hbad : hasRejectedField d = true) :
    ∃ e, parsePublicKey.literal d = .error e
      ∧ (isPublicKey d = true → e = .invalidCharacterError) := by
  cases d with
  | object props =>
    rw [parsePublicKey_literal_object]
    simp only [hasRejectedField, Bool.or_eq_true] at hbad
    cases hA : parseCredentials ((props.lookup "allowCredentials").getD .undefined) with
    | error e =>
      exact ⟨e, rfl, fun ht => parseCredentials_error_typed (isPublicKey_object ht).1 hA⟩
    | ok a =>
      cases hE : parseCredentials ((props.lookup "excludeCredentials").getD .undefined) with
      | error e =>
        exact ⟨e, rfl, fun ht => parseCredentials_error_typed (isPublicKey_object ht).2.1 hE⟩
      | ok x =>
        cases hU : parsePublicKey.user ((props.lookup "user").getD .undefined) with
        | error e =>
          exact ⟨e, rfl, fun ht =>
            parsePublicKey_user_error_typed (isPublicKey_object ht).2.2.1 hU⟩
        | ok u =>
          cases hC : base64ToArrayBufferAny ((props.lookup "challenge").getD .undefined) with
          | error e =>
            refine ⟨e, rfl, fun ht => ?_⟩
            obtain ⟨s, hs⟩ := (isPublicKey_object ht).2.2.2
            rw [hs] at hC
            exact base64ToArrayBufferAny_string_error hC
          | ok c =>
            exfalso
            rcases hbad with (hc | ha) | he
            · obtain ⟨e, he⟩ := base64ToArrayBufferAny_rejects hc
              rw [hC] at he
              cases he
            · obtain ⟨e, he⟩ := parseCredentials_rejects ha
              rw [hA] at he
              cases he
            · obtain ⟨e, he'⟩ := parseCredentials_rejects he
              rw [hE] at he'
              cases he'
  | _ => cases hbad

theorem parsePublicKey_of_literal_error {d : JSValue} {e : JSError}
    (h : parsePublicKey.literal d = .error e) :
    parsePublicKey d = { result := .error e, trace := [] } := by
  unfold parsePublicKey
  rw [h]

theorem create_of_parse_error (env : Platform) (self : WebAuthnSDK)
    (start : StartRegisterResponse) (d : JSValue) (e : JSError)
    (hjson : env.jsonParse start.fido2_json_options = .ok d)
    (h : parsePublicKey.literal d = .error e) :
    create env self start = { result := .error e, trace := [] } := by
  unfold create
  rw [hjson]
  simp only [parsePublicKey_of_literal_error h]

theorem get_of_parse_error (env : Platform) (self : WebAuthnSDK)
    (start : StartLoginResponse) (d : JSValue) (e : JSError)
    (hjson : env.jsonParse start.fido2_json_options = .ok d)
    (h : parsePublicKey.literal d = .error e) :
    get env self start = { result := .error e, trace := [] } := by
  unfold get
  rw [hjson]
  simp only [parsePublicKey_of_literal_error h]

/-- C9, amended: when the description of a start payload has a challenge, or an
`allowCredentials` or `excludeCredentials` entry `id`, that decode rejects, `create`
and `get` fail, so that no envelope is returned, and the platform credential
capability is never called; the failure is the decode error whenever the text
members of the description are shaped as interface `PublicKey` declares them (each
credential list absent or a list of objects with a text `id`, `user` absent or an
object with a text `id`, `challenge` a text). -/
theorem decode_error_aborts_before_platform (env : Platform) (self : WebAuthnSDK)
    (d : JSValue) (hbad : hasRejectedField d = true) :
    (∀ start : StartRegisterResponse, env.jsonParse start.fido2_json_options = .ok d →
        ∃ e, (create env self start).result = .error e
          ∧ (isPublicKey d = true → e = .invalidCharacterError)
          ∧ capabilityCalls (create env self start).trace = [])
      ∧ ∀ start : StartLoginResponse, env.jsonParse start.fido2_json_options = .ok d →
        ∃ e, (get env self start).result = .error e
          ∧ (isPublicKey d = true → e = .invalidCharacterError)
          ∧ capabilityCalls (get env self start).trace = [] := by
  obtain ⟨e, he, htyped⟩ := parsePublicKey_literal_rejects d hbad
  constructor
  · intro start hjson
    rw [create_of_parse_error env self start d e hjson he]
    exact ⟨e, rfl, htyped, rfl⟩
  · intro start hjson
    rw [get_of_parse_error env self start d e hjson he]
    exact ⟨e, rfl, htyped, rfl⟩

/-- Witness for the amended C9: the description `{"challenge":"A"}`, which is shaped
as the interface declares; `create` on it fails with the decode error. -/
theorem decode_error_aborts_before_platform_witness :
    hasRejectedField badChallengeDescription = true
      ∧ isPublicKey badChallengeDescription = true
      ∧ (create (stubPlatform badChallengeText badChallengeDescription none)
          (WebAuthnSDK.constructor { webauthnClientId := none })
          (registerStart badChallengeText)).result = .error .invalidCharacterError
      ∧ ((∀ start : StartRegisterResponse,
          (stubPlatform badChallengeText badChallengeDescription none).jsonParse
              start.fido2_json_options = .ok badChallengeDescription →
            ∃ e, (create (stubPlatform badChallengeText badChallengeDescription none)
                (WebAuthnSDK.constructor { webauthnClientId := none }) start).result = .error e
              ∧ (isPublicKey badChallengeDescription = true → e = .invalidCharacterError)
              ∧ capabilityCalls (create (stubPlatform badChallengeText badChallengeDescription none)
                (WebAuthnSDK.constructor { webauthnClientId := none }) start).trace = [])
        ∧ ∀ start : StartLoginResponse,
          (stubPlatform badChallengeText badChallengeDescription none).jsonParse
              start.fido2_json_options = .ok badChallengeDescription →
            ∃ e, (get (stubPlatform badChallengeText badChallengeDescription none)
                (WebAuthnSDK.constructor { webauthnClientId := none }) start).result = .error e
              ∧ (isPublicKey badChallengeDescription = true → e = .invalidCharacterError)
              ∧ capabilityCalls (get (stubPlatform badChallengeText badChallengeDescription none)
                (WebAuthnSDK.constructor { webauthnClientId := none }) start).trace = []) :=
  ⟨by decide, by decide, rfl,
    decode_error_aborts_before_platform
      (stubPlatform badChallengeText badChallengeDescription none)
      (WebAuthnSDK.constructor { webauthnClientId := none }) badChallengeDescription
      (by decide)⟩

theorem parsePublicKey_user_spec (u : JSValue) :
    (typeof u ≠ "object" → parsePublicKey.user u = .ok u)
      ∧ (∀ props s bytes, u = .object props → props.lookup "id" = some (.string s) →
          base64ToArrayBuffer s = .ok bytes →
          parsePublicKey.user u = .ok (.object (setProp props "id" (.uint8Array bytes))))
      ∧ (u = .null → parsePublicKey.user u = .error .typeError) := by
  refine ⟨?_, ?_, ?_⟩
  · intro h
    unfold parsePublicKey.user
    rw [if_neg h]
    rfl
  · rintro props s bytes rfl hl hb
    have h := parseCredential_object props s hl
    rw [hb] at h
    exact h
  · rintro rfl
    rfl

/-- C8 at the failing input `{"challenge":"AAE","user":null}`: `typeof null` is
`"object"`, so `null.id` is read and a `TypeError` is thrown, while the description
without the member `user` is transcoded. -/
theorem user_null_throws_type_error :
    (parsePublicKey (.object [("challenge", .string (utf16 "AAE")), ("user", .null)])).result
        = .error .typeError
      ∧ (parsePublicKey (.object [("challenge", .string (utf16 "AAE"))])).result
        = .ok (.object [("challenge", .uint8Array [0, 1]), ("allowCredentials", .undefined),
            ("excludeCredentials", .undefined), ("user", .undefined)]) :=
  ⟨rfl, rfl⟩

set_option maxRecDepth 100000 in
/-- C10 as stated fails: when the capability yields no result, the messages of the
errors thrown are `Registration failed!` and `Login failed!`. -/
theorem empty_result_fails_counterexample :
    (create (stubPlatform exampleOptionsText exampleDescription none)
        (WebAuthnSDK.constructor { webauthnClientId := none })
        (registerStart exampleOptionsText)).result
        ≠ .error (.error "registration failed")
      ∧ (get (stubPlatform exampleOptionsText exampleDescription none)
        (WebAuthnSDK.constructor { webauthnClientId := none })
        (loginStart exampleOptionsText)).result
        ≠ .error (.error "login failed") := by
  constructor
  · intro h
    have h2 : (Except.error (JSError.error "Registration failed!") :
        Except JSError CreateResponse) = .error (.error "registration failed") := h
    injection h2 with h3
    injection h3 with h4
    exact absurd h4 (by decide)
  · intro h
    have h2 : (Except.error (JSError.error "Login failed!") :
        Except JSError GetResponse) = .error (.error "login failed") := h
    injection h2 with h3
    injection h3 with h4
    exact absurd h4 (by decide)

/-- C10, amended: when the description transcodes and the capability yields no
result, `create` fails with `Error("Registration failed!")` and `get` with
`Error("Login failed!")`; no envelope is returned. -/
theorem empty_result_fails (env : Platform) (self : WebAuthnSDK) (d r : JSValue)
    (hparsed : (parsePublicKey d).result = .ok r) :
    (∀ start : StartRegisterResponse, env.jsonParse start.fido2_json_options = .ok d →
        env.credentialsCreate (.object [("publicKey", r)]) = .ok none →
        (create env self start).result = .error (.error "Registration failed!"))
      ∧ ∀ start : StartLoginResponse, env.jsonParse start.fido2_json_options = .ok d →
        env.credentialsGet (.object [("publicKey", r)]) = .ok none →
        (get env self start).result = .error (.error "Login failed!") := by
  constructor
  · intro start hjson hcap
    unfold create
    simp only [hjson, hparsed, hcap]
  · intro start hjson hcap
    unfold get
    simp only [hjson, hparsed, hcap]

set_option maxRecDepth 100000 in
/-- Witness for the amended C10 at `exampleDescription`. -/
theorem empty_result_fails_witness :
    (parsePublicKey exampleDescription).result = .ok exampleParsed
      ∧ (create (stubPlatform exampleOptionsText exampleDescription none)
          (WebAuthnSDK.constructor { webauthnClientId := none })
          (registerStart exampleOptionsText)).result
        = .error (.error "Registration failed!")
      ∧ (get (stubPlatform exampleOptionsText exampleDescription none)
          (WebAuthnSDK.constructor { webauthnClientId := none })
          (loginStart exampleOptionsText)).result
        = .error (.error "Login failed!") :=
  ⟨rfl,
    (empty_result_fails (stubPlatform exampleOptionsText exampleDescription none)
      (WebAuthnSDK.constructor { webauthnClientId := none }) exampleDescription exampleParsed
      rfl).1 (registerStart exampleOptionsText) rfl rfl,
    (empty_result_fails (stubPlatform exampleOptionsText exampleDescription none)
      (WebAuthnSDK.constructor { webauthnClientId := none }) exampleDescription exampleParsed
      rfl).2 (loginStart exampleOptionsText) rfl rfl⟩

theorem arrayBufferToBase64_encodeText (buffer : Option (List Nat)) :
    arrayBufferToBase64 buffer = .ok (encodeText buffer) :=
  arrayBufferToBase64_eq buffer

theorem authenticatorResponseData_eq (attestation : PublicKeyCredential) :
    authenticatorResponseData attestation = .ok (responseDataOf attestation) := by
  unfold authenticatorResponseData responseDataOf
  simp only [arrayBufferToBase64_encodeText, bind, Except.bind, pure, Except.pure]
  cases attestation.response.authenticatorData <;>
    cases attestation.response.userHandle <;> rfl

theorem create_of_credential (env : Platform) (self : WebAuthnSDK)
    (start : StartRegisterResponse) (d r : JSValue) (attestation : PublicKeyCredential)
    (hjson : env.jsonParse start.fido2_json_options = .ok d)
    (hparsed : (parsePublicKey d).result = .ok r)
    (hcap : env.credentialsCreate (.object [("publicKey", r)]) = .ok (some attestation)) :
    (create env self start).result
      = .ok { authenticator_response_data := responseDataOf attestation
              registration_id := start.registration_id
              aa_sig := start.aa_sig
              webauthn_client_id := self.webauthnClientId } := by
  unfold create
  simp only [hjson, hparsed, hcap, authenticatorResponseData_eq]
  rfl

theorem get_of_credential (env : Platform) (self : WebAuthnSDK)
    (start : StartLoginResponse) (d r : JSValue) (attestation : PublicKeyCredential)
    (hjson : env.jsonParse start.fido2_json_options = .ok d)
    (hparsed : (parsePublicKey d).result = .ok r)
    (hcap : env.credentialsGet (.object [("publicKey", r)]) = .ok (some attestation)) :
    (get env self start).result
      = .ok { authenticator_response_data := responseDataOf attestation
              auth_request_id := start.auth_request_id
              aa_guid := start.aa_guid
              webauthn_client_id := self.webauthnClientId } := by
  unfold get
  simp only [hjson, hparsed, hcap, authenticatorResponseData_eq]
  rfl

theorem fallbackEncoded_responseDataOf (attestation : PublicKeyCredential) :
    FallbackEncoded attestation (responseDataOf attestation) := by
  refine ⟨?_, ?_⟩
  · intro ao h
    rw [arrayBufferToBase64_encodeText]
    simp [responseDataOf, h]
  · intro hnone ad h
    rw [arrayBufferToBase64_encodeText]
    simp [responseDataOf, hnone, h]

theorem optionalsEncoded_responseDataOf (attestation : PublicKeyCredential) :
    OptionalsEncoded attestation (responseDataOf attestation) := by
  refine ⟨?_, ?_, ?_, ?_⟩
  · intro h
    simp [responseDataOf, h]
  · intro uh h
    exact ⟨_, arrayBufferToBase64_encodeText _, by simp [responseDataOf, h]⟩
  · intro h
    simp [responseDataOf, h]
  · intro ad h
    exact ⟨_, arrayBufferToBase64_encodeText _, by simp [responseDataOf, h]⟩

/-- C11: for a credential returned to `create` or to `get`, the envelope is built and
its `attestation_object` is the encoding of the attestation object when the response
has one, and of the authenticator data when it has that and no attestation object. -/
theorem attestation_object_fallback (env : Platform) (self : WebAuthnSDK) (d r : JSValue)
    (attestation : PublicKeyCredential) (hparsed : (parsePublicKey d).result = .ok r) :
    (∀ start : StartRegisterResponse, env.jsonParse start.fido2_json_options = .ok d →
        env.credentialsCreate (.object [("publicKey", r)]) = .ok (some attestation) →
        ∃ envelope, (create env self start).result = .ok envelope
          ∧ FallbackEncoded attestation envelope.authenticator_response_data)
      ∧ ∀ start : StartLoginResponse, env.jsonParse start.fido2_json_options = .ok d →
        env.credentialsGet (.object [("publicKey", r)]) = .ok (some attestation) →
        ∃ envelope, (get env self start).result = .ok envelope
          ∧ FallbackEncoded attestation envelope.authenticator_response_data := by
  constructor
  · intro start hjson hcap
    exact ⟨_, create_of_credential env self start d r attestation hjson hparsed hcap,
      fallbackEncoded_responseDataOf attestation⟩
  · intro start hjson hcap
    exact ⟨_, get_of_credential env self start d r attestation hjson hparsed hcap,
      fallbackEncoded_responseDataOf attestation⟩

set_option maxRecDepth 100000 in
/-- Witness for C11: `get` on a credential with authenticator data `[7, 8, 9]` and no
attestation object. -/
theorem attestation_object_fallback_witness :
    (parsePublicKey exampleDescription).result = .ok exampleParsed
      ∧ ∃ envelope,
        (get (stubPlatform exampleOptionsText exampleDescription (some assertionCredential))
          (WebAuthnSDK.constructor { webauthnClientId := none })
          (loginStart exampleOptionsText)).result = .ok envelope
        ∧ FallbackEncoded assertionCredential envelope.authenticator_response_data :=
  ⟨rfl,
    (attestation_object_fallback
      (stubPlatform exampleOptionsText exampleDescription (some assertionCredential))
      (WebAuthnSDK.constructor { webauthnClientId := none }) exampleDescription exampleParsed
      assertionCredential rfl).2 (loginStart exampleOptionsText) rfl rfl⟩

/-- C12: for a credential returned to `create` or to `get`, the envelope's
`user_handle` is absent when the response has no user handle and is its encoding
when it has one, and likewise `authenticator_data` for the authenticator data. -/
theorem optional_fields_omitted (env : Platform) (self : WebAuthnSDK) (d r : JSValue)
    (attestation : PublicKeyCredential) (hparsed : (parsePublicKey d).result = .ok r) :
    (∀ start : StartRegisterResponse, env.jsonParse start.fido2_json_options = .ok d →
        env.credentialsCreate (.object [("publicKey", r)]) = .ok (some attestation) →
        ∃ envelope, (create env self start).result = .ok envelope
          ∧ OptionalsEncoded attestation envelope.authenticator_response_data)
      ∧ ∀ start : StartLoginResponse, env.jsonParse start.fido2_json_options = .ok d →
        env.credentialsGet (.object [("publicKey", r)]) = .ok (some attestation) →
        ∃ envelope, (get env self start).result = .ok envelope
          ∧ OptionalsEncoded attestation envelope.authenticator_response_data := by
  constructor
  · intro start hjson hcap
    exact ⟨_, create_of_credential env self start d r attestation hjson hparsed hcap,
      optionalsEncoded_responseDataOf attestation⟩
  · intro start hjson hcap
    exact ⟨_, get_of_credential env self start d r attestation hjson hparsed hcap,
      optionalsEncoded_responseDataOf attestation⟩

set_option maxRecDepth 100000 in
/-- Witness for C12: `create` on a credential without user handle and without
authenticator data. -/
theorem optional_fields_omitted_witness :
    (parsePublicKey exampleDescription).result = .ok exampleParsed
      ∧ ∃ envelope,
        (create (stubPlatform exampleOptionsText exampleDescription (some attestationCredential))
          (WebAuthnSDK.constructor { webauthnClientId := none })
          (registerStart exampleOptionsText)).result = .ok envelope
        ∧ OptionalsEncoded attestationCredential envelope.authenticator_response_data :=
  ⟨rfl,
    (optional_fields_omitted
      (stubPlatform exampleOptionsText exampleDescription (some attestationCredential))
      (WebAuthnSDK.constructor { webauthnClientId := none }) exampleDescription exampleParsed
      attestationCredential rfl).1 (registerStart exampleOptionsText) rfl rfl⟩

/-- C13: on a credential, the envelope of `create` carries `registration_id` and
`aa_sig` of the start payload, the envelope of `get` carries `auth_request_id` and
`aa_guid`, and both carry as `webauthn_client_id` the client id given to the
constructor, or the empty string when none was given. -/
theorem identifiers_carried_through (env : Platform) (config : Config) (d r : JSValue)
    (attestation : PublicKeyCredential) (hparsed : (parsePublicKey d).result = .ok r) :
    (∀ start : StartRegisterResponse, env.jsonParse start.fido2_json_options = .ok d →
        env.credentialsCreate (.object [("publicKey", r)]) = .ok (some attestation) →
        ∃ envelope, (create env (WebAuthnSDK.constructor config) start).result = .ok envelope
          ∧ envelope.registration_id = start.registration_id
          ∧ envelope.aa_sig = start.aa_sig
          ∧ (∀ id, config.webauthnClientId = some id → envelope.webauthn_client_id = id)
          ∧ (config.webauthnClientId = none → envelope.webauthn_client_id = []))
      ∧ ∀ start : StartLoginResponse, env.jsonParse start.fido2_json_options = .ok d →
        env.credentialsGet (.object [("publicKey", r)]) = .ok (some attestation) →
        ∃ envelope, (get env (WebAuthnSDK.constructor config) start).result = .ok envelope
          ∧ envelope.auth_request_id = start.auth_request_id
          ∧ envelope.aa_guid = start.aa_guid
          ∧ (∀ id, config.webauthnClientId = some id → envelope.webauthn_client_id = id)
          ∧ (config.webauthnClientId = none → envelope.webauthn_client_id = []) := by
  have hsome : ∀ id, config.webauthnClientId = some id →
      (WebAuthnSDK.constructor config).webauthnClientId = id := by
    intro id h
    simp [WebAuthnSDK.constructor, h]
  have hnone : config.webauthnClientId = none →
      (WebAuthnSDK.constructor config).webauthnClientId = [] := by
    intro h
    simp only [WebAuthnSDK.constructor, h, Option.getD_none]
    rfl
  constructor
  · intro start hjson hcap
    exact ⟨_, create_of_credential env _ start d r attestation hjson hparsed hcap,
      rfl, rfl, hsome, hnone⟩
  · intro start hjson hcap
    exact ⟨_, get_of_credential env _ start d r attestation hjson hparsed hcap,
      rfl, rfl, hsome, hnone⟩

set_option maxRecDepth 100000 in
/-- Witness for C13: `create` with the client id `"app"`. -/
theorem identifiers_carried_through_witness :
    (parsePublicKey exampleDescription).result = .ok exampleParsed
      ∧ ∃ envelope,
        (create (stubPlatform exampleOptionsText exampleDescription (some attestationCredential))
          (WebAuthnSDK.constructor { webauthnClientId := some (utf16 "app") })
          (registerStart exampleOptionsText)).result = .ok envelope
        ∧ envelope.registration_id = (registerStart exampleOptionsText).registration_id
        ∧ envelope.aa_sig = (registerStart exampleOptionsText).aa_sig
        ∧ (∀ id, (Config.mk (some (utf16 "app"))).webauthnClientId = some id →
            envelope.webauthn_client_id = id)
        ∧ ((Config.mk (some (utf16 "app"))).webauthnClientId = none →
            envelope.webauthn_client_id = []) :=
  ⟨rfl,
    (identifiers_carried_through
      (stubPlatform exampleOptionsText exampleDescription (some attestationCredential))
      { webauthnClientId := some (utf16 "app") } exampleDescription exampleParsed
      attestationCredential rfl).1 (registerStart exampleOptionsText) rfl rfl⟩

theorem parsePublicKey_cases (d : JSValue) :
    (∃ r, parsePublicKey.literal d = .ok r
        ∧ parsePublicKey d
          = { result := .ok r
              trace := [.consoleLog [.string (utf16 "parsedPublicKey:"), r]] })
      ∨ ∃ e, parsePublicKey.literal d = .error e
        ∧ parsePublicKey d = { result := .error e, trace := [] } := by
  unfold parsePublicKey
  cases h : parsePublicKey.literal d with
  | error e => exact Or.inr ⟨e, rfl, rfl⟩
  | ok r => exact Or.inl ⟨r, rfl, rfl⟩

theorem parsePublicKey_trace_ok {d r : JSValue} (h : (parsePublicKey d).result = .ok r) :
    (parsePublicKey d).trace = [.consoleLog [.string (utf16 "parsedPublicKey:"), r]] := by
  rcases parsePublicKey_cases d with ⟨r', -, hp⟩ | ⟨e, -, hp⟩
  · rw [hp] at h ⊢
    cases h
    rfl
  · rw [hp] at h
    cases h

/-- C15 as stated fails: a successful `parsePublicKey` writes to the console. -/
theorem transcoder_logs_counterexample :
    (parsePublicKey exampleDescription).trace
        = [.consoleLog [.string (utf16 "parsedPublicKey:"), exampleParsed]]
      ∧ (parsePublicKey exampleDescription).trace ≠ [] :=
  ⟨rfl, fun h => List.noConfusion h⟩

/-- C16: when the start payload parses to `d` and `d` transcodes to `r`, the trace of
`create` holds exactly one capability call, `navigator.credentials.create` on the
options object whose one member `publicKey` is `r`, whatever the capability answers;
and likewise for `get` and `navigator.credentials.get`. -/
theorem capability_called_once (env : Platform) (self : WebAuthnSDK) (d r : JSValue)
    (hparsed : (parsePublicKey d).result = .ok r) :
    (∀ start : StartRegisterResponse, env.jsonParse start.fido2_json_options = .ok d →
        capabilityCalls (create env self start).trace
          = [.credentialsCreate (.object [("publicKey", r)])])
      ∧ ∀ start : StartLoginResponse, env.jsonParse start.fido2_json_options = .ok d →
        capabilityCalls (get env self start).trace
          = [.credentialsGet (.object [("publicKey", r)])] := by
  have htrace := parsePublicKey_trace_ok hparsed
  constructor
  · intro start hjson
    unfold create
    simp only [hjson, hparsed, htrace]
    cases env.credentialsCreate (.object [("publicKey", r)]) with
    | error e => rfl
    | ok c =>
      cases c with
      | none => rfl
      | some attestation => rfl
  · intro start hjson
    unfold get
    simp only [hjson, hparsed, htrace]
    cases env.credentialsGet (.object [("publicKey", r)]) with
    | error e => rfl
    | ok c =>
      cases c with
      | none => rfl
      | some attestation => rfl

set_option maxRecDepth 100000 in
/-- Witness for C16: `create` when the capability yields nothing. -/
theorem capability_called_once_witness :
    (parsePublicKey exampleDescription).result = .ok exampleParsed
      ∧ capabilityCalls
          (create (stubPlatform exampleOptionsText exampleDescription none)
            (WebAuthnSDK.constructor { webauthnClientId := none })
            (registerStart exampleOptionsText)).trace
        = [.credentialsCreate (.object [("publicKey", exampleParsed)])] :=
  ⟨rfl,
    (capability_called_once (stubPlatform exampleOptionsText exampleDescription none)
      (WebAuthnSDK.constructor { webauthnClientId := none }) exampleDescription exampleParsed
      rfl).1 (registerStart exampleOptionsText) rfl⟩

theorem base64ToArrayBuffer_AAE : base64ToArrayBuffer (utf16 "AAE") = .ok [0, 1] := by decide

theorem base64ToArrayBuffer_AAI : base64ToArrayBuffer (utf16 "AAI") = .ok [0, 2] := by decide

/-- C14: registration with `registration_id` `"R1"`, `aa_sig` `"S1"`, challenge
`"AAE"` and user id `"AAI"`, on a credential with `rawId` `[1, 2, 3]`, attestation
object `[4, 5]`, client data `[6]`, no authenticator data and no user handle: the
challenge and the user id are transcoded to `[0, 1]` and `[0, 2]`, and `create`
returns the envelope with `rawId` `"AQID"`, `attestation_object` `"BAU"`,
`client_data` `"Bg"`, no `authenticator_data`, no `user_handle`, `registration_id`
`"R1"` and `aa_sig` `"S1"`. -/
theorem registration_scenario (env : Platform) (self : WebAuthnSDK)
    (start : StartRegisterResponse) (d r user : JSValue) (credential : PublicKeyCredential)
    (hid : start.registration_id = utf16 "R1") (hsig : start.aa_sig = utf16 "S1")
    (hjson : env.jsonParse start.fido2_json_options = .ok d)
    (hchallenge : getProp d "challenge" = .ok (.string (utf16 "AAE")))
    (huser : getProp d "user" = .ok user)
    (huserid : getProp user "id" = .ok (.string (utf16 "AAI")))
    (hparsed : (parsePublicKey d).result = .ok r)
    (hcap : env.credentialsCreate (.object [("publicKey", r)]) = .ok (some credential))
    (hraw : credential.rawId = [1, 2, 3])
    (hao : credential.response.attestationObject = some [4, 5])
    (hcd : credential.response.clientDataJSON = [6])
    (had : credential.response.authenticatorData = none)
    (huh : credential.response.userHandle = none) :
    getProp r "challenge" = .ok (.uint8Array [0, 1])
      ∧ (∃ parsedUser, getProp r "user" = .ok parsedUser
          ∧ getProp parsedUser "id" = .ok (.uint8Array [0, 2]))
      ∧ ∃ envelope, (create env self start).result = .ok envelope
        ∧ envelope.authenticator_response_data.rawId = utf16 "AQID"
        ∧ envelope.authenticator_response_data.attestation_object = utf16 "BAU"
        ∧ envelope.authenticator_response_data.client_data = utf16 "Bg"
        ∧ envelope.authenticator_response_data.authenticator_data = none
        ∧ envelope.authenticator_response_data.user_handle = none
        ∧ envelope.registration_id = utf16 "R1"
        ∧ envelope.aa_sig = utf16 "S1" := by
  obtain ⟨props, a, e, u, s, bytes, rfl, -, -, hu, hl, hb, rfl⟩ :=
    parsePublicKey_literal_ok (parsePublicKey_result_ok hparsed)
  rw [getProp_object] at hchallenge huser
  simp only [hl, Option.getD_some, Except.ok.injEq, JSValue.string.injEq] at hchallenge
  subst hchallenge
  simp only [Except.ok.injEq] at huser
  rw [huser] at hu
  obtain ⟨uprops, rfl, hul⟩ := getProp_eq_string huserid
  rw [(parsePublicKey_user_spec (.object uprops)).2.1 uprops _ _ rfl hul
    base64ToArrayBuffer_AAI] at hu
  cases hu
  rw [base64ToArrayBuffer_AAE] at hb
  cases hb
  refine ⟨?_, ?_, ?_⟩
  · rw [getProp_object, lookup_setProp_self]
    rfl
  · refine ⟨.object (setProp uprops "id" (.uint8Array [0, 2])), ?_, ?_⟩
    · rw [getProp_object, lookup_setProp_ne _ _ _ _ (by decide), lookup_setProp_self]
      rfl
    · rw [getProp_object, lookup_setProp_self]
      rfl
  · refine ⟨_, create_of_credential env self start _ _ credential hjson hparsed hcap,
      ?_, ?_, ?_, ?_, ?_, hid, hsig⟩
    · simp only [responseDataOf, hraw]
      decide
    · simp only [responseDataOf, hao, had]
      decide
    · simp only [responseDataOf, hcd]
      decide
    · simp only [responseDataOf, had, Option.map_none']
    · simp only [responseDataOf, huh, Option.map_none']

set_option maxRecDepth 100000 in
/-- Witness for C14 on `exampleDescription` and `attestationCredential`. -/
theorem registration_scenario_witness :
    (registerStart exampleOptionsText).registration_id = utf16 "R1"
      ∧ (registerStart exampleOptionsText).aa_sig = utf16 "S1"
      ∧ getProp exampleDescription "challenge" = .ok (.string (utf16 "AAE"))
      ∧ attestationCredential.rawId = [1, 2, 3]
      ∧ getProp exampleParsed "challenge" = .ok (.uint8Array [0, 1])
      ∧ (∃ parsedUser, getProp exampleParsed "user" = .ok parsedUser
          ∧ getProp parsedUser "id" = .ok (.uint8Array [0, 2]))
      ∧ ∃ envelope,
        (create (stubPlatform exampleOptionsText exampleDescription (some attestationCredential))
          (WebAuthnSDK.constructor { webauthnClientId := none })
          (registerStart exampleOptionsText)).result = .ok envelope
        ∧ envelope.authenticator_response_data.rawId = utf16 "AQID"
        ∧ envelope.authenticator_response_data.attestation_object = utf16 "BAU"
        ∧ envelope.authenticator_response_data.client_data = utf16 "Bg"
        ∧ envelope.authenticator_response_data.authenticator_data = none
        ∧ envelope.authenticator_response_data.user_handle = none
        ∧ envelope.registration_id = utf16 "R1"
        ∧ envelope.aa_sig = utf16 "S1" :=
  ⟨rfl, rfl, rfl, rfl,
    registration_scenario
      (stubPlatform exampleOptionsText exampleDescription (some attestationCredential))
      (WebAuthnSDK.constructor { webauthnClientId := none }) (registerStart exampleOptionsText)
      exampleDescription exampleParsed
      (.object [("id", .string (utf16 "AAI")), ("name", .string (utf16 "a")),
        ("displayName", .string (utf16 "A"))])
      attestationCredential rfl rfl rfl rfl rfl rfl rfl rfl rfl rfl rfl rfl rfl⟩

/-- C17: `toNormalBase64 t` is `t` with every `-` replaced by `+` and every `_` by
`/`, followed by `(4 - |t| mod 4) mod 4` characters `=`; its length is the least
multiple of 4 that is at least `|t|`; at most 3 characters are appended, and the
loop run with any bound of at least 3 iterations gives this same result. -/
theorem normalization_shape (t : JSString) :
    toNormalBase64 t
        = (t.map fun c => if c = 45 then 43 else if c = 95 then 47 else c)
          ++ List.replicate ((4 - t.length % 4) % 4) 61
      ∧ (toNormalBase64 t).length % 4 = 0
      ∧ t.length ≤ (toNormalBase64 t).length
      ∧ (toNormalBase64 t).length < t.length + 4
      ∧ (4 - t.length % 4) % 4 ≤ 3
      ∧ ∀ fuel, 3 ≤ fuel →
        toNormalBase64.loop fuel (replaceAll 95 (utf16 "/") (replaceAll 45 (utf16 "+") t))
          = toNormalBase64 t := by
  have hmap : (t.map fun c => if c = 45 then 43 else if c = 95 then 47 else c)
      = t.map fromUrlSafe := by
    apply List.map_congr_left
    intro c _
    unfold fromUrlSafe
    by_cases h : c = 45
    · subst h; decide
    · simp [h]
  have hlen : (toNormalBase64 t).length = t.length + (4 - t.length % 4) % 4 := by
    rw [toNormalBase64_eq, List.length_append, List.length_map, List.length_replicate]
  refine ⟨?_, toNormalBase64_loop_exit t, ?_, ?_, ?_, ?_⟩
  · rw [hmap]
    exact toNormalBase64_eq t
  · omega
  · omega
  · omega
  · intro fuel hfuel
    rw [toNormalBase64_loop_fuel fuel _ hfuel]
    rfl

theorem emptyValuesEncoded_responseDataOf (attestation : PublicKeyCredential) :
    EmptyValuesEncoded attestation (responseDataOf attestation) := by
  refine ⟨?_, ?_, ?_, ?_⟩
  · intro h
    simp only [responseDataOf, h, Option.map_some']
    rfl
  · intro h
    simp only [responseDataOf, h, Option.map_some']
    rfl
  · simp [responseDataOf]
  · simp [responseDataOf]

set_option maxRecDepth 100000 in
/-- C18 as stated fails: on a credential whose user handle and authenticator data are
present with length zero, the envelope of `create` has `user_handle` and
`authenticator_data` present, as the empty string. -/
theorem empty_values_counterexample :
    emptyValuesCredential.response.userHandle = some []
      ∧ emptyValuesCredential.response.authenticatorData = some []
      ∧ ∃ envelope,
        (create (stubPlatform exampleOptionsText exampleDescription (some emptyValuesCredential))
          (WebAuthnSDK.constructor { webauthnClientId := none })
          (registerStart exampleOptionsText)).result = .ok envelope
        ∧ envelope.authenticator_response_data.user_handle = some (utf16 "")
        ∧ envelope.authenticator_response_data.user_handle ≠ none
        ∧ envelope.authenticator_response_data.authenticator_data = some (utf16 "")
        ∧ envelope.authenticator_response_data.authenticator_data ≠ none :=
  ⟨rfl, rfl, _,
    create_of_credential _ _ (registerStart exampleOptionsText) exampleDescription
      exampleParsed emptyValuesCredential rfl rfl rfl,
    rfl, fun h => Option.noConfusion h, rfl, fun h => Option.noConfusion h⟩

/-- C18, amended: for a credential returned to `create` or to `get`, a user handle
(authenticator data) that is present with length zero gives a `user_handle`
(`authenticator_data`) that is present and is the empty string; the member is absent
exactly when the value is absent. -/
theorem empty_values_encoded (env : Platform) (self : WebAuthnSDK) (d r : JSValue)
    (attestation : PublicKeyCredential) (hparsed : (parsePublicKey d).result = .ok r) :
    (∀ start : StartRegisterResponse, env.jsonParse start.fido2_json_options = .ok d →
        env.credentialsCreate (.object [("publicKey", r)]) = .ok (some attestation) →
        ∃ envelope, (create env self start).result = .ok envelope
          ∧ EmptyValuesEncoded attestation envelope.authenticator_response_data)
      ∧ ∀ start : StartLoginResponse, env.jsonParse start.fido2_json_options = .ok d →
        env.credentialsGet (.object [("publicKey", r)]) = .ok (some attestation) →
        ∃ envelope, (get env self start).result = .ok envelope
          ∧ EmptyValuesEncoded attestation envelope.authenticator_response_data := by
  constructor
  · intro start hjson hcap
    exact ⟨_, create_of_credential env self start d r attestation hjson hparsed hcap,
      emptyValuesEncoded_responseDataOf attestation⟩
  · intro start hjson hcap
    exact ⟨_, get_of_credential env self start d r attestation hjson hparsed hcap,
      emptyValuesEncoded_responseDataOf attestation⟩

set_option maxRecDepth 100000 in
/-- Witness for the amended C18: `get` on `emptyValuesCredential`. -/
theorem empty_values_encoded_witness :
    (parsePublicKey exampleDescription).result = .ok exampleParsed
      ∧ ∃ envelope,
        (get (stubPlatform exampleOptionsText exampleDescription (some emptyValuesCredential))
          (WebAuthnSDK.constructor { webauthnClientId := none })
          (loginStart exampleOptionsText)).result = .ok envelope
        ∧ EmptyValuesEncoded emptyValuesCredential envelope.authenticator_response_data :=
  ⟨rfl,
    (empty_values_encoded
      (stubPlatform exampleOptionsText exampleDescription (some emptyValuesCredential))
      (WebAuthnSDK.constructor { webauthnClientId := none }) exampleDescription exampleParsed
      emptyValuesCredential rfl).2 (loginStart exampleOptionsText) rfl rfl⟩

/-- C19: `arrayBufferToBase64` returns a text on every buffer: each code unit of the
string handed to `btoa` is at most 255, so `btoa` does not throw. -/
theorem encode_total (buffer : Option (List Nat)) :
    (∀ c ∈ (newUint8Array buffer).foldl (fun binary b => binary ++ fromCharCode b) [],
        c ≤ 255)
      ∧ (∃ base64,
          btoa ((newUint8Array buffer).foldl (fun binary b => binary ++ fromCharCode b) [])
            = .ok base64)
      ∧ ∃ t, arrayBufferToBase64 buffer = .ok t := by
  have hlt := newUint8Array_lt buffer
  have hbin : ∀ c ∈ (newUint8Array buffer).foldl (fun binary b => binary ++ fromCharCode b) [],
      c ≤ 255 := by
    intro c hc
    rw [foldl_fromCharCode, List.nil_append] at hc
    obtain ⟨x, hx, rfl⟩ := List.mem_map.mp hc
    have := hlt x hx
    show x % 65536 ≤ 255
    omega
  refine ⟨hbin, ?_, _, arrayBufferToBase64_eq buffer⟩
  have hany : ((newUint8Array buffer).foldl (fun binary b => binary ++ fromCharCode b) []).any
      (fun c => decide (255 < c)) = false := by
    rw [List.any_eq_false]
    intro c hc
    have := hbin c hc
    simp only [decide_eq_true_eq]
    omega
  refine ⟨base64Encode
    ((newUint8Array buffer).foldl (fun binary b => binary ++ fromCharCode b) []), ?_⟩
  simp only [btoa, hany, Bool.false_eq_true, if_false]

/-- C20: for a credential whose response has neither an attestation object nor
authenticator data, `create` and `get` return an envelope, its `attestation_object`
is the empty string and its `authenticator_data` is absent. -/
theorem missing_payload_gives_empty_text (env : Platform) (self : WebAuthnSDK) (d r : JSValue)
    (attestation : PublicKeyCredential) (hparsed : (parsePublicKey d).result = .ok r)
    (hao : attestation.response.attestationObject = none)
    (had : attestation.response.authenticatorData = none) :
    (∀ start : StartRegisterResponse, env.jsonParse start.fido2_json_options = .ok d →
        env.credentialsCreate (.object [("publicKey", r)]) = .ok (some attestation) →
        ∃ envelope, (create env self start).result = .ok envelope
          ∧ envelope.authenticator_response_data.attestation_object = []
          ∧ arrayBufferToBase64 none = .ok envelope.authenticator_response_data.attestation_object
          ∧ envelope.authenticator_response_data.authenticator_data = none)
      ∧ ∀ start : StartLoginResponse, env.jsonParse start.fido2_json_options = .ok d →
        env.credentialsGet (.object [("publicKey", r)]) = .ok (some attestation) →
        ∃ envelope, (get env self start).result = .ok envelope
          ∧ envelope.authenticator_response_data.attestation_object = []
          ∧ arrayBufferToBase64 none = .ok envelope.authenticator_response_data.attestation_object
          ∧ envelope.authenticator_response_data.authenticator_data = none := by
  have h1 : (responseDataOf attestation).attestation_object = [] := by
    simp only [responseDataOf, hao, had]
    rfl
  have h2 : (responseDataOf attestation).authenticator_data = none := by
    simp only [responseDataOf, had, Option.map_none']
  have h3 : arrayBufferToBase64 none = .ok (responseDataOf attestation).attestation_object := by
    rw [h1]
    rfl
  constructor
  · intro start hjson hcap
    exact ⟨_, create_of_credential env self start d r attestation hjson hparsed hcap,
      h1, h3, h2⟩
  · intro start hjson hcap
    exact ⟨_, get_of_credential env self start d r attestation hjson hparsed hcap,
      h1, h3, h2⟩

set_option maxRecDepth 100000 in
/-- Witness for C20: `create` on `bareCredential`. -/
theorem missing_payload_gives_empty_text_witness :
    (parsePublicKey exampleDescription).result = .ok exampleParsed
      ∧ bareCredential.response.attestationObject = none
      ∧ bareCredential.response.authenticatorData = none
      ∧ ∃ envelope,
        (create (stubPlatform exampleOptionsText exampleDescription (some bareCredential))
          (WebAuthnSDK.constructor { webauthnClientId := none })
          (registerStart exampleOptionsText)).result = .ok envelope
        ∧ envelope.authenticator_response_data.attestation_object = []
        ∧ arrayBufferToBase64 none = .ok envelope.authenticator_response_data.attestation_object
        ∧ envelope.authenticator_response_data.authenticator_data = none :=
  ⟨rfl, rfl, rfl,
    (missing_payload_gives_empty_text
      (stubPlatform exampleOptionsText exampleDescription (some bareCredential))
      (WebAuthnSDK.constructor { webauthnClientId := none }) exampleDescription exampleParsed
      bareCredential rfl rfl rfl).1 (registerStart exampleOptionsText) rfl rfl⟩

set_option maxRecDepth 100000 in
/-- C9 as stated fails: the descriptions `{"challenge":"A","allowCredentials":"abc"}`
and `{"challenge":"A","user":{"name":"a"}}` have a challenge that decode rejects, and
`create` and `get` fail on them with a `TypeError`, which is thrown before the
challenge is decoded, and not with the decode error. -/
theorem decode_error_aborts_before_platform_counterexample :
    (hasRejectedField unshapedListDescription = true
        ∧ (create (stubPlatform unshapedListText unshapedListDescription none)
            (WebAuthnSDK.constructor { webauthnClientId := none })
            (registerStart unshapedListText)).result = .error .typeError
        ∧ (create (stubPlatform unshapedListText unshapedListDescription none)
            (WebAuthnSDK.constructor { webauthnClientId := none })
            (registerStart unshapedListText)).result ≠ .error .invalidCharacterError
        ∧ (get (stubPlatform unshapedListText unshapedListDescription none)
            (WebAuthnSDK.constructor { webauthnClientId := none })
            (loginStart unshapedListText)).result = .error .typeError
        ∧ (get (stubPlatform unshapedListText unshapedListDescription none)
            (WebAuthnSDK.constructor { webauthnClientId := none })
            (loginStart unshapedListText)).result ≠ .error .invalidCharacterError)
      ∧ hasRejectedField unshapedUserDescription = true
        ∧ (create (stubPlatform unshapedUserText unshapedUserDescription none)
            (WebAuthnSDK.constructor { webauthnClientId := none })
            (registerStart unshapedUserText)).result = .error .typeError
        ∧ (create (stubPlatform unshapedUserText unshapedUserDescription none)
            (WebAuthnSDK.constructor { webauthnClientId := none })
            (registerStart unshapedUserText)).result ≠ .error .invalidCharacterError := by
  have hne : ∀ (α : Type) (x : Except JSError α), x = .error .typeError →
      x ≠ .error .invalidCharacterError := by
    intro α x hx h
    rw [hx] at h
    injection h with h
    cases h
  exact ⟨⟨by decide, rfl, hne _ _ rfl, rfl, hne _ _ rfl⟩, by decide, rfl, hne _ _ rfl⟩

/-! ## Properties of the transcoder on a store -/

theorem traverse_mono {α β : Type} (f g : α → Option β) (xs : List α) (ys : List β)
    (hfg : ∀ x ∈ xs, ∀ y, f x = some y → g x = some y) (h : traverse f xs = some ys) :
    traverse g xs = some ys := by
  induction xs generalizing ys with
  | nil => exact h
  | cons x xs ih =>
    simp only [traverse] at h ⊢
    cases hx : f x with
    | none => simp [hx] at h
    | some y =>
      cases hxs : traverse f xs with
      | none => simp [hx, hxs] at h
      | some ys' =>
        simp only [hx, hxs, Option.some.injEq] at h
        rw [hfg x (List.mem_cons_self _ _) y hx,
          ih ys' (fun x' hx' => hfg x' (List.mem_cons_of_mem _ hx')) hxs]
        simpa using h

theorem traverse_eq_some_iff {α β : Type} (f : α → Option β) (xs : List α) (ys : List β) :
    traverse f xs = some ys ↔ List.Forall₂ (fun x y => f x = some y) xs ys := by
  induction xs generalizing ys with
  | nil =>
    constructor
    · intro h
      simp only [traverse, Option.some.injEq] at h
      subst h
      exact List.Forall₂.nil
    · intro h
      cases h
      rfl
  | cons x xs ih =>
    constructor
    · intro h
      simp only [traverse] at h
      cases hx : f x with
      | none => simp [hx] at h
      | some y =>
        cases hxs : traverse f xs with
        | none => simp [hx, hxs] at h
        | some ys' =>
          simp only [hx, hxs, Option.some.injEq] at h
          subst h
          exact List.Forall₂.cons hx ((ih ys').mp hxs)
    · intro h
      cases h with
      | cons hx hrest =>
        simp only [traverse, hx, (ih _).mpr hrest]

theorem getElem?_append_of_some {σ τ : Store} {a : Nat} {c : Cell} (h : σ[a]? = some c) :
    (σ ++ τ)[a]? = some c := by
  have hlt : a < σ.length := by
    by_contra hge
    rw [List.getElem?_eq_none (by omega)] at h
    cases h
  rw [List.getElem?_append_left hlt]
  exact h

theorem denote_mono (n : Nat) (σ τ : Store) (v : HValue) (d : JSValue)
    (h : denote n σ v = some d) : denote (n + 1) (σ ++ τ) v = some d := by
  induction n generalizing v d with
  | zero => cases h
  | succ n ih =>
    cases v with
    | ref a =>
      simp only [denote] at h
      cases hc : σ[a]? with
      | none => simp [hc] at h
      | some c =>
        rw [denote, getElem?_append_of_some hc]
        rw [hc] at h
        cases c with
        | object props =>
          simp only at h ⊢
          cases ht : traverse (fun p => (denote n σ p.2).map fun d => (p.1, d)) props with
          | none => simp [ht] at h
          | some dp =>
            rw [ht] at h
            rw [traverse_mono _ _ props dp ?_ ht]
            · exact h
            · intro p _ y hy
              cases hd : denote n σ p.2 with
              | none => simp [hd] at hy
              | some dv =>
                rw [hd] at hy
                rw [ih p.2 dv hd]
                exact hy
        | array items =>
          simp only at h ⊢
          cases ht : traverse (denote n σ) items with
          | none => simp [ht] at h
          | some ds =>
            rw [ht] at h
            rw [traverse_mono _ _ items ds (fun x _ y hy => ih x y hy) ht]
            exact h
        | uint8Array bytes => exact h
    | undefined => exact h
    | null => exact h
    | boolean b => exact h
    | number k => exact h
    | string s => exact h

theorem denote_mono_fuel {n m : Nat} (hnm : n ≤ m) (σ : Store) (v : HValue) (d : JSValue)
    (h : denote n σ v = some d) : denote m σ v = some d := by
  induction m with
  | zero =>
    have : n = 0 := by omega
    subst this
    exact h
  | succ m ih =>
    by_cases hn : n = m + 1
    · subst hn
      exact h
    · have := denote_mono m σ [] v d (ih (by omega))
      simpa using this

theorem Extends.refl (σ : Store) : Extends σ σ := ⟨[], by simp⟩

theorem Extends.trans {σ σ1 σ2 : Store} (h1 : Extends σ σ1) (h2 : Extends σ1 σ2) :
    Extends σ σ2 := by
  obtain ⟨τ1, rfl⟩ := h1
  obtain ⟨τ2, rfl⟩ := h2
  exact ⟨τ1 ++ τ2, by simp⟩

theorem Extends.lookup {σ σ' : Store} (h : Extends σ σ') (a : Nat) (ha : a < σ.length) :
    σ'[a]? = σ[a]? := by
  obtain ⟨τ, rfl⟩ := h
  exact List.getElem?_append_left ha

theorem Extends.lookup_some {σ σ' : Store} (h : Extends σ σ') {a : Nat} {c : Cell}
    (hc : σ[a]? = some c) : σ'[a]? = some c := by
  obtain ⟨τ, rfl⟩ := h
  exact getElem?_append_of_some hc

theorem denotes_extend {σ σ' : Store} {v : HValue} {d : JSValue} (h : Denotes σ v d)
    (hext : Extends σ σ') : Denotes σ' v d := by
  obtain ⟨n, hn⟩ := h
  obtain ⟨τ, rfl⟩ := hext
  exact ⟨n + 1, denote_mono n σ τ v d hn⟩

theorem denotesProps_extend {σ σ' : Store} {hp : List (String × HValue)}
    {dp : List (String × JSValue)} (h : DenotesProps σ hp dp) (hext : Extends σ σ') :
    DenotesProps σ' hp dp :=
  List.Forall₂.imp (fun _ _ hab => ⟨hab.1, denotes_extend hab.2 hext⟩) h

theorem denotesList_extend {σ σ' : Store} {items : List HValue} {ds : List JSValue}
    (h : DenotesList σ items ds) (hext : Extends σ σ') : DenotesList σ' items ds :=
  List.Forall₂.imp (fun _ _ hab => denotes_extend hab hext) h

theorem denotesProps_common_fuel {σ : Store} {hp : List (String × HValue)}
    {dp : List (String × JSValue)} (h : DenotesProps σ hp dp) :
    ∃ n, traverse (fun p => (denote n σ p.2).map fun d => (p.1, d)) hp = some dp := by
  induction h with
  | nil => exact ⟨0, rfl⟩
  | @cons a b hp dp hab _ ih =>
    obtain ⟨n1, h1⟩ := hab.2
    obtain ⟨n2, h2⟩ := ih
    refine ⟨max n1 n2, ?_⟩
    have h1' := denote_mono_fuel (le_max_left n1 n2) σ a.2 b.2 h1
    have h2' : traverse (fun p => (denote (max n1 n2) σ p.2).map fun d => (p.1, d)) hp
        = some dp := by
      apply traverse_mono _ _ hp dp _ h2
      intro p _ y hy
      cases hd : denote n2 σ p.2 with
      | none => simp [hd] at hy
      | some dv =>
        rw [hd] at hy
        rw [denote_mono_fuel (le_max_right n1 n2) σ p.2 dv hd]
        exact hy
    simp only [traverse, h1', h2', Option.map_some', hab.1]

theorem denotesList_common_fuel {σ : Store} {items : List HValue} {ds : List JSValue}
    (h : DenotesList σ items ds) : ∃ n, traverse (denote n σ) items = some ds := by
  induction h with
  | nil => exact ⟨0, rfl⟩
  | @cons a b items ds hab _ ih =>
    obtain ⟨n1, h1⟩ := hab
    obtain ⟨n2, h2⟩ := ih
    refine ⟨max n1 n2, ?_⟩
    have h1' := denote_mono_fuel (le_max_left n1 n2) σ a b h1
    have h2' : traverse (denote (max n1 n2) σ) items = some ds :=
      traverse_mono _ _ items ds
        (fun x _ y hy => denote_mono_fuel (le_max_right n1 n2) σ x y hy) h2
    simp only [traverse, h1', h2']

theorem getElem?_append_length (σ : Store) (c : Cell) : (σ ++ [c])[σ.length]? = some c := by
  simp

theorem denotes_alloc_object {σ : Store} {hp : List (String × HValue)}
    {dp : List (String × JSValue)} (h : DenotesProps σ hp dp) :
    Denotes (σ ++ [.object hp]) (.ref σ.length) (.object dp) := by
  obtain ⟨n, hn⟩ := denotesProps_common_fuel (denotesProps_extend h ⟨[.object hp], rfl⟩)
  refine ⟨n + 1, ?_⟩
  rw [denote, getElem?_append_length]
  simp only [hn, Option.map_some']

theorem denotes_alloc_array {σ : Store} {items : List HValue} {ds : List JSValue}
    (h : DenotesList σ items ds) :
    Denotes (σ ++ [.array items]) (.ref σ.length) (.array ds) := by
  obtain ⟨n, hn⟩ := denotesList_common_fuel (denotesList_extend h ⟨[.array items], rfl⟩)
  refine ⟨n + 1, ?_⟩
  rw [denote, getElem?_append_length]
  simp only [hn, Option.map_some']

theorem denotes_alloc_bytes (σ : Store) (bytes : List Nat) :
    Denotes (σ ++ [.uint8Array bytes]) (.ref σ.length) (.uint8Array bytes) := by
  refine ⟨1, ?_⟩
  rw [denote, getElem?_append_length]

theorem denotes_ref {σ : Store} {a : Nat} {d : JSValue} (h : Denotes σ (.ref a) d) :
    (∃ hp dp, σ[a]? = some (.object hp) ∧ d = .object dp ∧ DenotesProps σ hp dp)
      ∨ (∃ items ds, σ[a]? = some (.array items) ∧ d = .array ds ∧ DenotesList σ items ds)
      ∨ ∃ bytes, σ[a]? = some (.uint8Array bytes) ∧ d = .uint8Array bytes := by
  obtain ⟨n, hn⟩ := h
  cases n with
  | zero => cases hn
  | succ n =>
    rw [denote] at hn
    cases hc : σ[a]? with
    | none => simp [hc] at hn
    | some c =>
      rw [hc] at hn
      cases c with
      | object hp =>
        simp only at hn
        cases ht : traverse (fun p => (denote n σ p.2).map fun d => (p.1, d)) hp with
        | none => simp [ht] at hn
        | some dp =>
          rw [ht] at hn
          simp only [Option.map_some', Option.some.injEq] at hn
          refine Or.inl ⟨hp, dp, rfl, hn.symm, ?_⟩
          have := (traverse_eq_some_iff _ _ _).mp ht
          refine List.Forall₂.imp ?_ this
          intro p q hpq
          cases hd : denote n σ p.2 with
          | none => simp [hd] at hpq
          | some dv =>
            rw [hd] at hpq
            simp only [Option.map_some', Option.some.injEq] at hpq
            subst hpq
            exact ⟨rfl, n, hd⟩
      | array items =>
        simp only at hn
        cases ht : traverse (denote n σ) items with
        | none => simp [ht] at hn
        | some ds =>
          rw [ht] at hn
          simp only [Option.map_some', Option.some.injEq] at hn
          refine Or.inr (Or.inl ⟨items, ds, rfl, hn.symm, ?_⟩)
          exact List.Forall₂.imp (fun _ _ h => ⟨n, h⟩) ((traverse_eq_some_iff _ _ _).mp ht)
      | uint8Array bytes =>
        simp only [Option.some.injEq] at hn
        exact Or.inr (Or.inr ⟨bytes, rfl, hn.symm⟩)

theorem denotes_primitive {σ : Store} {v : HValue} {d : JSValue} (h : Denotes σ v d) :
    (v = .undefined → d = .undefined) ∧ (v = .null → d = .null)
      ∧ (∀ b, v = .boolean b → d = .boolean b) ∧ (∀ k, v = .number k → d = .number k)
      ∧ (∀ s, v = .string s → d = .string s) := by
  obtain ⟨n, hn⟩ := h
  cases n with
  | zero => cases hn
  | succ n =>
    refine ⟨?_, ?_, ?_, ?_, ?_⟩
    · rintro rfl
      simpa [denote] using hn.symm
    · rintro rfl
      simpa [denote] using hn.symm
    · rintro b rfl
      simpa [denote] using hn.symm
    · rintro k rfl
      simpa [denote] using hn.symm
    · rintro s rfl
      simpa [denote] using hn.symm

theorem denotes_undefined (σ : Store) : Denotes σ .undefined .undefined := ⟨1, rfl⟩

theorem denotesProps_lookup {σ : Store} {hp : List (String × HValue)}
    {dp : List (String × JSValue)} (h : DenotesProps σ hp dp) (key : String) :
    Denotes σ ((hp.lookup key).getD .undefined) ((dp.lookup key).getD .undefined) := by
  induction h with
  | nil => exact denotes_undefined σ
  | @cons a b hp dp hab _ ih =>
    obtain ⟨ak, av⟩ := a
    obtain ⟨bk, bv⟩ := b
    obtain ⟨hk, hv⟩ := hab
    simp only at hk hv
    subst hk
    by_cases hkey : key = ak
    · subst hkey
      simpa [List.lookup] using hv
    · have hne : (key == ak) = false := by simpa using hkey
      simpa [List.lookup, hne] using ih

theorem denotes_getProp {σ : Store} {v : HValue} {d : JSValue} (h : Denotes σ v d)
    (key : String) : RelResult (Denotes σ) (storeGetProp σ v key) (getProp d key) := by
  have hprim := denotes_primitive h
  cases v with
  | undefined => rw [hprim.1 rfl]; exact rfl
  | null => rw [hprim.2.1 rfl]; exact rfl
  | boolean b => rw [hprim.2.2.1 b rfl]; exact denotes_undefined σ
  | number k => rw [hprim.2.2.2.1 k rfl]; exact denotes_undefined σ
  | string s => rw [hprim.2.2.2.2 s rfl]; exact denotes_undefined σ
  | ref a =>
    rcases denotes_ref h with ⟨hp, dp, hc, rfl, hden⟩ | ⟨items, ds, hc, rfl, -⟩ | ⟨bytes, hc, rfl⟩
    · simp only [storeGetProp, hc, getProp]
      exact denotesProps_lookup hden key
    · simp only [storeGetProp, hc, getProp]
      exact denotes_undefined σ
    · simp only [storeGetProp, hc, getProp]
      exact denotes_undefined σ

theorem denotes_typeof {σ : Store} {v : HValue} {d : JSValue} (h : Denotes σ v d) :
    storeTypeof v = typeof d := by
  have hprim := denotes_primitive h
  cases v with
  | undefined => rw [hprim.1 rfl]; rfl
  | null => rw [hprim.2.1 rfl]; rfl
  | boolean b => rw [hprim.2.2.1 b rfl]; rfl
  | number k => rw [hprim.2.2.2.1 k rfl]; rfl
  | string s => rw [hprim.2.2.2.2 s rfl]; rfl
  | ref a =>
    rcases denotes_ref h with ⟨hp, dp, hc, rfl, hden⟩ | ⟨items, ds, hc, rfl, -⟩ | ⟨bytes, hc, rfl⟩
      <;> rfl

theorem denotesProps_enumFrom {σ : Store} {items : List HValue} {ds : List JSValue}
    (h : DenotesList σ items ds) (k : Nat) :
    DenotesProps σ ((items.enumFrom k).map fun p => (toString p.1, p.2))
      ((ds.enumFrom k).map fun p => (toString p.1, p.2)) := by
  induction h generalizing k with
  | nil => exact List.Forall₂.nil
  | @cons a b items ds hab _ ih =>
    exact List.Forall₂.cons ⟨rfl, hab⟩ (ih (k + 1))

theorem denotesProps_of_primitives {α : Type} (σ : Store) (xs : List α)
    (f : α → String × HValue) (g : α → String × JSValue)
    (hfg : ∀ x, (f x).1 = (g x).1 ∧ Denotes σ (f x).2 (g x).2) :
    DenotesProps σ (xs.map f) (xs.map g) := by
  induction xs with
  | nil => exact List.Forall₂.nil
  | cons x xs ih => exact List.Forall₂.cons (hfg x) ih

theorem denotes_spread {σ : Store} {v : HValue} {d : JSValue} (h : Denotes σ v d) :
    DenotesProps σ (storeSpread σ v) (spread d) := by
  have hprim := denotes_primitive h
  cases v with
  | undefined => rw [hprim.1 rfl]; exact List.Forall₂.nil
  | null => rw [hprim.2.1 rfl]; exact List.Forall₂.nil
  | boolean b => rw [hprim.2.2.1 b rfl]; exact List.Forall₂.nil
  | number k => rw [hprim.2.2.2.1 k rfl]; exact List.Forall₂.nil
  | string s =>
    rw [hprim.2.2.2.2 s rfl]
    exact denotesProps_of_primitives σ s.enum _ _ (fun x => ⟨rfl, 1, rfl⟩)
  | ref a =>
    rcases denotes_ref h with ⟨hp, dp, hc, rfl, hden⟩ | ⟨items, ds, hc, rfl, hden⟩
      | ⟨bytes, hc, rfl⟩
    · simp only [storeSpread, hc, spread]
      exact hden
    · simp only [storeSpread, hc, spread]
      exact denotesProps_enumFrom hden 0
    · simp only [storeSpread, hc, spread]
      exact denotesProps_of_primitives σ bytes.enum _ _ (fun x => ⟨rfl, 1, rfl⟩)

theorem denotesProps_any {σ : Store} {hp : List (String × HValue)}
    {dp : List (String × JSValue)} (h : DenotesProps σ hp dp) (key : String) :
    hp.any (fun p => p.1 == key) = dp.any (fun p => p.1 == key) := by
  induction h with
  | nil => rfl
  | @cons a b hp dp hab _ ih =>
    simp only [List.any_cons, hab.1, ih]

theorem denotesProps_setProp {σ : Store} {hp : List (String × HValue)}
    {dp : List (String × JSValue)} (h : DenotesProps σ hp dp) (key : String)
    {hv : HValue} {dv : JSValue} (hden : Denotes σ hv dv) :
    DenotesProps σ (storeSetProp hp key hv) (setProp dp key dv) := by
  unfold storeSetProp setProp
  rw [denotesProps_any h key]
  split
  · clear * - h hden
    induction h with
    | nil => exact List.Forall₂.nil
    | @cons a b hp dp hab _ ih =>
      refine List.Forall₂.cons ?_ ih
      have hab1 := hab.1
      by_cases hk : b.1 = key
      · have h1 : (a.1 == key) = true := by simp [hab1, hk]
        have h2 : (b.1 == key) = true := by simp [hk]
        simp only [h1, h2, if_true]
        exact ⟨trivial, hden⟩
      · have h1 : (a.1 == key) = false := by simp [hab1, hk]
        have h2 : (b.1 == key) = false := by simp [hk]
        simp only [h1, h2, Bool.false_eq_true, if_false]
        exact ⟨hab.1, hab.2⟩
  · exact List.rel_append h (List.Forall₂.cons ⟨rfl, hden⟩ List.Forall₂.nil)

theorem storeM_bind_apply {α β : Type} (m : StoreM α) (f : α → StoreM β) (σ : Store) :
    (m >>= f) σ
      = match m σ with
        | (σ1, .error e) => (σ1, .error e)
        | (σ1, .ok a) => f a σ1 := rfl

theorem refines_congr {α β : Type} {R : Store → α → β → Prop} {σ : Store} {m m' : StoreM α}
    {y : Except JSError β} (hm : m' σ = m σ) (h : Refines R σ m y) : Refines R σ m' y := by
  unfold Refines at h ⊢
  rw [hm]
  exact h

theorem refines_bind {α β α' β' : Type} {R : Store → α → β → Prop}
    {R' : Store → α' → β' → Prop} {σ : Store} {m : StoreM α} {y : Except JSError β}
    {f : α → StoreM α'} {g : β → Except JSError β'} (h : Refines R σ m y)
    (hf : ∀ σ1 a b, Extends σ σ1 → R σ1 a b → Refines R' σ1 (f a) (g b)) :
    Refines R' σ (m >>= f) (y >>= g) := by
  obtain ⟨hext, hrel⟩ := h
  unfold Refines
  rw [storeM_bind_apply]
  rcases hm : m σ with ⟨σ1, res⟩
  rw [hm] at hext hrel
  cases res with
  | error e =>
    cases y with
    | error e' => exact ⟨hext, hrel⟩
    | ok b => exact absurd hrel id
  | ok a =>
    cases y with
    | error e' => exact absurd hrel id
    | ok b =>
      obtain ⟨hext2, hrel2⟩ := hf σ1 a b hext hrel
      exact ⟨hext.trans hext2, hrel2⟩

theorem refines_lift {α β : Type} {R : Store → α → β → Prop} {σ : Store}
    {x : Store → Except JSError α} {y : Except JSError β} (h : RelResult (R σ) (x σ) y) :
    Refines R σ (StoreM.lift x) y :=
  ⟨Extends.refl σ, h⟩

theorem refines_pure {α β : Type} {R : Store → α → β → Prop} {σ : Store} {a : α} {b : β}
    (h : R σ a b) : Refines R σ (pure a) (.ok b) :=
  ⟨Extends.refl σ, h⟩

theorem refines_alloc {β : Type} {R : Store → HValue → β → Prop} {σ : Store} {cell : Cell}
    {b : β} (h : R (σ ++ [cell]) (.ref σ.length) b) : Refines R σ (StoreM.alloc cell) (.ok b) :=
  ⟨⟨[cell], rfl⟩, h⟩

theorem refines_error {α β : Type} {R : Store → α → β → Prop} {σ : Store} (e : JSError) :
    Refines R σ (StoreM.lift fun _ => (.error e : Except JSError α)) (.error e) :=
  ⟨Extends.refl σ, rfl⟩

theorem set_append_length (σ : Store) (c c' : Cell) :
    (σ ++ [c]).set σ.length c' = σ ++ [c'] := by
  induction σ with
  | nil => rfl
  | cons x xs ih => simp [List.set, ih]

theorem set_append_replicate (pre : List Nat) (k v : Nat) :
    (pre ++ List.replicate (k + 1) 0).set pre.length v = (pre ++ [v]) ++ List.replicate k 0 := by
  induction pre with
  | nil => simp [List.replicate, List.set]
  | cons x xs ih => simp [List.set, List.replicate_succ] at ih ⊢

theorem storeFillBytes_spec (σ : Store) (bs : JSString) (k : Nat) (pre : List Nat)
    (hlen : pre.length + k = bs.length)
    (hpre : pre = (bs.take pre.length).map (· % 256)) :
    storeFillBytes σ.length bs pre.length k (σ ++ [.uint8Array (pre ++ List.replicate k 0)])
      = (σ ++ [.uint8Array (bs.map (· % 256))], .ok ()) := by
  induction k generalizing pre with
  | zero =>
    have htake : bs.take pre.length = bs := List.take_of_length_le (by omega)
    rw [htake] at hpre
    simp only [storeFillBytes, List.replicate_zero, List.append_nil]
    rw [← hpre]
    rfl
  | succ k ih =>
    have hi : pre.length < bs.length := by omega
    have hstep : StoreM.setByte σ.length pre.length (bs.getD pre.length 0)
        (σ ++ [.uint8Array (pre ++ List.replicate (k + 1) 0)])
        = (σ ++ [.uint8Array ((pre ++ [bs.getD pre.length 0 % 256]) ++ List.replicate k 0)],
            .ok ()) := by
      unfold StoreM.setByte
      rw [getElem?_append_length]
      simp only [set_append_length, set_append_replicate]
    have hpre' : pre ++ [bs.getD pre.length 0 % 256]
        = (bs.take (pre ++ [bs.getD pre.length 0 % 256]).length).map (· % 256) := by
      rw [List.length_append, List.length_singleton, List.take_succ, List.map_append, ← hpre]
      congr 1
      rw [List.getElem?_eq_getElem hi, List.getD_eq_getElem _ _ hi]
      rfl
    have hnext := ih (pre ++ [bs.getD pre.length 0 % 256])
      (by rw [List.length_append, List.length_singleton]; omega) hpre'
    rw [List.length_append, List.length_singleton] at hnext
    show (StoreM.setByte σ.length pre.length (bs.getD pre.length 0) >>= fun _ =>
      storeFillBytes σ.length bs (pre.length + 1) k) _ = _
    rw [storeM_bind_apply, hstep]
    exact hnext

theorem storeBase64ToArrayBuffer_apply (base64 : JSString) (σ : Store) :
    storeBase64ToArrayBuffer base64 σ
      = match atob (toNormalBase64 base64) with
        | .error e => (σ, .error e)
        | .ok bs => (σ ++ [.uint8Array (bs.map (· % 256))], .ok (.ref σ.length)) := by
  cases hb : atob (toNormalBase64 base64) with
  | error e =>
    simp only [storeBase64ToArrayBuffer, storeM_bind_apply, StoreM.lift, hb]
  | ok bs =>
    have hfill := storeFillBytes_spec σ bs bs.length [] (by simp) (by simp)
    simp only [List.length_nil, List.nil_append] at hfill
    simp only [storeBase64ToArrayBuffer, storeM_bind_apply, StoreM.lift, hb, StoreM.alloc,
      hfill]
    rfl

theorem refines_base64ToArrayBufferAny {σ : Store} {v : HValue} {d : JSValue}
    (h : Denotes σ v d) :
    Refines Denotes σ (storeBase64ToArrayBufferAny v) (base64ToArrayBufferAny d) := by
  have hprim := denotes_primitive h
  cases v with
  | string s =>
    rw [hprim.2.2.2.2 s rfl]
    unfold Refines
    rw [show storeBase64ToArrayBufferAny (.string s) = storeBase64ToArrayBuffer s from rfl,
      storeBase64ToArrayBuffer_apply, base64ToArrayBufferAny_string]
    unfold base64ToArrayBuffer
    cases hb : atob (toNormalBase64 s) with
    | error e => exact ⟨Extends.refl σ, rfl⟩
    | ok bs => exact ⟨⟨_, rfl⟩, denotes_alloc_bytes σ _⟩
  | undefined => rw [hprim.1 rfl]; exact refines_error _
  | null => rw [hprim.2.1 rfl]; exact refines_error _
  | boolean b => rw [hprim.2.2.1 b rfl]; exact refines_error _
  | number k => rw [hprim.2.2.2.1 k rfl]; exact refines_error _
  | ref a =>
    rcases denotes_ref h with ⟨hp, dp, hc, rfl, hden⟩ | ⟨items, ds, hc, rfl, -⟩ | ⟨bytes, hc, rfl⟩
      <;> exact refines_error _

theorem refines_objectWithId {σ : Store} {v : HValue} {d : JSValue} (h : Denotes σ v d) :
    Refines Denotes σ
      (do
        let props ← StoreM.lift fun σ => .ok (storeSpread σ v)
        let id ← storeBase64ToArrayBufferAny (← StoreM.lift fun σ => storeGetProp σ v "id")
        StoreM.alloc (.object (storeSetProp props "id" id)))
      (getProp d "id" >>= fun idText => base64ToArrayBufferAny idText >>= fun id =>
        pure (.object (setProp (spread d) "id" id))) := by
  have hprops := denotes_spread h
  refine refines_congr (m := (StoreM.lift fun σ => storeGetProp σ v "id") >>= fun idText =>
    storeBase64ToArrayBufferAny idText >>= fun id =>
      StoreM.alloc (.object (storeSetProp (storeSpread σ v) "id" id))) rfl ?_
  refine refines_bind (R := Denotes) (refines_lift (denotes_getProp h "id")) ?_
  intro σ1 idText idD hext1 hid
  refine refines_bind (R := Denotes) (refines_base64ToArrayBufferAny hid) ?_
  intro σ2 id idV hext2 hidv
  refine refines_alloc ?_
  exact denotes_alloc_object
    (denotesProps_setProp (denotesProps_extend hprops (hext1.trans hext2)) "id" hidv)

theorem refines_parseCredential {σ : Store} {v : HValue} {d : JSValue} (h : Denotes σ v d) :
    Refines Denotes σ (storeParseCredential v) (parseCredential d) :=
  refines_objectWithId h

theorem refines_parseUser {σ : Store} {v : HValue} {d : JSValue} (h : Denotes σ v d) :
    Refines Denotes σ (storeParseUser v) (parsePublicKey.user d) := by
  unfold storeParseUser parsePublicKey.user
  rw [denotes_typeof h]
  split
  · exact refines_objectWithId h
  · exact refines_pure h

theorem refines_arrayMap (items : List HValue) :
    ∀ (σ : Store) (ds : List JSValue), DenotesList σ items ds →
      Refines DenotesList σ (storeArrayMap items) (arrayMap parseCredential ds) := by
  induction items with
  | nil =>
    intro σ ds h
    cases h
    exact refines_pure List.Forall₂.nil
  | cons x xs ih =>
    intro σ ds h
    cases h with
    | @cons _ b _ ds' hab hrest =>
      show Refines DenotesList σ
        (storeParseCredential x >>= fun y => storeArrayMap xs >>= fun ys => pure (y :: ys))
        (parseCredential b >>= fun y => arrayMap parseCredential ds' >>= fun ys =>
          pure (y :: ys))
      refine refines_bind (R := Denotes) (refines_parseCredential hab) ?_
      intro σ1 y yd hext1 hy
      refine refines_bind (R := DenotesList)
        (ih σ1 ds' (denotesList_extend hrest hext1)) ?_
      intro σ2 ys ysd hext2 hys
      exact refines_pure (List.Forall₂.cons (denotes_extend hy hext2) hys)

theorem refines_parseCredentials {σ : Store} {v : HValue} {d : JSValue} (h : Denotes σ v d) :
    Refines Denotes σ (storeParseCredentials v) (parseCredentials d) := by
  have hprim := denotes_primitive h
  cases v with
  | undefined => rw [hprim.1 rfl]; exact refines_pure (denotes_undefined σ)
  | null => rw [hprim.2.1 rfl]; exact refines_pure (denotes_undefined σ)
  | boolean b => rw [hprim.2.2.1 b rfl]; exact refines_error _
  | number k => rw [hprim.2.2.2.1 k rfl]; exact refines_error _
  | string s => rw [hprim.2.2.2.2 s rfl]; exact refines_error _
  | ref a =>
    rcases denotes_ref h with ⟨hp, dp, hc, rfl, hden⟩ | ⟨items, ds, hc, rfl, hden⟩
      | ⟨bytes, hc, rfl⟩
    · refine refines_congr (m := StoreM.lift fun _ => .error .typeError) ?_ (refines_error _)
      simp only [storeParseCredentials, storeM_bind_apply, StoreM.lift, hc]
    · refine refines_congr (m := storeArrayMap items >>= fun parsed =>
        StoreM.alloc (.array parsed)) ?_ ?_
      · simp only [storeParseCredentials, storeM_bind_apply, StoreM.lift, hc]
      · show Refines Denotes σ _ (arrayMap parseCredential ds >>= fun parsed =>
          pure (.array parsed))
        refine refines_bind (R := DenotesList) (refines_arrayMap items σ ds hden) ?_
        intro σ1 parsed pd hext hparsed
        exact refines_alloc (denotes_alloc_array hparsed)
    · refine refines_congr (m := StoreM.lift fun _ => .error .typeError) ?_ (refines_error _)
      simp only [storeParseCredentials, storeM_bind_apply, StoreM.lift, hc]

theorem refines_parseLiteral {σ : Store} {v : HValue} {d : JSValue} (h : Denotes σ v d) :
    Refines Denotes σ (storeParseLiteral v) (parsePublicKey.literal d) := by
  have hprops := denotes_spread h
  refine refines_congr (m :=
    (StoreM.lift fun σ => storeGetProp σ v "allowCredentials") >>= fun l1 =>
    storeParseCredentials l1 >>= fun allowCredentials =>
    (StoreM.lift fun σ => storeGetProp σ v "excludeCredentials") >>= fun l2 =>
    storeParseCredentials l2 >>= fun excludeCredentials =>
    (StoreM.lift fun σ => storeGetProp σ v "user") >>= fun u =>
    storeParseUser u >>= fun user =>
    (StoreM.lift fun σ => storeGetProp σ v "challenge") >>= fun c =>
    storeBase64ToArrayBufferAny c >>= fun challenge =>
    StoreM.alloc (.object (storeSetProp (storeSetProp (storeSetProp (storeSetProp
      (storeSpread σ v) "allowCredentials" allowCredentials)
      "excludeCredentials" excludeCredentials) "user" user) "challenge" challenge))) rfl ?_
  show Refines Denotes σ _
    (getProp d "allowCredentials" >>= fun l1 =>
    parseCredentials l1 >>= fun allowCredentials =>
    getProp d "excludeCredentials" >>= fun l2 =>
    parseCredentials l2 >>= fun excludeCredentials =>
    getProp d "user" >>= fun u =>
    parsePublicKey.user u >>= fun user =>
    getProp d "challenge" >>= fun c =>
    base64ToArrayBufferAny c >>= fun challenge =>
    pure (.object (setProp (setProp (setProp (setProp (spread d)
      "allowCredentials" allowCredentials) "excludeCredentials" excludeCredentials)
      "user" user) "challenge" challenge)))
  refine refines_bind (R := Denotes)
    (refines_lift (denotes_getProp h "allowCredentials")) ?_
  intro σ1 l1 l1d e1 hl1
  refine refines_bind (R := Denotes) (refines_parseCredentials hl1) ?_
  intro σ2 allow allowD e2 hallow
  have h2 := denotes_extend h (e1.trans e2)
  refine refines_bind (R := Denotes)
    (refines_lift (denotes_getProp h2 "excludeCredentials")) ?_
  intro σ3 l2 l2d e3 hl2
  refine refines_bind (R := Denotes) (refines_parseCredentials hl2) ?_
  intro σ4 excl exclD e4 hexcl
  have h4 := denotes_extend h2 (e3.trans e4)
  refine refines_bind (R := Denotes) (refines_lift (denotes_getProp h4 "user")) ?_
  intro σ5 u ud e5 hu
  refine refines_bind (R := Denotes) (refines_parseUser hu) ?_
  intro σ6 user userD e6 huser
  have h6 := denotes_extend h4 (e5.trans e6)
  refine refines_bind (R := Denotes) (refines_lift (denotes_getProp h6 "challenge")) ?_
  intro σ7 c cd e7 hc
  refine refines_bind (R := Denotes) (refines_base64ToArrayBufferAny hc) ?_
  intro σ8 challenge challengeD e8 hchallenge
  refine refines_alloc (denotes_alloc_object ?_)
  have e18 : Extends σ σ8 :=
    (((((((e1.trans e2).trans e3).trans e4).trans e5).trans e6).trans e7).trans e8)
  have e28 : Extends σ2 σ8 := (((((e3.trans e4).trans e5).trans e6).trans e7).trans e8)
  have e48 : Extends σ4 σ8 := (((e5.trans e6).trans e7).trans e8)
  have e68 : Extends σ6 σ8 := e7.trans e8
  exact denotesProps_setProp (denotesProps_setProp (denotesProps_setProp
    (denotesProps_setProp (denotesProps_extend hprops e18) "allowCredentials" (denotes_extend hallow e28))
    "excludeCredentials" (denotes_extend hexcl e48)) "user" (denotes_extend huser e68))
    "challenge" hchallenge

theorem storeParsePublicKey_cases (σ : Store) (p : HValue) :
    (storeParsePublicKey σ p).store = (storeParseLiteral p σ).1
      ∧ (storeParsePublicKey σ p).result = (storeParseLiteral p σ).2
      ∧ (∀ e, (storeParsePublicKey σ p).result = .error e →
          (storeParsePublicKey σ p).trace = [])
      ∧ ∀ r, (storeParsePublicKey σ p).result = .ok r →
        (storeParsePublicKey σ p).trace
          = [.consoleLog [.string (utf16 "parsedPublicKey:"), r]] := by
  unfold storeParsePublicKey
  rcases h : storeParseLiteral p σ with ⟨σ1, res⟩
  cases res with
  | error e =>
    refine ⟨rfl, rfl, fun _ _ => rfl, ?_⟩
    intro r hr
    cases hr
  | ok r =>
    refine ⟨rfl, rfl, ?_, ?_⟩
    · intro e he
      cases he
    · intro r' hr
      cases hr
      rfl

theorem parsePublicKey_result (d : JSValue) :
    (parsePublicKey d).result = parsePublicKey.literal d := by
  unfold parsePublicKey
  cases parsePublicKey.literal d <;> rfl

theorem refines_parsePublicKey {σ : Store} {p : HValue} {d : JSValue} (h : Denotes σ p d) :
    Extends σ (storeParsePublicKey σ p).store
      ∧ RelResult (Denotes (storeParsePublicKey σ p).store) (storeParsePublicKey σ p).result
        (parsePublicKey d).result := by
  obtain ⟨hs, hr, -, -⟩ := storeParsePublicKey_cases σ p
  rw [hs, hr, parsePublicKey_result]
  exact refines_parseLiteral h

/-- C15, amended: a call of `parsePublicKey` on a reference `p` that stands for the
description `d` in the store `σ`
* ends like every other call on a reference that stands for `d`, in whatever store:
  the same error, or results that stand for the same value;
* leaves every object of `σ` as it is, so that `p` still stands for `d`;
* calls no platform capability: a failing call causes no event, and a successful
  call causes exactly one, the `console.log` of the label `parsedPublicKey:` and the
  object it returns;
* agrees with `parsePublicKey d` on values. -/
theorem transcoder_effects (σ : Store) (p : HValue) (d : JSValue) (hden : Denotes σ p d) :
    (∀ σ₂ p₂, Denotes σ₂ p₂ d →
        SameOutcome (storeParsePublicKey σ p) (storeParsePublicKey σ₂ p₂))
      ∧ (∀ a, a < σ.length → (storeParsePublicKey σ p).store[a]? = σ[a]?)
      ∧ Denotes (storeParsePublicKey σ p).store p d
      ∧ (∀ event ∈ (storeParsePublicKey σ p).trace, ∃ args, event = .consoleLog args)
      ∧ (∀ e, (storeParsePublicKey σ p).result = .error e →
          (storeParsePublicKey σ p).trace = [])
      ∧ (∀ r, (storeParsePublicKey σ p).result = .ok r →
          (storeParsePublicKey σ p).trace
            = [.consoleLog [.string (utf16 "parsedPublicKey:"), r]])
      ∧ RelResult (Denotes (storeParsePublicKey σ p).store) (storeParsePublicKey σ p).result
          (parsePublicKey d).result := by
  obtain ⟨hext, hrel⟩ := refines_parsePublicKey hden
  obtain ⟨-, -, htrace_err, htrace_ok⟩ := storeParsePublicKey_cases σ p
  refine ⟨?_, fun a ha => hext.lookup a ha, denotes_extend hden hext, ?_, htrace_err, htrace_ok, hrel⟩
  · intro σ₂ p₂ hden₂
    obtain ⟨-, hrel₂⟩ := refines_parsePublicKey hden₂
    unfold SameOutcome
    cases h1 : (storeParsePublicKey σ p).result with
    | error e₁ =>
      cases h2 : (storeParsePublicKey σ₂ p₂).result with
      | error e₂ =>
        rw [h1] at hrel
        rw [h2] at hrel₂
        cases hy : (parsePublicKey d).result with
        | error e =>
          rw [hy] at hrel hrel₂
          exact hrel.trans hrel₂.symm
        | ok rd =>
          rw [hy] at hrel
          exact absurd hrel id
      | ok r₂ =>
        rw [h1] at hrel
        rw [h2] at hrel₂
        cases hy : (parsePublicKey d).result with
        | error e =>
          rw [hy] at hrel₂
          exact absurd hrel₂ id
        | ok rd =>
          rw [hy] at hrel
          exact absurd hrel id
    | ok r₁ =>
      cases h2 : (storeParsePublicKey σ₂ p₂).result with
      | error e₂ =>
        rw [h1] at hrel
        rw [h2] at hrel₂
        cases hy : (parsePublicKey d).result with
        | error e =>
          rw [hy] at hrel
          exact absurd hrel id
        | ok rd =>
          rw [hy] at hrel₂
          exact absurd hrel₂ id
      | ok r₂ =>
        rw [h1] at hrel
        rw [h2] at hrel₂
        cases hy : (parsePublicKey d).result with
        | error e =>
          rw [hy] at hrel
          exact absurd hrel id
        | ok rd =>
          rw [hy] at hrel hrel₂
          exact ⟨rd, hrel, hrel₂⟩
  · intro event hev
    cases h1 : (storeParsePublicKey σ p).result with
    | error e =>
      rw [htrace_err e h1] at hev
      cases hev
    | ok r =>
      rw [htrace_ok r h1] at hev
      simp only [List.mem_singleton] at hev
      exact ⟨_, hev⟩

/-- Witness for the amended C15: the call on `exampleStore`, where the reference to
the object at address 5 stands for `exampleDescription`; the call returns the new
object at address 14, which stands for `exampleParsed`, and ends like the call on
`exampleStoreOther`. -/
theorem transcoder_effects_witness :
    Denotes exampleStore (.ref 5) exampleDescription
      ∧ Denotes exampleStoreOther (.ref 0) exampleDescription
      ∧ (storeParsePublicKey exampleStore (.ref 5)).result = .ok (.ref 14)
      ∧ Denotes (storeParsePublicKey exampleStore (.ref 5)).store (.ref 14) exampleParsed
      ∧ (storeParsePublicKey exampleStore (.ref 5)).store[5]? = exampleStore[5]?
      ∧ Denotes (storeParsePublicKey exampleStore (.ref 5)).store (.ref 5) exampleDescription
      ∧ SameOutcome (storeParsePublicKey exampleStore (.ref 5))
          (storeParsePublicKey exampleStoreOther (.ref 0)) :=
  ⟨⟨4, rfl⟩, ⟨4, rfl⟩, rfl, ⟨4, rfl⟩,
    (transcoder_effects exampleStore (.ref 5) exampleDescription ⟨4, rfl⟩).2.1 5 (by decide),
    (transcoder_effects exampleStore (.ref 5) exampleDescription ⟨4, rfl⟩).2.2.1,
    (transcoder_effects exampleStore (.ref 5) exampleDescription ⟨4, rfl⟩).1
      exampleStoreOther (.ref 0) ⟨4, rfl⟩⟩

end AuthArmor
